import Mathlib

/-!
# libcgss: HCA random-access reader and AFS2 directory parser

A shallow embedding of `src/kawashima/hca/CHcaDecoder.cpp` and
`src/ichinose/CAfs2Archive.cpp`.

* Machine integers are natural numbers reduced explicitly: `std::uint32_t`
  arithmetic is taken modulo `2 ^ 32`, `std::uint64_t` and `std::size_t`
  arithmetic modulo `2 ^ 64`.
* A member function that mutates the object is a function from the object to a
  result paired with the new object; a C++ exception is an `Except.error`, and
  the object that comes back with it is the object as the exception left it.
* An operation without defined behaviour (integer division by zero) is the
  distinguished outcome `CException.Undefined`.
-/

namespace Cgss

/-! ## Machine arithmetic -/

/-- Modulus of `std::uint32_t`. -/
def U32 : Nat := 2 ^ 32

/-- Modulus of `std::uint64_t` and of `std::size_t`. -/
def U64 : Nat := 2 ^ 64

/-- Sum of two `std::uint32_t`. -/
def add32 (a b : Nat) : Nat := (a + b) % U32

/-- Difference of two `std::uint32_t` (wraps below zero). -/
def sub32 (a b : Nat) : Nat := (a + U32 - b % U32) % U32

/-- Product of two `std::uint32_t`. -/
def mul32 (a b : Nat) : Nat := (a * b) % U32

/-- Sum of two `std::uint64_t`. -/
def add64 (a b : Nat) : Nat := (a + b) % U64

/-- Difference of two `std::uint64_t` (wraps below zero). -/
def sub64 (a b : Nat) : Nat := (a + U64 - b % U64) % U64

/-- Product of two `std::uint64_t`. -/
def mul64 (a b : Nat) : Nat := (a * b) % U64

/-- What a thrown exception, or an operation without defined behaviour, is. -/
inductive CException where
  | CArgumentException (message : String)
  | CFormatException (message : String)
  | DecodeFailed
  | ChecksumError
  | Generic
  | Undefined
  deriving DecidableEq, Repr

deriving instance DecidableEq for Except

/-! ## Data model of the HCA decoder -/

/-- The fields of `HCA_INFO` that the reader and `InitializeExtra` consult. The
declaration of the record is not among the sources; every field is an unsigned
integer of at most 32 bits (see `HCA_INFO.InRange`). The four `comp` fields
are read by `InitializeExtra` only. -/
structure HCA_INFO where
  channelCount : Nat
  blockCount : Nat
  loopExists : Bool
  loopStart : Nat
  loopEnd : Nat
  commentLength : Nat
  compR03 : Nat := 1
  compR04 : Nat := 0
  compR06 : Nat := 0
  compR07 : Nat := 0
  deriving DecidableEq, Repr

/-- The fields of `HCA_DECODER_CONFIG` that the reader consults. -/
structure HCA_DECODER_CONFIG where
  waveHeaderEnabled : Bool
  loopEnabled : Bool
  loopCount : Nat
  deriving DecidableEq, Repr

/-- Constants of `kawashima/wave/wave_native.h`, which is not among the
sources: the two `WaveSettings` constants and the `sizeof` of the three header
sections that `GetWaveHeaderSize` adds up. They are parameters of the model. -/
structure WaveSettings where
  BitPerChannel : Nat
  SoftLoop : Bool
  sizeofWaveRiffSection : Nat
  sizeofWaveSampleSection : Nat
  sizeofWaveDataSection : Nat
  deriving DecidableEq, Repr

/-- What a decoder is built over and never changes.

* `wave`: the constants of `wave_native.h`.
* `headerImage`: the bytes that `GenerateWaveHeader` lays down through
  `CMemoryStream::Write` (the section records are declared outside the sources).
* `pipeline`: the outcome of running one compressed block through
  fetch, checksum, decipher, sync and the five channel stages up to the PCM
  emit (lines 263-339 of `DecodeBlock`). The channel scratch carries over from
  one run to the next, so the outcome is a function of the runs made before
  (most recent first) and of the block index. -/
structure Environment where
  wave : WaveSettings
  headerImage : List Nat
  pipeline : List Nat → Nat → Except CException (List Nat)

/-- The mutable members of `CHcaDecoder`. `pipelineRuns` records, most recent
first, the block indices that went to the underlying stream; it stands for the
state of the channel scratch and of the stream cursor. -/
structure CHcaDecoder where
  hcaInfo : HCA_INFO
  decoderConfig : HCA_DECODER_CONFIG
  _waveHeaderSize : Nat
  _waveBlockSize : Nat
  _position : Nat
  _waveHeaderBuffer : Option (List Nat)
  _decodedBlocks : List (Nat × List Nat)
  pipelineRuns : List Nat
  deriving DecidableEq, Repr

/-- The members as the constructor leaves them (lines 24-35). -/
def CHcaDecoder.create (hcaInfo : HCA_INFO) (decoderConfig : HCA_DECODER_CONFIG) : CHcaDecoder :=
  { hcaInfo := hcaInfo
    decoderConfig := decoderConfig
    _waveHeaderSize := 0
    _waveBlockSize := 0
    _position := 0
    _waveHeaderBuffer := none
    _decodedBlocks := []
    pipelineRuns := [] }

/-- Field widths of `HCA_INFO` and `HCA_DECODER_CONFIG`. -/
def HCA_INFO.InRange (i : HCA_INFO) : Prop :=
  i.channelCount < U32 ∧ i.blockCount < U32 ∧ i.loopStart < U32 ∧ i.loopEnd < U32 ∧
    i.commentLength < U32

instance (i : HCA_INFO) : Decidable i.InRange := by
  unfold HCA_INFO.InRange; infer_instance

/-- The descriptor invariant of the data model: when a loop exists,
`0 ≤ loop_start ≤ loop_end < block_count`. -/
def HCA_INFO.LoopInvariant (i : HCA_INFO) : Prop :=
  i.loopExists = true → i.loopStart ≤ i.loopEnd ∧ i.loopEnd < i.blockCount

instance (i : HCA_INFO) : Decidable i.LoopInvariant := by
  unfold HCA_INFO.LoopInvariant; infer_instance

/-! ## The reader -/

/-- The value `sizeNeeded` that `GetWaveHeaderSize` computes (lines 142-155). -/
def sizeNeeded (w : WaveSettings) (hcaInfo : HCA_INFO) : Nat :=
  let sizeNeeded := w.sizeofWaveRiffSection % U32
  let sizeNeeded :=
    if hcaInfo.loopExists && !w.SoftLoop then add32 sizeNeeded w.sizeofWaveSampleSection
    else sizeNeeded
  let sizeNeeded :=
    if hcaInfo.commentLength > 0 then
      let noteSize := (4 + hcaInfo.commentLength + 1) % U32
      let noteSize := if noteSize % 4 ≠ 0 then add32 noteSize (4 - noteSize % 4) else noteSize
      add32 sizeNeeded (add32 8 noteSize)
    else sizeNeeded
  add32 sizeNeeded w.sizeofWaveDataSection

/-- `CHcaDecoder::GetWaveHeaderSize` (lines 137-158): the cached value when it
is non-zero, else the computed one, which is stored. -/
def GetWaveHeaderSize (w : WaveSettings) (d : CHcaDecoder) : Nat × CHcaDecoder :=
  if d._waveHeaderSize ≠ 0 then (d._waveHeaderSize, d)
  else
    let sizeNeeded := sizeNeeded w d.hcaInfo
    (sizeNeeded, { d with _waveHeaderSize := sizeNeeded })

/-- The value `waveBlockSize` that `GetWaveBlockSize` computes (lines 246-249):
`sizeof(float)` is 4 and `sizeof(std::uint8_t)` is 1; the product is formed in
`std::size_t` and stored in a `std::uint32_t`. -/
def waveBlockSize (w : WaveSettings) (hcaInfo : HCA_INFO) : Nat :=
  let audioBitPerChannel := if w.BitPerChannel ≠ 0 then w.BitPerChannel % U32 else 4
  (mul64 (mul64 0x80 (audioBitPerChannel / 1)) hcaInfo.channelCount) % U32

/-- `CHcaDecoder::GetWaveBlockSize` (lines 242-252). -/
def GetWaveBlockSize (w : WaveSettings) (d : CHcaDecoder) : Nat × CHcaDecoder :=
  if d._waveBlockSize ≠ 0 then (d._waveBlockSize, d)
  else
    let waveBlockSize := waveBlockSize w d.hcaInfo
    (waveBlockSize, { d with _waveBlockSize := waveBlockSize })

/-- The `count` bytes of `data` from `start` on, as `std::memcpy` reads them
(a byte outside `data` reads as 0). -/
def slice (data : List Nat) (start count : Nat) : List Nat :=
  (List.range count).map (fun i => data.getD (start + i) 0)

/-- `CHcaDecoder::GenerateWaveHeader` (lines 160-240): a zeroed buffer of
`GetWaveHeaderSize()` bytes overwritten by the header image, built once. -/
def GenerateWaveHeader (env : Environment) (d : CHcaDecoder) : List Nat × CHcaDecoder :=
  match d._waveHeaderBuffer with
  | some headerBuffer => (headerBuffer, d)
  | none =>
    let (headerSize, d) := GetWaveHeaderSize env.wave d
    let headerBuffer := slice env.headerImage 0 headerSize
    (headerBuffer, { d with _waveHeaderBuffer := some headerBuffer })

/-- `CHcaDecoder::DecodeBlock` (lines 254-343): a cached block is returned as
it is; otherwise the block goes through the pipeline, and on success the
buffer of `waveBlockSize` bytes is stored in the cache. -/
def DecodeBlock (env : Environment) (blockIndex : Nat) (d : CHcaDecoder) :
    Except CException (List Nat) × CHcaDecoder :=
  match d._decodedBlocks.lookup blockIndex with
  | some decodedItem => (.ok decodedItem, d)
  | none =>
    let (waveBlockSize, d) := GetWaveBlockSize env.wave d
    let d' := { d with pipelineRuns := blockIndex :: d.pipelineRuns }
    match env.pipeline d.pipelineRuns blockIndex with
    | .error e => (.error e, d')
    | .ok pcm =>
      let waveBlockBuffer := slice pcm 0 waveBlockSize
      (.ok waveBlockBuffer,
        { d' with _decodedBlocks := (blockIndex, waveBlockBuffer) :: d'._decodedBlocks })

/-- `CHcaDecoder::GetPosition` (lines 345-347). -/
def GetPosition (d : CHcaDecoder) : Nat := d._position

/-- `CHcaDecoder::SetPosition` (lines 349-351). -/
def SetPosition (value : Nat) (d : CHcaDecoder) : CHcaDecoder := { d with _position := value }

/-- `CHcaDecoder::MapLoopedPosition` (lines 353-377). -/
def MapLoopedPosition (w : WaveSettings) (linearPosition : Nat) (d : CHcaDecoder) :
    Except CException Nat × CHcaDecoder :=
  let (waveHeaderSize, d) :=
    if d.decoderConfig.waveHeaderEnabled then GetWaveHeaderSize w d else (0, d)
  if !d.hcaInfo.loopExists || !d.decoderConfig.loopEnabled then (.ok linearPosition, d)
  else
    let (waveBlockSize, d) := GetWaveBlockSize w d
    let beforeLoopStart := if d.hcaInfo.loopStart > 1 then sub32 d.hcaInfo.loopStart 1 else 0
    let inLoop := add32 (sub32 d.hcaInfo.loopEnd d.hcaInfo.loopStart) 1
    if linearPosition ≤ add32 waveHeaderSize (mul32 (add32 beforeLoopStart inLoop) waveBlockSize)
    then (.ok linearPosition, d)
    else if d.decoderConfig.loopCount = 0 then
      (.error (.CArgumentException "CHcaDecoder::MapLoopedPosition"), d)
    else if mul64 inLoop waveBlockSize = 0 then (.error .Undefined, d)
    else
      let loopCount :=
        sub64 (sub64 linearPosition waveHeaderSize) (mul64 beforeLoopStart waveBlockSize) /
          mul64 inLoop waveBlockSize
      let loopCount := min (loopCount % U32) d.decoderConfig.loopCount
      (.ok (sub64 (sub64 linearPosition (mul64 (mul64 loopCount inLoop) waveBlockSize))
        waveHeaderSize), d)

/-- `CHcaDecoder::GetLength` (lines 379-404). -/
def GetLength (w : WaveSettings) (d : CHcaDecoder) : Except CException Nat × CHcaDecoder :=
  if d.hcaInfo.loopExists && d.decoderConfig.loopEnabled then
    if d.decoderConfig.loopCount = 0 then
      (.error (.CArgumentException "CHcaDecoder::GetLength"), d)
    else
      let total := 0
      let (total, d) :=
        if d.decoderConfig.waveHeaderEnabled then
          let (waveHeaderSize, d) := GetWaveHeaderSize w d
          (add64 total waveHeaderSize, d)
        else (total, d)
      let beforeLoopStart := if d.hcaInfo.loopStart > 1 then sub32 d.hcaInfo.loopStart 1 else 0
      let afterLoopEnd :=
        if d.hcaInfo.loopEnd < sub32 d.hcaInfo.blockCount 1 then
          sub32 (sub32 d.hcaInfo.blockCount 1) d.hcaInfo.loopEnd
        else 0
      let inLoop := add32 (sub32 d.hcaInfo.loopEnd d.hcaInfo.loopStart) 1
      let (waveBlockSize, d) := GetWaveBlockSize w d
      let total := add64 total (mul64 (add32 beforeLoopStart afterLoopEnd) waveBlockSize)
      let (waveBlockSize, d) := GetWaveBlockSize w d
      let total := add64 total (mul64 (mul64 inLoop d.decoderConfig.loopCount) waveBlockSize)
      (.ok total, d)
  else
    if d.decoderConfig.waveHeaderEnabled then
      let (waveHeaderSize, d) := GetWaveHeaderSize w d
      let (waveBlockSize, d) := GetWaveBlockSize w d
      (.ok (add32 waveHeaderSize (mul32 waveBlockSize d.hcaInfo.blockCount)), d)
    else
      let (waveBlockSize, d) := GetWaveBlockSize w d
      (.ok (mul64 waveBlockSize d.hcaInfo.blockCount), d)

/-- The local variables of `Read` that its copy loop updates, together with
the bytes stored so far at `byteBuffer + offset` (every copy goes to
`byteBuffer + offset` and `offset` then moves past it, so the stored bytes are
contiguous from the `offset` the call was made with). -/
structure ReadLocals where
  streamPosition : Nat
  bufferSize : Nat
  offset : Nat
  totalRead : Nat
  mappedPosition : Nat
  written : List Nat
  deriving DecidableEq, Repr

/-- The `while` loop of `Read` (lines 444-464). Every pass takes at least one
byte off `bufferSize`, so `fuel = bufferSize` passes are enough
(`ReadLoop_fuel`). The exception, if one ends the loop, comes with the locals
and the object as they were when it was thrown. -/
def ReadLoop (env : Environment) (waveStreamLength waveHeaderSize waveBlockSize : Nat) :
    Nat → ReadLocals → CHcaDecoder → Option CException × ReadLocals × CHcaDecoder
  | 0, v, d => (none, v, d)
  | fuel + 1, v, d =>
    if v.bufferSize > 0 ∧ v.mappedPosition < waveStreamLength then
      if waveBlockSize = 0 then (some .Undefined, v, d)
      else
        let blockIndex := (sub64 v.mappedPosition waveHeaderSize / waveBlockSize) % U32
        let startOffset := sub64 v.mappedPosition waveHeaderSize % waveBlockSize
        match DecodeBlock env blockIndex d with
        | (.error e, d) => (some e, v, d)
        | (.ok blockData, d) =>
          let copyLength :=
            min (sub64 waveStreamLength v.mappedPosition)
              (min (sub64 waveBlockSize startOffset) v.bufferSize)
          ReadLoop env waveStreamLength waveHeaderSize waveBlockSize fuel
            { streamPosition := add64 v.streamPosition copyLength
              bufferSize := sub64 v.bufferSize copyLength
              offset := add64 v.offset copyLength
              totalRead := add64 v.totalRead copyLength
              mappedPosition := add64 v.mappedPosition copyLength
              written := v.written ++ slice blockData startOffset copyLength } d
    else (none, v, d)

/-- What a call of `Read` leaves behind: the value returned or the exception
thrown, the bytes stored in the caller's buffer from `offset` on, and the
object. -/
structure ReadResult where
  result : Except CException Nat
  written : List Nat
  decoder : CHcaDecoder
  deriving DecidableEq

/-- `CHcaDecoder::Read` (lines 406-468). `buffer` tells whether the pointer is
non-null. -/
def Read (env : Environment) (buffer : Bool) (bufferSize offset count : Nat) (d : CHcaDecoder) :
    ReadResult :=
  if !buffer then ⟨.error (.CArgumentException "CHcaDecoder::Read"), [], d⟩
  else
    let bufferSize := min count (sub64 bufferSize offset)
    if bufferSize = 0 then ⟨.ok bufferSize, [], d⟩
    else
      let streamPosition := GetPosition d
      match MapLoopedPosition env.wave streamPosition d with
      | (.error e, d) => ⟨.error e, [], d⟩
      | (.ok mappedPosition, d) =>
        match GetLength env.wave d with
        | (.error e, d) => ⟨.error e, [], d⟩
        | (.ok waveStreamLength, d) =>
          if mappedPosition ≥ waveStreamLength then ⟨.ok 0, [], d⟩
          else
            let (waveHeaderSize, d) :=
              if d.decoderConfig.waveHeaderEnabled then GetWaveHeaderSize env.wave d else (0, d)
            let v : ReadLocals :=
              { streamPosition := streamPosition, bufferSize := bufferSize, offset := offset,
                totalRead := 0, mappedPosition := mappedPosition, written := [] }
            let tail (v : ReadLocals) (d : CHcaDecoder) : ReadResult :=
              let (waveBlockSize, d) := GetWaveBlockSize env.wave d
              match ReadLoop env waveStreamLength waveHeaderSize waveBlockSize v.bufferSize v d with
              | (some e, v, d) => ⟨.error e, v.written, d⟩
              | (none, v, d) => ⟨.ok v.totalRead, v.written, SetPosition v.streamPosition d⟩
            if mappedPosition < waveHeaderSize then
              let headerLeftLength := sub64 waveHeaderSize mappedPosition
              let headerCopyLength := min headerLeftLength bufferSize
              let (header, d) := GenerateWaveHeader env d
              let written := slice header mappedPosition headerCopyLength
              let streamPosition := add64 streamPosition headerCopyLength
              if bufferSize ≤ headerCopyLength then
                ⟨.ok bufferSize, written, SetPosition streamPosition d⟩
              else
                tail
                  { streamPosition := streamPosition
                    bufferSize := sub64 bufferSize headerCopyLength
                    offset := add64 offset headerCopyLength
                    totalRead := add64 0 headerCopyLength
                    mappedPosition := add64 mappedPosition headerCopyLength
                    written := written } d
            else tail v d

/-- A client that reads the stream to its end: `Read` is called with a non-null
buffer of `count` bytes until it returns 0, at most `calls` times. The result
is the sum of the returned counts, or `none` when a call throws or `calls`
calls do not reach the end. -/
def ReadToEnd (env : Environment) (count : Nat) : Nat → CHcaDecoder → Option Nat
  | 0, _ => none
  | calls + 1, d =>
    match (Read env true count 0 count d).result with
    | .error _ => none
    | .ok 0 => some 0
    | .ok (n + 1) =>
      (ReadToEnd env count calls (Read env true count 0 count d).decoder).map (fun s => n + 1 + s)

/-! ## Cache discipline: the two size members start at 0 and are written only by their getters -/

/-- Each size cache is empty or holds what its getter computes. -/
def CHcaDecoder.CacheOk (w : WaveSettings) (d : CHcaDecoder) : Prop :=
  (d._waveHeaderSize = 0 ∨ d._waveHeaderSize = sizeNeeded w d.hcaInfo) ∧
    (d._waveBlockSize = 0 ∨ d._waveBlockSize = waveBlockSize w d.hcaInfo)

instance (w : WaveSettings) (d : CHcaDecoder) : Decidable (d.CacheOk w) := by
  unfold CHcaDecoder.CacheOk; infer_instance

/-- The object after `GetWaveHeaderSize` has run. -/
def CHcaDecoder.withHeaderSize (w : WaveSettings) (d : CHcaDecoder) : CHcaDecoder :=
  { d with _waveHeaderSize := sizeNeeded w d.hcaInfo }

/-- The object after `GetWaveBlockSize` has run. -/
def CHcaDecoder.withBlockSize (w : WaveSettings) (d : CHcaDecoder) : CHcaDecoder :=
  { d with _waveBlockSize := waveBlockSize w d.hcaInfo }

/-- The header size as `MapLoopedPosition` and `Read` take it:
`decoderConfig.waveHeaderEnabled ? GetWaveHeaderSize() : 0`. -/
def headerSize (w : WaveSettings) (d : CHcaDecoder) : Nat :=
  if d.decoderConfig.waveHeaderEnabled then sizeNeeded w d.hcaInfo else 0

/-- The object `d'` is `d` up to its two size caches, which are in order. -/
def CHcaDecoder.SizesOnly (w : WaveSettings) (d d' : CHcaDecoder) : Prop :=
  d'.CacheOk w ∧ d'.hcaInfo = d.hcaInfo ∧ d'.decoderConfig = d.decoderConfig ∧
    d'._position = d._position ∧ d'._waveHeaderBuffer = d._waveHeaderBuffer ∧
    d'._decodedBlocks = d._decodedBlocks ∧ d'.pipelineRuns = d.pipelineRuns

/-- The loop boundary that `MapLoopedPosition` compares the position with
(the right-hand side of the comparison of line 365, in 32-bit arithmetic). -/
def loopBoundary (w : WaveSettings) (d : CHcaDecoder) : Nat :=
  let beforeLoopStart := if d.hcaInfo.loopStart > 1 then sub32 d.hcaInfo.loopStart 1 else 0
  let inLoop := add32 (sub32 d.hcaInfo.loopEnd d.hcaInfo.loopStart) 1
  add32 (headerSize w d) (mul32 (add32 beforeLoopStart inLoop) (waveBlockSize w d.hcaInfo))

/-- The value of `MapLoopedPosition` on an object whose caches are in order. -/
def mappedValue (w : WaveSettings) (d : CHcaDecoder) (linearPosition : Nat) :
    Except CException Nat :=
  if !d.hcaInfo.loopExists || !d.decoderConfig.loopEnabled then .ok linearPosition
  else
    let beforeLoopStart := if d.hcaInfo.loopStart > 1 then sub32 d.hcaInfo.loopStart 1 else 0
    let inLoop := add32 (sub32 d.hcaInfo.loopEnd d.hcaInfo.loopStart) 1
    if linearPosition ≤ loopBoundary w d then .ok linearPosition
    else if d.decoderConfig.loopCount = 0 then
      .error (.CArgumentException "CHcaDecoder::MapLoopedPosition")
    else if mul64 inLoop (waveBlockSize w d.hcaInfo) = 0 then .error .Undefined
    else
      let loopCount :=
        sub64 (sub64 linearPosition (headerSize w d))
            (mul64 beforeLoopStart (waveBlockSize w d.hcaInfo)) /
          mul64 inLoop (waveBlockSize w d.hcaInfo)
      let loopCount := min (loopCount % U32) d.decoderConfig.loopCount
      .ok (sub64 (sub64 linearPosition
        (mul64 (mul64 loopCount inLoop) (waveBlockSize w d.hcaInfo))) (headerSize w d))

/-- The value of `GetLength` on an object whose caches are in order. -/
def lengthValue (w : WaveSettings) (d : CHcaDecoder) : Except CException Nat :=
  if d.hcaInfo.loopExists && d.decoderConfig.loopEnabled then
    if d.decoderConfig.loopCount = 0 then .error (.CArgumentException "CHcaDecoder::GetLength")
    else
      let beforeLoopStart := if d.hcaInfo.loopStart > 1 then sub32 d.hcaInfo.loopStart 1 else 0
      let afterLoopEnd :=
        if d.hcaInfo.loopEnd < sub32 d.hcaInfo.blockCount 1 then
          sub32 (sub32 d.hcaInfo.blockCount 1) d.hcaInfo.loopEnd
        else 0
      let inLoop := add32 (sub32 d.hcaInfo.loopEnd d.hcaInfo.loopStart) 1
      .ok (add64
        (add64 (if d.decoderConfig.waveHeaderEnabled then add64 0 (sizeNeeded w d.hcaInfo) else 0)
          (mul64 (add32 beforeLoopStart afterLoopEnd) (waveBlockSize w d.hcaInfo)))
        (mul64 (mul64 inLoop d.decoderConfig.loopCount) (waveBlockSize w d.hcaInfo)))
  else
    if d.decoderConfig.waveHeaderEnabled then
      .ok (add32 (sizeNeeded w d.hcaInfo) (mul32 (waveBlockSize w d.hcaInfo) d.hcaInfo.blockCount))
    else .ok (mul64 (waveBlockSize w d.hcaInfo) d.hcaInfo.blockCount)

/-! ## Fixtures -/

/-- Constants under which the scenario descriptor of the specification has a
44-byte header and 1024-byte blocks: float output (bit depth 0), soft loop. -/
def scenarioWave : WaveSettings :=
  { BitPerChannel := 0, SoftLoop := true, sizeofWaveRiffSection := 36,
    sizeofWaveSampleSection := 68, sizeofWaveDataSection := 8 }

/-- The scenario descriptor: six blocks, loop over blocks 2 to 4, two channels. -/
def scenarioInfo : HCA_INFO :=
  { channelCount := 2, blockCount := 6, loopExists := true, loopStart := 2, loopEnd := 4,
    commentLength := 0 }

/-- Header and looping enabled, `loop_count = 2`. -/
def scenarioConfig : HCA_DECODER_CONFIG :=
  { waveHeaderEnabled := true, loopEnabled := true, loopCount := 2 }

/-- A fresh decoder over the scenario descriptor. -/
def scenarioDecoder : CHcaDecoder := CHcaDecoder.create scenarioInfo scenarioConfig

/-- Constants of the default build: 16-bit integer output, no soft loop. -/
def pcm16Wave : WaveSettings :=
  { BitPerChannel := 16, SoftLoop := false, sizeofWaveRiffSection := 36,
    sizeofWaveSampleSection := 68, sizeofWaveDataSection := 8 }

/-- A one-channel stream of six blocks with a loop over blocks 2 to 4. -/
def monoInfo : HCA_INFO :=
  { channelCount := 1, blockCount := 6, loopExists := true, loopStart := 2, loopEnd := 4,
    commentLength := 0 }

/-- An environment whose header image is the bytes 0, 1, 2, ... and whose
block `k` decodes to the bytes `k + 1, k + 2, k + 3, k + 4` followed by
silence. -/
def rampEnvironment (w : WaveSettings) : Environment :=
  { wave := w
    headerImage := List.range 200
    pipeline := fun _ k => .ok [k + 1, k + 2, k + 3, k + 4] }

/-- An environment in which every block decodes, to silence. -/
def silentEnvironment (w : WaveSettings) : Environment :=
  { wave := w, headerImage := [], pipeline := fun _ _ => .ok [] }

/-- The one-channel stream read with the header, looping enabled and the given
`loop_count`. -/
def monoDecoder (loopCount : Nat) : CHcaDecoder :=
  CHcaDecoder.create monoInfo
    { waveHeaderEnabled := true, loopEnabled := true, loopCount := loopCount }

/-- A two-channel stream of `2 ^ 20` blocks, all of them inside the loop. -/
def longInfo : HCA_INFO :=
  { channelCount := 2, blockCount := 2 ^ 20, loopExists := true, loopStart := 0,
    loopEnd := 2 ^ 20 - 1, commentLength := 0 }

/-- The long stream read with the header, looping enabled and the given
`loop_count`. -/
def longDecoder (loopCount : Nat) : CHcaDecoder :=
  CHcaDecoder.create longInfo
    { waveHeaderEnabled := true, loopEnabled := true, loopCount := loopCount }

/-- Byte `i` of the decoded audio as the block cache of `d` holds it: byte
`i % wbs` of the block cached under index `i / wbs` (0 when it is not there). -/
def audioByte (d : CHcaDecoder) (wbs i : Nat) : Nat :=
  ((d._decodedBlocks.lookup (i / wbs)).getD []).getD (i % wbs) 0

/-- The object `d'` is `d` with more blocks decoded: only the block cache and
the record of pipeline runs differ, and what was cached stays cached. -/
def CHcaDecoder.BlocksOnly (d d' : CHcaDecoder) : Prop :=
  d'.hcaInfo = d.hcaInfo ∧ d'.decoderConfig = d.decoderConfig ∧
    d'._waveHeaderSize = d._waveHeaderSize ∧ d'._waveBlockSize = d._waveBlockSize ∧
    d'._position = d._position ∧ d'._waveHeaderBuffer = d._waveHeaderBuffer ∧
    ∀ j b, d._decodedBlocks.lookup j = some b → d'._decodedBlocks.lookup j = some b

/-- The header bytes that `GenerateWaveHeader` returns on an object whose
caches are in order. -/
def headerBytes (env : Environment) (d : CHcaDecoder) : List Nat :=
  match d._waveHeaderBuffer with
  | some headerBuffer => headerBuffer
  | none => slice env.headerImage 0 (sizeNeeded env.wave d.hcaInfo)

/-! ## AFS2 archive -/

/-- Modelled from the spec: `CBinaryReader::PeekBytes` is not among the
sources. The stream is its bytes by absolute position, and every read
succeeds; the `size` bytes from `position` on. -/
def PeekBytes (stream : Nat → Nat) (position size : Nat) : List Nat :=
  (List.range size).map (fun i => stream (position + i) % 256)

/-- Modelled from the spec: `CBinaryReader::PeekUInt16LE` is not among the
sources; `peek_u16_le`, the unsigned 16-bit little-endian integer at
`position`. -/
def PeekUInt16LE (stream : Nat → Nat) (position : Nat) : Nat :=
  stream position % 256 + 256 * (stream (position + 1) % 256)

/-- Modelled from the spec: `CBinaryReader::PeekUInt32LE` is not among the
sources; `peek_u32_le`, the unsigned 32-bit little-endian integer at
`position`. -/
def PeekUInt32LE (stream : Nat → Nat) (position : Nat) : Nat :=
  stream position % 256 + 256 * (stream (position + 1) % 256) +
    65536 * (stream (position + 2) % 256) + 16777216 * (stream (position + 3) % 256)

/-- Modelled from the spec: `CBinaryReader::PeekInt32LE` is not among the
sources; the signed (two's complement) reading of the 32 bits that
`PeekUInt32LE` reads. -/
def PeekInt32LE (stream : Nat → Nat) (position : Nat) : Int :=
  if PeekUInt32LE stream position < 2 ^ 31 then (PeekUInt32LE stream position : Int)
  else (PeekUInt32LE stream position : Int) - 2 ^ 32

/-- `Afs2Signature` (line 17). -/
def Afs2Signature : List Nat := [0x41, 0x46, 0x53, 0x32]

/-- `InvalidCueId` (line 18). -/
def InvalidCueId : Int := -1

/-- `AFS2_FILE_RECORD`, whose declaration is not among the sources: the four
fields that `Initialize` writes. -/
structure AFS2_FILE_RECORD where
  cueId : Nat
  fileOffsetRaw : Nat
  fileOffsetAligned : Nat
  fileSize : Nat
  deriving DecidableEq, Repr

/-- The value-initialised record (`AFS2_FILE_RECORD record = {}`). -/
def AFS2_FILE_RECORD.zero : AFS2_FILE_RECORD :=
  { cueId := 0, fileOffsetRaw := 0, fileOffsetAligned := 0, fileSize := 0 }

/-- `std::map<std::uint32_t, AFS2_FILE_RECORD>::operator[]` followed by an
assignment: the entry for `key` becomes `value`; the entries stay in ascending
order of key. -/
def mapAssign (key : Nat) (value : AFS2_FILE_RECORD) :
    List (Nat × AFS2_FILE_RECORD) → List (Nat × AFS2_FILE_RECORD)
  | [] => [(key, value)]
  | (k, v) :: rest =>
    if key < k then (key, value) :: (k, v) :: rest
    else if key = k then (key, value) :: rest
    else (k, v) :: mapAssign key value rest

/-- `std::map::operator[]` read: the entry for `key`, value-initialised when
the key is new. -/
def mapAt (files : List (Nat × AFS2_FILE_RECORD)) (key : Nat) : AFS2_FILE_RECORD :=
  (files.lookup key).getD AFS2_FILE_RECORD.zero

/-- The members of `CAfs2Archive` that `Initialize` sets. -/
structure CAfs2Archive where
  _version : Nat
  _byteAlignment : Nat
  _hcaKeyModifier : Nat
  _files : List (Nat × AFS2_FILE_RECORD)
  deriving DecidableEq, Repr

/-- `CAfs2Archive::IsAfs2Archive` (lines 42-59). -/
def IsAfs2Archive (stream : Nat → Nat) (offset : Nat) : Bool :=
  let fileSignature := PeekBytes stream offset 4
  (List.range 4).foldl (fun b i => b && fileSignature.getD i 0 == Afs2Signature.getD i 0) true

/-- The loop of lines 87-89 that builds `offsetMask`. The operand `0xff` is an
`int`: shifting it by 32 bits or more has no defined result (`none`), and the
shifted value is then narrowed to 32 bits. -/
def offsetMask (offsetFieldSize : Nat) : Option Nat :=
  (List.range offsetFieldSize).foldlM
    (fun offsetMask i =>
      if i * 8 < 32 then some (offsetMask ||| ((0xff <<< (i * 8)) % U32)) else none) 0

/-- One pass of the loop of lines 94-121 over file `i`; the state is `_files`
and `prevCueId`. `RoundUpToAlignment` is `CAcbHelper::RoundUpToAlignment`,
which is not among the sources and stays a parameter. -/
def InitializeStep (RoundUpToAlignment : Nat → Nat → Nat) (stream : Nat → Nat) (offset : Nat)
    (fileCount : Int) (fileOffsetFieldBase : Int) (offsetFieldSize offsetMask : Nat)
    (_byteAlignment : Nat) (state : List (Nat × AFS2_FILE_RECORD) × Int) (i : Nat) :
    List (Nat × AFS2_FILE_RECORD) × Int :=
  let (_files, prevCueId) := state
  let currentOffsetFieldBase :=
    ((fileOffsetFieldBase + ((offsetFieldSize * i % U32 : Nat) : Int)) % (U32 : Int)).toNat
  let cueId := PeekUInt16LE stream (add64 offset (0x10 + 2 * i))
  let fileOffsetRaw := PeekUInt32LE stream (add64 offset currentOffsetFieldBase)
  let fileOffsetRaw := fileOffsetRaw &&& offsetMask
  let fileOffsetRaw := add64 fileOffsetRaw offset
  let fileOffsetAligned := RoundUpToAlignment fileOffsetRaw _byteAlignment
  let fileSize :=
    if (i : Int) = fileCount - 1 then
      sub64
        (add64
          (PeekUInt32LE stream (add64 (add64 offset currentOffsetFieldBase) offsetFieldSize))
          offset)
        fileOffsetAligned
    else 0
  let record : AFS2_FILE_RECORD :=
    { cueId := cueId, fileOffsetRaw := fileOffsetRaw, fileOffsetAligned := fileOffsetAligned,
      fileSize := fileSize }
  let _files :=
    if prevCueId ≠ InvalidCueId then
      let rec_ := mapAt _files prevCueId.toNat
      mapAssign prevCueId.toNat
        { rec_ with fileSize := sub64 record.fileOffsetRaw rec_.fileOffsetAligned } _files
    else _files
  (mapAssign record.cueId record _files, (record.cueId : Int))

/-- `CAfs2Archive::Initialize` (lines 61-122) on an archive whose members are
as the constructor set them. The product `fileCount * 2` is formed in `int`;
when it does not fit the result is `CException.Undefined`. -/
def Initialize (RoundUpToAlignment : Nat → Nat → Nat) (stream : Nat → Nat) (offset : Nat) :
    Except CException CAfs2Archive :=
  if !IsAfs2Archive stream offset then
    .error (.CFormatException "The file is not a valid AFS2 archive.")
  else
    let version := PeekUInt32LE stream (add64 offset 4)
    let fileCount := PeekInt32LE stream (add64 offset 8)
    if fileCount > 65535 then .error (.CFormatException "File count exceeds max file entries.")
    else
      let byteAlignment := PeekUInt32LE stream (add64 offset 12)
      let _byteAlignment := byteAlignment &&& 0xffff
      let _hcaKeyModifier := (byteAlignment >>> 16) % 65536
      let offsetFieldSize := (version >>> 8) &&& 0xff
      match offsetMask offsetFieldSize with
      | none => .error .Undefined
      | some offsetMask =>
        if fileCount * 2 < -2 ^ 31 then .error .Undefined
        else
          let prevCueId := InvalidCueId
          let fileOffsetFieldBase := 0x10 + fileCount * 2
          let (_files, _) :=
            (List.range fileCount.toNat).foldl
              (InitializeStep RoundUpToAlignment stream offset fileCount fileOffsetFieldBase
                offsetFieldSize offsetMask _byteAlignment)
              ([], prevCueId)
          .ok { _version := version, _byteAlignment := _byteAlignment,
                _hcaKeyModifier := _hcaKeyModifier, _files := _files }

/-- A stream given by its leading bytes, zero afterwards. -/
def streamOfBytes (bytes : List Nat) : Nat → Nat := fun position => bytes.getD position 0

/-- Four bytes of padding, then an AFS2 header with `file_count = 65536`. -/
def oversizedArchive : Nat → Nat :=
  streamOfBytes
    [0, 0, 0, 0, 0x41, 0x46, 0x53, 0x32, 1, 4, 2, 0, 0, 0, 1, 0, 32, 0, 0, 0]

/-- A rounding function to run `Initialize` with: the least multiple of
`alignment` that is not below `value`, for a non-zero `alignment`. -/
def roundUpByDivision (value alignment : Nat) : Nat :=
  (value + alignment - 1) / alignment * alignment

/-- The least multiple of 4 that is not below `4 + commentLength + 1`: the
payload of the `note` section after padding. -/
def paddedNoteSize (commentLength : Nat) : Nat := (4 + commentLength + 1 + 3) / 4 * 4

/-- A descriptor without a loop and with a ten-byte comment. -/
def commentedInfo : HCA_INFO :=
  { channelCount := 2, blockCount := 6, loopExists := false, loopStart := 0, loopEnd := 0,
    commentLength := 10 }

/-- A descriptor without a loop and without a comment. -/
def plainInfo : HCA_INFO :=
  { channelCount := 2, blockCount := 6, loopExists := false, loopStart := 0, loopEnd := 0,
    commentLength := 0 }

/-- The configuration with the header, without looping. -/
def plainConfig : HCA_DECODER_CONFIG :=
  { waveHeaderEnabled := true, loopEnabled := false, loopCount := 0 }

/-- An environment in which no block passes its checksum. -/
def corruptEnvironment (w : WaveSettings) : Environment :=
  { wave := w, headerImage := [], pipeline := fun _ _ => .error .ChecksumError }


/-! ## Channel set-up of the HCA decoder (`CHcaDecoder::InitializeExtra`) -/

/-- The two fields of a channel decoder that `InitializeExtra` computes from
the descriptor (lines 131 and 133). -/
structure CHcaChannel where
  type : Nat
  count : Nat
  deriving DecidableEq, Repr

/-- The assignment `c[k] = value` through an iterator into the array `r` of
line 85: outside the array it is undefined behaviour. -/
def storeType (r : List Nat) (index value : Nat) : Except CException (List Nat) :=
  if index < r.length then .ok (r.set index value) else .error .Undefined

/-- The `switch (b)` of lines 89-125 for the group that starts at position `c`
of `r`. Cases 6 and 7 run on into case 8; every other `b` throws
`CArgumentException()`. -/
def InitializeGroup (compR04 b : Nat) (r : List Nat) (c : Nat) :
    Except CException (List Nat) :=
  if b = 2 ∨ b = 3 then do
    let r ← storeType r (c + 0) 1
    storeType r (c + 1) 2
  else if b = 4 then do
    let r ← storeType r (c + 0) 1
    let r ← storeType r (c + 1) 2
    if compR04 = 0 then do
      let r ← storeType r (c + 2) 1
      storeType r (c + 3) 2
    else .ok r
  else if b = 5 then do
    let r ← storeType r (c + 0) 1
    let r ← storeType r (c + 1) 2
    if compR04 ≤ 2 then do
      let r ← storeType r (c + 3) 1
      storeType r (c + 4) 2
    else .ok r
  else if b = 6 ∨ b = 7 then do
    let r ← storeType r (c + 0) 1
    let r ← storeType r (c + 1) 2
    let r ← storeType r (c + 4) 1
    let r ← storeType r (c + 5) 2
    let r ← storeType r (c + 6) 1
    storeType r (c + 7) 2
  else if b = 8 then do
    let r ← storeType r (c + 6) 1
    storeType r (c + 7) 2
  else .error (.CArgumentException "")

/-- The loop of line 88 over the `compR03` groups: the state is the array `r`
and the position `c` of the iterator, which moves on by `b` after each
group. -/
def InitializeTypes (compR03 compR04 b : Nat) (r : List Nat) :
    Except CException (List Nat × Nat) :=
  (List.range compR03).foldlM
    (fun (state : List Nat × Nat) _ => do
      let r ← InitializeGroup compR04 b state.1 state.2
      pure (r, state.2 + b))
    (r, 0)

/-- The loop of lines 129-134: channel `i` takes its type from `r[i]` and its
count is `compR06 + ((r[i] != 2) ? compR07 : 0)`; reading `r` outside its 16
entries is undefined behaviour. -/
def InitializeChannels (hcaInfo : HCA_INFO) (r : List Nat) :
    Except CException (List CHcaChannel) :=
  (List.range hcaInfo.channelCount).foldlM
    (fun (channels : List CHcaChannel) i =>
      match r[i]? with
      | some t =>
        .ok (channels ++
          [{ type := t, count := add32 hcaInfo.compR06 (if t ≠ 2 then hcaInfo.compR07 else 0) }])
      | none => .error .Undefined)
    []

/-- `CHcaDecoder::InitializeExtra` (lines 71-135) as far as the channel types
and counts go. `athInit` is what `_ath->Init` returns, whose code is not among
the sources. The result is the list of the channels created, in order; a
division by `compR03 = 0` is undefined behaviour. -/
def InitializeExtra (athInit : Bool) (hcaInfo : HCA_INFO) :
    Except CException (List CHcaChannel) :=
  if !athInit then .error .Generic
  else if hcaInfo.compR03 = 0 then .error .Undefined
  else
    let r := List.replicate 0x10 0
    let b := hcaInfo.channelCount / hcaInfo.compR03
    if hcaInfo.compR07 ≠ 0 ∧ b > 1 then do
      let state ← InitializeTypes hcaInfo.compR03 hcaInfo.compR04 b r
      InitializeChannels hcaInfo state.1
    else InitializeChannels hcaInfo r

/-- The type that the layout table of the specification gives position `j` of
a group of `b` channels, for `b` from 2 to 5. -/
def tableType (compR04 b j : Nat) : Nat :=
  if b = 2 ∨ b = 3 then
    if j = 0 then 1 else if j = 1 then 2 else 0
  else if b = 4 then
    if j = 0 then 1 else if j = 1 then 2
    else if compR04 = 0 ∧ j = 2 then 1 else if compR04 = 0 ∧ j = 3 then 2 else 0
  else if b = 5 then
    if j = 0 then 1 else if j = 1 then 2
    else if compR04 ≤ 2 ∧ j = 3 then 1 else if compR04 ≤ 2 ∧ j = 4 then 2 else 0
  else 0

/-- The type of channel `i` as the specification states it: 0 when
`compR07 = 0` or `b ≤ 1`, the table entry of position `i - g*b` for a channel
of group `g < compR03`, and 0 for a channel behind the last group. -/
def tableChannelType (compR03 compR04 compR07 b i : Nat) : Nat :=
  if compR07 = 0 ∨ b ≤ 1 then 0
  else if i < compR03 * b then tableType compR04 b (i % b)
  else 0

/-- The types that the specification lists for groups of 6, 7 and 8
channels. -/
def tableTypeWide (b j : Nat) : Nat :=
  if j = 0 ∨ j = 4 then 1
  else if j = 1 ∨ j = 5 then 2
  else if j = 6 ∧ 7 ≤ b then 1
  else if j = 7 ∧ 8 ≤ b then 2
  else 0

/-- A descriptor with a single group of eight channels. -/
def octetInfo : HCA_INFO :=
  { channelCount := 8, blockCount := 1, loopExists := false, loopStart := 0, loopEnd := 0,
    commentLength := 0, compR03 := 1, compR04 := 0, compR06 := 0, compR07 := 1 }

/-- A descriptor with two groups of six channels and one channel behind
them. -/
def sextetInfo : HCA_INFO :=
  { channelCount := 13, blockCount := 1, loopExists := false, loopStart := 0, loopEnd := 0,
    commentLength := 0, compR03 := 2, compR04 := 0, compR06 := 0, compR07 := 1 }

/-- A descriptor with two groups of five channels. -/
def quintetInfo : HCA_INFO :=
  { channelCount := 10, blockCount := 1, loopExists := false, loopStart := 0, loopEnd := 0,
    commentLength := 0, compR03 := 2, compR04 := 1, compR06 := 3, compR07 := 4 }

/-! ## `CBitConverter`: integers from raw bytes

Integers are kept as bit patterns (naturals below `2 ^ width`). `int` has 32
bits; a conversion between integer types keeps the value modulo `2 ^ width` of
the target, and a left shift of a signed integer is taken modulo `2 ^ width`,
as C++20 defines both. -/

/-- The value of a two's-complement pattern of `bit` bits. -/
def asSigned (bit x : Nat) : Int :=
  if x < 2 ^ (bit - 1) then (x : Int) else (x : Int) - 2 ^ bit

/-- The pattern, in `wide` bits, of the value that an integer of `bit` bits has:
a negative signed value gets its sign bit copied into the upper bits. -/
def convertPattern (signed : Bool) (bit wide x : Nat) : Nat :=
  if signed ∧ 2 ^ (bit - 1) ≤ x then x + (2 ^ wide - 2 ^ bit) else x

/-- The expression `pb[i] << n`: `pb[i]` is promoted to `int`, so the shift is
one of a 32-bit integer and is undefined for `n ≥ 32`. -/
def shiftLeftInt (x n : Nat) : Except CException Nat :=
  if n < 32 then .ok (x * 2 ^ n % 2 ^ 32) else .error .Undefined

/-- The byte `pb[i]`; reading behind the bytes given is undefined behaviour. -/
def byteAt (p : List Nat) (i : Nat) : Except CException Nat :=
  match p[i]? with
  | some b => .ok b
  | none => .error .Undefined

/-- One round `v = v | (pb[i] << (i * 8))` of the little-endian loop of
`TO_INT` (lines 42-44) for a result type of `bit` bits: both operands are
brought to the wider of that type and `int`, and the result is stored back in
`bit` bits. -/
def littleEndianRound (bit : Nat) (signed : Bool) (p : List Nat) (v i : Nat) :
    Except CException Nat := do
  let b ← byteAt p i
  let t ← shiftLeftInt b (i * 8)
  pure ((convertPattern signed bit (max bit 32) v ||| convertPattern true 32 (max bit 32) t)
    % 2 ^ bit)

/-- One round `v = (v << 8) | pb[i]` of the big-endian loop of `TO_INT`
(lines 46-48). -/
def bigEndianRound (bit : Nat) (signed : Bool) (p : List Nat) (v i : Nat) :
    Except CException Nat := do
  let b ← byteAt p i
  pure ((convertPattern signed bit (max bit 32) v * 2 ^ 8 % 2 ^ (max bit 32) ||| b) % 2 ^ bit)

/-- The macro `TO_INT(bit, u, U)` (lines 38-52): the pattern of the integer of
`bit` bits read from the bytes `p`, on a host for which `IsLittleEndian()`
returns `IsLittleEndian`. -/
def TO_INT (IsLittleEndian : Bool) (bit : Nat) (signed : Bool) (p : List Nat) :
    Except CException Nat :=
  if IsLittleEndian then (List.range (bit / 8)).foldlM (littleEndianRound bit signed p) 0
  else (List.range (bit / 8)).foldlM (bigEndianRound bit signed p) 0

/-- `CBitConverter::ToInt16`. -/
def ToInt16 (IsLittleEndian : Bool) (p : List Nat) : Except CException Int :=
  (TO_INT IsLittleEndian 16 true p).map (asSigned 16)

/-- `CBitConverter::ToUInt16`. -/
def ToUInt16 (IsLittleEndian : Bool) (p : List Nat) : Except CException Nat :=
  TO_INT IsLittleEndian 16 false p

/-- `CBitConverter::ToInt32`. -/
def ToInt32 (IsLittleEndian : Bool) (p : List Nat) : Except CException Int :=
  (TO_INT IsLittleEndian 32 true p).map (asSigned 32)

/-- `CBitConverter::ToUInt32`. -/
def ToUInt32 (IsLittleEndian : Bool) (p : List Nat) : Except CException Nat :=
  TO_INT IsLittleEndian 32 false p

/-- `CBitConverter::ToInt64`. -/
def ToInt64 (IsLittleEndian : Bool) (p : List Nat) : Except CException Int :=
  (TO_INT IsLittleEndian 64 true p).map (asSigned 64)

/-- `CBitConverter::ToUInt64`. -/
def ToUInt64 (IsLittleEndian : Bool) (p : List Nat) : Except CException Nat :=
  TO_INT IsLittleEndian 64 false p

/-! ## The file table of an AFS2 archive -/

/-- The `file_count` of the archive at `offset`, as line 73 reads it. -/
def fileCountAt (stream : Nat → Nat) (offset : Nat) : Int :=
  PeekInt32LE stream (add64 offset 8)

/-- The size in bytes of an offset field, as line 83 takes it from the
version. -/
def offsetFieldSizeAt (stream : Nat → Nat) (offset : Nat) : Nat :=
  (PeekUInt32LE stream (add64 offset 4) >>> 8) &&& 0xff

/-- The byte alignment, as line 80 reads it. -/
def byteAlignmentAt (stream : Nat → Nat) (offset : Nat) : Nat :=
  PeekUInt32LE stream (add64 offset 12) &&& 0xffff

/-- The cue id of file `i`, as line 98 reads it. -/
def cueIdAt (stream : Nat → Nat) (offset i : Nat) : Nat :=
  PeekUInt16LE stream (add64 offset (0x10 + 2 * i))

/-- The raw offset of entry `i` of the offset table as the specification
states it: `(peek_u32_le(offset + 0x10 + 2n + i*s) & offset_mask) + offset`
with `offset_mask = (1 << (8*s)) - 1`, in 64-bit stream positions. -/
def tableOffsetAt (stream : Nat → Nat) (offset i : Nat) : Nat :=
  add64
    (PeekUInt32LE stream
        (add64 offset
          (0x10 + 2 * (fileCountAt stream offset).toNat + i * offsetFieldSizeAt stream offset)) &&&
      (2 ^ (8 * offsetFieldSizeAt stream offset) - 1))
    offset

/-- The record that one pass of the loop builds for file `i` (lines 95-111),
before the size of the file before it is patched and the record is stored. -/
def passRecord (RoundUpToAlignment : Nat → Nat → Nat) (stream : Nat → Nat) (offset : Nat)
    (fileCount : Int) (fileOffsetFieldBase : Int) (offsetFieldSize offsetMask : Nat)
    (_byteAlignment : Nat) (i : Nat) : AFS2_FILE_RECORD :=
  let currentOffsetFieldBase :=
    ((fileOffsetFieldBase + ((offsetFieldSize * i % U32 : Nat) : Int)) % (U32 : Int)).toNat
  let fileOffsetRaw :=
    add64 (PeekUInt32LE stream (add64 offset currentOffsetFieldBase) &&& offsetMask) offset
  let fileOffsetAligned := RoundUpToAlignment fileOffsetRaw _byteAlignment
  { cueId := PeekUInt16LE stream (add64 offset (0x10 + 2 * i))
    fileOffsetRaw := fileOffsetRaw
    fileOffsetAligned := fileOffsetAligned
    fileSize :=
      if (i : Int) = fileCount - 1 then
        sub64
          (add64
            (PeekUInt32LE stream (add64 (add64 offset currentOffsetFieldBase) offsetFieldSize))
            offset)
          fileOffsetAligned
      else 0 }

/-- The last index below `k` whose cue id is `c`. -/
def lastIndex (cue : Nat → Nat) (c : Nat) : Nat → Option Nat
  | 0 => none
  | k + 1 => if cue k = c then some k else lastIndex cue c k

/-- The record of file `j` after `k > j` passes of the loop: as built while
`j` is the file of the last pass, and with its size patched from the raw
offset of file `j + 1` afterwards. -/
def recordAfter (fresh : Nat → AFS2_FILE_RECORD) (k j : Nat) : AFS2_FILE_RECORD :=
  if j + 1 = k then fresh j
  else { fresh j with
    fileSize := sub64 (fresh (j + 1)).fileOffsetRaw (fresh j).fileOffsetAligned }

/-- The archive of the parsing scenario: version with 4-byte offsets, three
files with the cue ids 0, 1, 2, byte alignment 32, the raw offsets 0x100, 0x120
and 0x160, and the sentinel 0x167. -/
def scenarioArchive : Nat → Nat :=
  streamOfBytes
    [0x41, 0x46, 0x53, 0x32, 0x01, 0x04, 0x02, 0x00, 3, 0, 0, 0, 32, 0, 0, 0,
     0, 0, 1, 0, 2, 0,
     0x00, 0x01, 0, 0, 0x20, 0x01, 0, 0, 0x60, 0x01, 0, 0, 0x67, 0x01, 0, 0]

/-- An archive with one file and 2-byte offsets: the table entry 22, the
sentinel 0x30, and the file data `'H','C','A',0` right behind the sentinel. -/
def shortOffsetArchive : Nat → Nat :=
  streamOfBytes
    [0x41, 0x46, 0x53, 0x32, 0x01, 0x02, 0x02, 0x00, 1, 0, 0, 0, 2, 0, 0, 0,
     0, 0,
     22, 0, 0x30, 0,
     0x48, 0x43, 0x41, 0]

/-- An archive with three files of which the first and the last have the cue
id 7: 2-byte offsets, byte alignment 16, the raw offsets 0x20, 0x30 and 0x48,
and the sentinel 0x58. -/
def repeatedCueArchive : Nat → Nat :=
  streamOfBytes
    [0x41, 0x46, 0x53, 0x32, 0x01, 0x02, 0x02, 0x00, 3, 0, 0, 0, 16, 0, 0, 0,
     7, 0, 5, 0, 7, 0,
     0x20, 0, 0x30, 0, 0x48, 0, 0x58, 0, 0, 0]

/-! ## The PCM emit of `DecodeBlock` (lines 325-339) -/

/-- The block buffer and the cursor of the PCM emit, and for the record the
samples that were handed to the converter so far, in the order of the calls. -/
structure EmitState (α : Type) where
  waveBlockBuffer : List Nat
  cursor : Nat
  calls : List α
  deriving DecidableEq, Repr

/-- The call `cursor = decodeFunc(f, waveBlockBuffer, cursor)` of line 335: the
converter gets the sample, the buffer and the cursor, stores into the buffer
and returns the new cursor, which is kept in a `std::uint32_t`. -/
def emitSample {α : Type}
    (decodeFunc : α → List Nat → Nat → Except CException (List Nat × Nat))
    (state : EmitState α) (f : α) : Except CException (EmitState α) :=
  match decodeFunc f state.waveBlockBuffer state.cursor with
  | .error e => .error e
  | .ok (waveBlockBuffer, cursor) =>
    .ok { waveBlockBuffer := waveBlockBuffer, cursor := cursor % U32, calls := state.calls ++ [f] }

/-- The PCM emit of `DecodeBlock` (lines 325-339): a fresh buffer of
`waveBlockSize` bytes and, when `decodeFunc` is set, a call of it for each of
the 8 sub-frames `i`, each of the 128 samples `j` and each channel `k`, in
that order of nesting. `wave k i j` stands for the clamped product
`channels[k]->wave[i][j] * rvaVolume` of lines 333-334. -/
def PcmEmit {α : Type} (wave : Nat → Nat → Nat → α)
    (decodeFunc : Option (α → List Nat → Nat → Except CException (List Nat × Nat)))
    (channelCount waveBlockSize : Nat) : Except CException (EmitState α) :=
  let waveBlockBuffer := List.replicate waveBlockSize 0
  let cursor := 0
  match decodeFunc with
  | none => .ok { waveBlockBuffer := waveBlockBuffer, cursor := cursor, calls := [] }
  | some decodeFunc =>
    (List.range 8).foldlM
      (fun state i =>
        (List.range 0x80).foldlM
          (fun state j =>
            (List.range channelCount).foldlM
              (fun state k => emitSample decodeFunc state (wave k i j)) state)
          state)
      { waveBlockBuffer := waveBlockBuffer, cursor := cursor, calls := [] }

/-- Modelled from the spec: the converters that a client passes as
`decodeFunc` are not among the sources. This is a converter as the
specification describes one: it stores the `bytesPerSample` bytes
`encode f 0, encode f 1, ...` at the cursor and returns the cursor moved past
them; a store outside the buffer is undefined behaviour. -/
def sampleConverter {α : Type} (bytesPerSample : Nat) (encode : α → Nat → Nat) (f : α)
    (buffer : List Nat) (cursor : Nat) : Except CException (List Nat × Nat) :=
  if cursor + bytesPerSample ≤ buffer.length then
    .ok ((List.range bytesPerSample).foldl
      (fun buffer t => buffer.set (cursor + t) (encode f t % 256)) buffer,
      add32 cursor bytesPerSample)
  else .error .Undefined

/-- The samples in the order in which the specification has them handed to
the converter: sub-frame by sub-frame, in each sub-frame sample by sample, and
for each sample channel by channel. -/
def emitOrder {α : Type} (wave : Nat → Nat → Nat → α) (channelCount : Nat) : List α :=
  (List.range 8).flatMap fun i =>
    (List.range 0x80).flatMap fun j => (List.range channelCount).map fun k => wave k i j

/-- Constants of a build with 32-bit float output: bit depth 0, no soft
loop. -/
def floatWave : WaveSettings :=
  { BitPerChannel := 0, SoftLoop := false, sizeofWaveRiffSection := 36,
    sizeofWaveSampleSection := 68, sizeofWaveDataSection := 8 }

/-- The sample of sub-frame `i`, sample `j` and channel `k`, named by these
three numbers. -/
def sampleName (k i j : Nat) : Nat × Nat × Nat := (i, j, k)
theorem create_cacheOk (w : WaveSettings) (i : HCA_INFO) (c : HCA_DECODER_CONFIG) :
    (CHcaDecoder.create i c).CacheOk w := by
  simp [CHcaDecoder.CacheOk, CHcaDecoder.create]

theorem GetWaveHeaderSize_eq {w : WaveSettings} {d : CHcaDecoder} (h : d.CacheOk w) :
    GetWaveHeaderSize w d = (sizeNeeded w d.hcaInfo, d.withHeaderSize w) := by
  unfold GetWaveHeaderSize CHcaDecoder.withHeaderSize
  rcases h with ⟨h1 | h1, _⟩
  · simp [h1]
  · by_cases h0 : d._waveHeaderSize = 0
    · simp [h0]
    · simp only [ne_eq, h0, not_false_eq_true, if_true]
      rw [← h1]

theorem GetWaveBlockSize_eq {w : WaveSettings} {d : CHcaDecoder} (h : d.CacheOk w) :
    GetWaveBlockSize w d = (waveBlockSize w d.hcaInfo, d.withBlockSize w) := by
  unfold GetWaveBlockSize CHcaDecoder.withBlockSize
  rcases h with ⟨_, h1 | h1⟩
  · simp [h1]
  · by_cases h0 : d._waveBlockSize = 0
    · simp [h0]
    · simp only [ne_eq, h0, not_false_eq_true, if_true]
      rw [← h1]

theorem withHeaderSize_cacheOk {w : WaveSettings} {d : CHcaDecoder} (h : d.CacheOk w) :
    (d.withHeaderSize w).CacheOk w := by
  exact ⟨Or.inr rfl, h.2⟩

theorem withBlockSize_cacheOk {w : WaveSettings} {d : CHcaDecoder} (h : d.CacheOk w) :
    (d.withBlockSize w).CacheOk w := by
  exact ⟨h.1, Or.inr rfl⟩

@[simp] theorem withHeaderSize_hcaInfo (w : WaveSettings) (d : CHcaDecoder) :
    (d.withHeaderSize w).hcaInfo = d.hcaInfo := rfl

@[simp] theorem withHeaderSize_decoderConfig (w : WaveSettings) (d : CHcaDecoder) :
    (d.withHeaderSize w).decoderConfig = d.decoderConfig := rfl

@[simp] theorem withBlockSize_hcaInfo (w : WaveSettings) (d : CHcaDecoder) :
    (d.withBlockSize w).hcaInfo = d.hcaInfo := rfl

@[simp] theorem withBlockSize_decoderConfig (w : WaveSettings) (d : CHcaDecoder) :
    (d.withBlockSize w).decoderConfig = d.decoderConfig := rfl

theorem SizesOnly_refl {w : WaveSettings} {d : CHcaDecoder} (h : d.CacheOk w) :
    d.SizesOnly w d :=
  ⟨h, rfl, rfl, rfl, rfl, rfl, rfl⟩

theorem SizesOnly_trans {w : WaveSettings} {d d' d'' : CHcaDecoder}
    (h : d.SizesOnly w d') (h' : d'.SizesOnly w d'') : d.SizesOnly w d'' := by
  obtain ⟨_, a1, a2, a3, a4, a5, a6⟩ := h
  obtain ⟨b0, b1, b2, b3, b4, b5, b6⟩ := h'
  exact ⟨b0, b1.trans a1, b2.trans a2, b3.trans a3, b4.trans a4, b5.trans a5, b6.trans a6⟩

theorem SizesOnly_withHeaderSize {w : WaveSettings} {d : CHcaDecoder} (h : d.CacheOk w) :
    d.SizesOnly w (d.withHeaderSize w) :=
  ⟨withHeaderSize_cacheOk h, rfl, rfl, rfl, rfl, rfl, rfl⟩

theorem SizesOnly_withBlockSize {w : WaveSettings} {d : CHcaDecoder} (h : d.CacheOk w) :
    d.SizesOnly w (d.withBlockSize w) :=
  ⟨withBlockSize_cacheOk h, rfl, rfl, rfl, rfl, rfl, rfl⟩

theorem MapLoopedPosition_eq {w : WaveSettings} {d : CHcaDecoder} (h : d.CacheOk w) (p : Nat) :
    ∃ d', MapLoopedPosition w p d = (mappedValue w d p, d') ∧ d.SizesOnly w d' := by
  unfold MapLoopedPosition mappedValue loopBoundary headerSize
  cases hh : d.decoderConfig.waveHeaderEnabled
  · simp only [Bool.false_eq_true, if_false]
    by_cases hl : (!d.hcaInfo.loopExists || !d.decoderConfig.loopEnabled) = true
    · simp only [hl, if_true]
      exact ⟨_, rfl, SizesOnly_refl h⟩
    · simp only [hl, Bool.false_eq_true, if_false, GetWaveBlockSize_eq h, withBlockSize_hcaInfo,
        withBlockSize_decoderConfig]
      refine ⟨_, ?_, SizesOnly_withBlockSize h⟩
      split_ifs <;> rfl
  · simp only [if_true, GetWaveHeaderSize_eq h, withHeaderSize_hcaInfo,
      withHeaderSize_decoderConfig]
    by_cases hl : (!d.hcaInfo.loopExists || !d.decoderConfig.loopEnabled) = true
    · simp only [hl, if_true]
      exact ⟨_, rfl, SizesOnly_withHeaderSize h⟩
    · simp only [hl, Bool.false_eq_true, if_false, GetWaveBlockSize_eq (withHeaderSize_cacheOk h),
        withBlockSize_hcaInfo, withBlockSize_decoderConfig, withHeaderSize_hcaInfo,
        withHeaderSize_decoderConfig]
      refine ⟨_, ?_, SizesOnly_trans (SizesOnly_withHeaderSize h)
        (SizesOnly_withBlockSize (withHeaderSize_cacheOk h))⟩
      split_ifs <;> rfl

theorem GetLength_eq {w : WaveSettings} {d : CHcaDecoder} (h : d.CacheOk w) :
    ∃ d', GetLength w d = (lengthValue w d, d') ∧ d.SizesOnly w d' := by
  unfold GetLength lengthValue
  have h1 := withHeaderSize_cacheOk h
  by_cases hl : (d.hcaInfo.loopExists && d.decoderConfig.loopEnabled) = true
  · simp only [hl, if_true]
    by_cases hc : d.decoderConfig.loopCount = 0
    · simp only [hc, if_true]
      exact ⟨_, rfl, SizesOnly_refl h⟩
    · simp only [hc, if_false]
      cases hh : d.decoderConfig.waveHeaderEnabled
      · have h2 := withBlockSize_cacheOk h
        simp only [Bool.false_eq_true, if_false, GetWaveBlockSize_eq h, GetWaveBlockSize_eq h2,
          withBlockSize_hcaInfo, withBlockSize_decoderConfig]
        exact ⟨_, rfl, SizesOnly_trans (SizesOnly_withBlockSize h)
          (SizesOnly_withBlockSize h2)⟩
      · have h2 := withBlockSize_cacheOk h1
        simp only [if_true, GetWaveHeaderSize_eq h, GetWaveBlockSize_eq h1,
          GetWaveBlockSize_eq h2, withBlockSize_hcaInfo, withBlockSize_decoderConfig,
          withHeaderSize_hcaInfo, withHeaderSize_decoderConfig]
        exact ⟨_, rfl, SizesOnly_trans (SizesOnly_trans (SizesOnly_withHeaderSize h)
          (SizesOnly_withBlockSize h1)) (SizesOnly_withBlockSize h2)⟩
  · simp only [hl, Bool.false_eq_true, if_false]
    cases hh : d.decoderConfig.waveHeaderEnabled
    · simp only [Bool.false_eq_true, if_false, GetWaveBlockSize_eq h, withBlockSize_hcaInfo]
      exact ⟨_, rfl, SizesOnly_withBlockSize h⟩
    · simp only [if_true, GetWaveHeaderSize_eq h, GetWaveBlockSize_eq h1,
        withBlockSize_hcaInfo, withHeaderSize_hcaInfo]
      exact ⟨_, rfl, SizesOnly_trans (SizesOnly_withHeaderSize h)
        (SizesOnly_withBlockSize h1)⟩

/-! ## Arithmetic without wrap-around -/

theorem U32_eq : U32 = 4294967296 := by decide

theorem U64_eq : U64 = 18446744073709551616 := by decide

theorem sub32_of_le {a b : Nat} (ha : a < U32) (hb : b ≤ a) : sub32 a b = a - b := by
  unfold sub32
  rw [U32_eq] at *
  omega

theorem sub64_of_le {a b : Nat} (ha : a < U64) (hb : b ≤ a) : sub64 a b = a - b := by
  unfold sub64
  rw [U64_eq] at *
  omega

theorem add32_of_lt {a b : Nat} (h : a + b < U32) : add32 a b = a + b :=
  Nat.mod_eq_of_lt h

theorem add64_of_lt {a b : Nat} (h : a + b < U64) : add64 a b = a + b :=
  Nat.mod_eq_of_lt h

theorem mul32_of_lt {a b : Nat} (h : a * b < U32) : mul32 a b = a * b :=
  Nat.mod_eq_of_lt h

theorem mul64_of_lt {a b : Nat} (h : a * b < U64) : mul64 a b = a * b :=
  Nat.mod_eq_of_lt h

theorem sizeNeeded_lt (w : WaveSettings) (i : HCA_INFO) : sizeNeeded w i < U32 := by
  unfold sizeNeeded add32
  exact Nat.mod_lt _ (by decide)

theorem waveBlockSize_lt (w : WaveSettings) (i : HCA_INFO) : waveBlockSize w i < U32 := by
  unfold waveBlockSize
  exact Nat.mod_lt _ (by decide)

theorem headerSize_lt (w : WaveSettings) (d : CHcaDecoder) : headerSize w d < U32 := by
  unfold headerSize
  split
  · exact sizeNeeded_lt _ _
  · decide

/-- The three loop quantities as the code forms them agree with the plain ones
under the descriptor invariant. -/
theorem loop_quantities {i : HCA_INFO} (hr : i.InRange) (hex : i.loopExists = true)
    (hl : i.LoopInvariant) :
    (if i.loopStart > 1 then sub32 i.loopStart 1 else 0) = i.loopStart - 1 ∧
    (if i.loopEnd < sub32 i.blockCount 1 then sub32 (sub32 i.blockCount 1) i.loopEnd else 0) =
      i.blockCount - 1 - i.loopEnd ∧
    add32 (sub32 i.loopEnd i.loopStart) 1 = i.loopEnd - i.loopStart + 1 := by
  obtain ⟨-, hb, hs, he, -⟩ := hr
  obtain ⟨h1, h2⟩ := hl hex
  have e1 : sub32 i.blockCount 1 = i.blockCount - 1 := sub32_of_le hb (by omega)
  have e2 : sub32 i.loopEnd i.loopStart = i.loopEnd - i.loopStart := sub32_of_le he h1
  refine ⟨?_, ?_, ?_⟩
  · split
    · exact sub32_of_le hs (by omega)
    · omega
  · rw [e1]
    split
    · exact sub32_of_le (by rw [U32_eq] at *; omega) (by omega)
    · omega
  · rw [e2]
    apply add32_of_lt
    rw [U32_eq] at *; omega

/-! ## Helper lemmas on `GetLength` and `Read` -/

theorem GetLength_error_iff (w : WaveSettings) (d : CHcaDecoder) :
    ((∃ message, (GetLength w d).1 = .error (.CArgumentException message)) ↔
      (d.hcaInfo.loopExists = true ∧ d.decoderConfig.loopEnabled = true ∧
        d.decoderConfig.loopCount = 0)) ∧
    (¬(d.hcaInfo.loopExists = true ∧ d.decoderConfig.loopEnabled = true ∧
        d.decoderConfig.loopCount = 0) → ∃ n, (GetLength w d).1 = .ok n) := by
  unfold GetLength
  by_cases hl : (d.hcaInfo.loopExists && d.decoderConfig.loopEnabled) = true
  · have hl' := hl
    rw [Bool.and_eq_true] at hl'
    by_cases hc : d.decoderConfig.loopCount = 0
    · simp only [hl, hc, if_true]
      exact ⟨⟨fun _ => ⟨hl'.1, hl'.2, trivial⟩, fun _ => ⟨_, rfl⟩⟩,
        fun h => absurd ⟨hl'.1, hl'.2, trivial⟩ h⟩
    · simp only [hl, hc, if_true, if_false]
      refine ⟨⟨fun ⟨_, hm⟩ => (by cases hm), fun h => absurd h.2.2 (by simp)⟩,
        fun _ => ⟨_, rfl⟩⟩
  · simp only [hl, Bool.false_eq_true, if_false]
    have hn : ¬(d.hcaInfo.loopExists = true ∧ d.decoderConfig.loopEnabled = true ∧
        d.decoderConfig.loopCount = 0) := fun h => hl (by simp [h.1, h.2.1])
    cases hh : d.decoderConfig.waveHeaderEnabled
    · simp only [Bool.false_eq_true, if_false]
      exact ⟨⟨fun ⟨_, hm⟩ => (by cases hm), fun h => absurd h hn⟩,
        fun _ => ⟨_, rfl⟩⟩
    · simp only [if_true]
      exact ⟨⟨fun ⟨_, hm⟩ => (by cases hm), fun h => absurd h hn⟩,
        fun _ => ⟨_, rfl⟩⟩

theorem mappedValue_of_loopCount_zero {w : WaveSettings} {d : CHcaDecoder} (p : Nat)
    (hc : d.decoderConfig.loopCount = 0) :
    mappedValue w d p = .ok p ∨
      mappedValue w d p = .error (.CArgumentException "CHcaDecoder::MapLoopedPosition") := by
  unfold mappedValue
  split_ifs <;> simp

theorem lengthValue_congr {w : WaveSettings} {d d' : CHcaDecoder} (h : d.SizesOnly w d') :
    lengthValue w d' = lengthValue w d := by
  unfold lengthValue
  rw [h.2.1, h.2.2.1]

theorem Read_invalid_config (env : Environment) (d : CHcaDecoder) (bufferSize offset count : Nat)
    (hc : d.CacheOk env.wave) (hex : d.hcaInfo.loopExists = true)
    (hen : d.decoderConfig.loopEnabled = true) (hcount : d.decoderConfig.loopCount = 0)
    (heff : min count (sub64 bufferSize offset) ≠ 0) :
    (∃ message, (Read env true bufferSize offset count d).result =
        .error (.CArgumentException message)) ∧
      (Read env true bufferSize offset count d).decoder._position = d._position ∧
      (Read env true bufferSize offset count d).written = [] ∧
      (Read env true bufferSize offset count d).decoder._decodedBlocks = d._decodedBlocks ∧
      (Read env true bufferSize offset count d).decoder.pipelineRuns = d.pipelineRuns := by
  obtain ⟨d1, e1, s1⟩ := MapLoopedPosition_eq hc d._position
  obtain ⟨d2, e2, s2⟩ := GetLength_eq s1.1
  have hL : lengthValue env.wave d1 = .error (.CArgumentException "CHcaDecoder::GetLength") := by
    rw [lengthValue_congr s1]
    unfold lengthValue
    simp [hex, hen, hcount]
  unfold Read
  simp only [Bool.not_true, Bool.false_eq_true, if_false, heff, GetPosition, e1]
  rcases mappedValue_of_loopCount_zero (w := env.wave) d._position hcount with hm | hm
  · rw [hm]
    simp only [e2, hL]
    have s12 := SizesOnly_trans s1 s2
    exact ⟨⟨_, rfl⟩, s12.2.2.2.1, trivial, s12.2.2.2.2.2.1, s12.2.2.2.2.2.2⟩
  · rw [hm]
    exact ⟨⟨_, rfl⟩, s1.2.2.2.1, rfl, s1.2.2.2.2.2.1, s1.2.2.2.2.2.2⟩

/-! ## Claims about the reader -/

/-- C1: on the one-channel stream of six blocks with a loop over blocks 2 to 4,
read with the header, looping enabled and `loop_count = 1`, every block
decoding, `GetLength()` is 10352; reading from position 0 in calls of 65536
bytes until `Read` returns 0 yields 10352 bytes, then 6256 more, 16608 in all,
and only blocks 0 to 4 of the six are ever decoded. Calls of 1000 or of 4096
bytes give the same 16608. (Without active looping the reads do add up to
`GetLength()`: `ReadToEnd_no_loop`.) -/
theorem ReadToEnd_exceeds_GetLength :
    (GetLength pcm16Wave (monoDecoder 1)).1 = .ok 10352 ∧
      ReadToEnd (silentEnvironment pcm16Wave) 65536 3 (monoDecoder 1) = some 16608 ∧
      ReadToEnd (silentEnvironment pcm16Wave) 1000 18 (monoDecoder 1) = some 16608 ∧
      ReadToEnd (silentEnvironment pcm16Wave) 4096 6 (monoDecoder 1) = some 16608 ∧
      (Read (silentEnvironment pcm16Wave) true 65536 0 65536 (monoDecoder 1)).result =
        .ok 10352 ∧
      (Read (silentEnvironment pcm16Wave) true 65536 0 65536
        (Read (silentEnvironment pcm16Wave) true 65536 0 65536 (monoDecoder 1)).decoder).result =
        .ok 6256 ∧
      (Read (silentEnvironment pcm16Wave) true 65536 0 65536
        (Read (silentEnvironment pcm16Wave) true 65536 0 65536
          (monoDecoder 1)).decoder).decoder.pipelineRuns = [4, 3, 2, 1, 0] := by
  refine ⟨?_, ?_, ?_, ?_, ?_, ?_, ?_⟩ <;> rfl

/-- C2: on the one-channel stream (header 112, block size 2048, `before = 1`,
`in = 3`) with `loop_count = 2`, the position
`p = 112 + 2048 + 2 ^ 32 * (3 * 2048)` lies past the first loop and has
`k = 2 ^ 32` completed repetitions, so `min(k, loop_count) = 2`; the code
reduces `k` to 32 bits before taking the minimum, takes `k' = 0`, and returns
`p - 112` instead of `p - 2 * 3 * 2048 - 112`. -/
theorem MapLoopedPosition_truncates_repetitions :
    headerSize pcm16Wave (monoDecoder 2) = 112 ∧
      waveBlockSize pcm16Wave monoInfo = 2048 ∧
      112 + (1 + 3) * 2048 < 112 + 2048 + 2 ^ 32 * (3 * 2048) ∧
      112 + 2048 + 2 ^ 32 * (3 * 2048) < U64 ∧
      (112 + 2048 + 2 ^ 32 * (3 * 2048) - 112 - 1 * 2048) / (3 * 2048) = 2 ^ 32 ∧
      (MapLoopedPosition pcm16Wave (112 + 2048 + 2 ^ 32 * (3 * 2048)) (monoDecoder 2)).1 =
        .ok (112 + 2048 + 2 ^ 32 * (3 * 2048) - 112) ∧
      (MapLoopedPosition pcm16Wave (112 + 2048 + 2 ^ 32 * (3 * 2048)) (monoDecoder 2)).1 ≠
        .ok (112 + 2048 + 2 ^ 32 * (3 * 2048) - min (2 ^ 32) 2 * 3 * 2048 - 112) := by
  refine ⟨?_, ?_, ?_, ?_, ?_, ?_, ?_⟩ <;> decide

/-- C3 (as amended): for a descriptor with header 44, wave block size 1024,
`loop_start = 2`, `loop_end = 4`, looping enabled and `loop_count = 2`,
`MapLoopedPosition(44 + 4*1024) = 44 + 4*1024` and
`MapLoopedPosition(44 + 7*1024) = 1024`, which is
`44 + 7*1024 - 2 * 3 * 1024 - 44`: both repetitions are taken off, and the
header with them. -/
theorem MapLoopedPosition_scenario (w : WaveSettings) (d : CHcaDecoder) (hc : d.CacheOk w)
    (hH : headerSize w d = 44) (hB : waveBlockSize w d.hcaInfo = 1024)
    (hs : d.hcaInfo.loopStart = 2) (he : d.hcaInfo.loopEnd = 4)
    (hex : d.hcaInfo.loopExists = true) (hen : d.decoderConfig.loopEnabled = true)
    (hlc : d.decoderConfig.loopCount = 2) :
    (MapLoopedPosition w (44 + 4 * 1024) d).1 = .ok (44 + 4 * 1024) ∧
      (MapLoopedPosition w (44 + 7 * 1024) d).1 = .ok 1024 := by
  obtain ⟨d1, e1, -⟩ := MapLoopedPosition_eq hc (44 + 4 * 1024)
  obtain ⟨d2, e2, -⟩ := MapLoopedPosition_eq hc (44 + 7 * 1024)
  rw [e1, e2]
  simp only [mappedValue, loopBoundary, hH, hB, hs, he, hex, hen, hlc]
  constructor <;> rfl

/-- C3, witness: the scenario descriptor itself (six blocks, two channels). -/
theorem MapLoopedPosition_scenario_witness :
    (MapLoopedPosition scenarioWave (44 + 4 * 1024) scenarioDecoder).1 = .ok (44 + 4 * 1024) ∧
      (MapLoopedPosition scenarioWave (44 + 7 * 1024) scenarioDecoder).1 = .ok 1024 :=
  MapLoopedPosition_scenario scenarioWave scenarioDecoder (by decide) (by decide) (by decide)
    rfl rfl rfl rfl rfl

/-- C3, counterexample: on the scenario descriptor (header 44, block size
1024, six blocks) `MapLoopedPosition(44 + 7*1024)` is not `44 + 4*1024`. -/
theorem MapLoopedPosition_scenario_counterexample :
    headerSize scenarioWave scenarioDecoder = 44 ∧
      waveBlockSize scenarioWave scenarioInfo = 1024 ∧
      (MapLoopedPosition scenarioWave (44 + 7 * 1024) scenarioDecoder).1 ≠
        .ok (44 + 4 * 1024) := by
  refine ⟨?_, ?_, ?_⟩ <;> decide

/-- C4: on the two-channel stream of `2 ^ 20` blocks, all inside the loop
(header 112, block size 4096, `before = 0`, `in = 2 ^ 20`), the unlooped prefix
ends at `112 + 2 ^ 20 * 4096 = 112 + 2 ^ 32`, so position 113 lies in it; the
code forms the boundary in 32 bits, gets 112, and maps 113 to 1 when
`loop_count = 1` and throws `CArgumentException` when `loop_count = 0`. -/
theorem MapLoopedPosition_prefix_boundary_wraps :
    longInfo.InRange ∧ longInfo.LoopInvariant ∧
      headerSize pcm16Wave (longDecoder 1) = 112 ∧
      waveBlockSize pcm16Wave longInfo = 4096 ∧
      113 ≤ 112 + (0 + (longInfo.loopEnd - longInfo.loopStart + 1)) * 4096 ∧
      loopBoundary pcm16Wave (longDecoder 1) = 112 ∧
      (MapLoopedPosition pcm16Wave 113 (longDecoder 1)).1 = .ok 1 ∧
      (MapLoopedPosition pcm16Wave 113 (longDecoder 0)).1 =
        .error (.CArgumentException "CHcaDecoder::MapLoopedPosition") := by
  refine ⟨?_, ?_, ?_, ?_, ?_, ?_, ?_, ?_⟩ <;> decide

/-- C5: with a loop that exists and is enabled and `loop_count > 0`, on a
descriptor with `loop_start ≤ loop_end < block_count`, `GetLength()` is
`header + (before + after) * wbs + in * loop_count * wbs` as a 64-bit unsigned
value, and is that number itself when it fits in 64 bits; `before` is
`loop_start - 1` cut off at 0, `after` is `block_count - 1 - loop_end` cut off
at 0, `in` is `loop_end - loop_start + 1`, and `header` is the WAVE header size
when the header is enabled and 0 otherwise. -/
theorem GetLength_looped (w : WaveSettings) (d : CHcaDecoder) (hc : d.CacheOk w)
    (hr : d.hcaInfo.InRange) (hl : d.hcaInfo.LoopInvariant)
    (hex : d.hcaInfo.loopExists = true) (hen : d.decoderConfig.loopEnabled = true)
    (hcount : 0 < d.decoderConfig.loopCount) :
    (GetLength w d).1 =
        .ok ((headerSize w d +
          (d.hcaInfo.loopStart - 1 + (d.hcaInfo.blockCount - 1 - d.hcaInfo.loopEnd)) *
            waveBlockSize w d.hcaInfo +
          (d.hcaInfo.loopEnd - d.hcaInfo.loopStart + 1) * d.decoderConfig.loopCount *
            waveBlockSize w d.hcaInfo) % U64) ∧
      (headerSize w d +
          (d.hcaInfo.loopStart - 1 + (d.hcaInfo.blockCount - 1 - d.hcaInfo.loopEnd)) *
            waveBlockSize w d.hcaInfo +
          (d.hcaInfo.loopEnd - d.hcaInfo.loopStart + 1) * d.decoderConfig.loopCount *
            waveBlockSize w d.hcaInfo < U64 →
        (GetLength w d).1 =
          .ok (headerSize w d +
            (d.hcaInfo.loopStart - 1 + (d.hcaInfo.blockCount - 1 - d.hcaInfo.loopEnd)) *
              waveBlockSize w d.hcaInfo +
            (d.hcaInfo.loopEnd - d.hcaInfo.loopStart + 1) * d.decoderConfig.loopCount *
              waveBlockSize w d.hcaInfo)) := by
  obtain ⟨d1, e1, -⟩ := GetLength_eq hc
  obtain ⟨q1, q2, q3⟩ := loop_quantities hr hex hl
  have key : lengthValue w d = .ok ((headerSize w d +
          (d.hcaInfo.loopStart - 1 + (d.hcaInfo.blockCount - 1 - d.hcaInfo.loopEnd)) *
            waveBlockSize w d.hcaInfo +
          (d.hcaInfo.loopEnd - d.hcaInfo.loopStart + 1) * d.decoderConfig.loopCount *
            waveBlockSize w d.hcaInfo) % U64) := by
    have hsum : add32 (d.hcaInfo.loopStart - 1) (d.hcaInfo.blockCount - 1 - d.hcaInfo.loopEnd) =
        d.hcaInfo.loopStart - 1 + (d.hcaInfo.blockCount - 1 - d.hcaInfo.loopEnd) := by
      apply add32_of_lt
      obtain ⟨-, hb, -, -, -⟩ := hr
      obtain ⟨h1, h2⟩ := hl hex
      rw [U32_eq] at *; omega
    have hH : (if d.decoderConfig.waveHeaderEnabled = true then add64 0 (sizeNeeded w d.hcaInfo)
        else 0) = headerSize w d := by
      unfold headerSize
      split
      · rw [add64_of_lt, Nat.zero_add]
        have := sizeNeeded_lt w d.hcaInfo
        rw [U32_eq] at this; rw [U64_eq]; omega
      · rfl
    have hc0 : d.decoderConfig.loopCount ≠ 0 := Nat.pos_iff_ne_zero.mp hcount
    unfold lengthValue
    rw [if_pos (by simp [hex, hen]), if_neg hc0]
    rw [q1, q2, q3]
    dsimp only
    rw [hsum, hH]
    apply congrArg Except.ok
    simp only [add64, mul64, Nat.mod_add_mod, Nat.add_mod_mod, Nat.mul_mod_mod, Nat.mod_mul_mod]
  rw [e1, key]
  refine ⟨rfl, fun hlt => ?_⟩
  rw [Nat.mod_eq_of_lt hlt]

/-- C5, witness: header 44, wave block size 1024, `loop_start = 2`,
`loop_end = 4`, `block_count = 6`, `loop_count = 2` gives
`44 + (1 + 1) * 1024 + 3 * 2 * 1024 = 8236`. -/
theorem GetLength_looped_witness :
    (GetLength scenarioWave scenarioDecoder).1 = .ok 8236 ∧
      headerSize scenarioWave scenarioDecoder = 44 ∧
      waveBlockSize scenarioWave scenarioDecoder.hcaInfo = 1024 ∧
      44 + (2 - 1 + (6 - 1 - 4)) * 1024 + (4 - 2 + 1) * 2 * 1024 = 8236 :=
  ⟨(GetLength_looped scenarioWave scenarioDecoder (by decide) (by decide) (by decide) rfl rfl
    (by decide)).2 (by decide), by decide, by decide, by decide⟩

/-- C6: `GetLength()` throws `CArgumentException` exactly when the loop exists,
looping is enabled and `loop_count = 0`, and returns a value in every other
configuration; in that configuration a `Read` with a non-null buffer and a
non-zero effective count throws `CArgumentException`, stores nothing, decodes
nothing and leaves the position where it was. -/
theorem GetLength_fails_iff_loopCount_zero (env : Environment) (d : CHcaDecoder)
    (bufferSize offset count : Nat) (hc : d.CacheOk env.wave) :
    ((∃ message, (GetLength env.wave d).1 = .error (.CArgumentException message)) ↔
      (d.hcaInfo.loopExists = true ∧ d.decoderConfig.loopEnabled = true ∧
        d.decoderConfig.loopCount = 0)) ∧
    (¬(d.hcaInfo.loopExists = true ∧ d.decoderConfig.loopEnabled = true ∧
        d.decoderConfig.loopCount = 0) → ∃ n, (GetLength env.wave d).1 = .ok n) ∧
    (d.hcaInfo.loopExists = true ∧ d.decoderConfig.loopEnabled = true ∧
        d.decoderConfig.loopCount = 0 →
      min count (sub64 bufferSize offset) ≠ 0 →
      (∃ message, (Read env true bufferSize offset count d).result =
          .error (.CArgumentException message)) ∧
        (Read env true bufferSize offset count d).decoder._position = d._position ∧
        (Read env true bufferSize offset count d).written = [] ∧
        (Read env true bufferSize offset count d).decoder._decodedBlocks = d._decodedBlocks ∧
        (Read env true bufferSize offset count d).decoder.pipelineRuns = d.pipelineRuns) :=
  ⟨(GetLength_error_iff env.wave d).1, (GetLength_error_iff env.wave d).2,
    fun h heff => Read_invalid_config env d bufferSize offset count hc h.1 h.2.1 h.2.2 heff⟩

/-- C6, witness: the one-channel stream with `loop_count = 0`, positioned past
the first loop, asked for 16 bytes. -/
theorem GetLength_fails_iff_loopCount_zero_witness :
    (SetPosition 20000 (monoDecoder 0)).CacheOk pcm16Wave ∧
      (∃ message, (GetLength pcm16Wave (SetPosition 20000 (monoDecoder 0))).1 =
        .error (.CArgumentException message)) ∧
      (∃ message, (Read (silentEnvironment pcm16Wave) true 16 0 16
        (SetPosition 20000 (monoDecoder 0))).result = .error (.CArgumentException message)) ∧
      (Read (silentEnvironment pcm16Wave) true 16 0 16
        (SetPosition 20000 (monoDecoder 0))).decoder._position = 20000 :=
  have h := GetLength_fails_iff_loopCount_zero (silentEnvironment pcm16Wave)
    (SetPosition 20000 (monoDecoder 0)) 16 0 16 (by decide)
  ⟨by decide, h.1.2 (by decide), (h.2.2 (by decide) (by decide)).1,
    (h.2.2 (by decide) (by decide)).2.1⟩

/-- C7 (as amended): `GetWaveBlockSize()` is `128 * u * channel_count` reduced
to 32 bits, where `u` is the configured bit depth itself (in bits, not divided
by 8) when that is non-zero and 4 when it is 0. For the 16-bit output this is
`2048 * channel_count` (eight sub-frames of 128 two-byte samples per channel),
for the float mode of bit depth 0 it is `128 * 4 * channel_count`. -/
theorem GetWaveBlockSize_value (w : WaveSettings) (d : CHcaDecoder) (hc : d.CacheOk w) :
    (GetWaveBlockSize w d).1 =
        (128 * (if w.BitPerChannel ≠ 0 then w.BitPerChannel else 4) * d.hcaInfo.channelCount) %
          U32 ∧
      (w.BitPerChannel = 16 → d.hcaInfo.channelCount < 2 ^ 21 →
        (GetWaveBlockSize w d).1 = 2048 * d.hcaInfo.channelCount) ∧
      (w.BitPerChannel = 0 → d.hcaInfo.channelCount < 2 ^ 23 →
        (GetWaveBlockSize w d).1 = 128 * 4 * d.hcaInfo.channelCount) := by
  have hdvd : U32 ∣ U64 := ⟨U32, by decide⟩
  have key : waveBlockSize w d.hcaInfo =
      (128 * (if w.BitPerChannel ≠ 0 then w.BitPerChannel else 4) * d.hcaInfo.channelCount) %
        U32 := by
    have hX : (if w.BitPerChannel ≠ 0 then w.BitPerChannel % U32 else 4) ≡
        (if w.BitPerChannel ≠ 0 then w.BitPerChannel else 4) [MOD U32] := by
      split
      · exact Nat.mod_modEq _ _
      · exact Nat.ModEq.refl _
    have h1 : (128 * (if w.BitPerChannel ≠ 0 then w.BitPerChannel % U32 else 4)) % U64 ≡
        128 * (if w.BitPerChannel ≠ 0 then w.BitPerChannel else 4) [MOD U32] :=
      ((Nat.mod_modEq _ U64).of_dvd hdvd).trans (Nat.ModEq.mul_left 128 hX)
    unfold waveBlockSize mul64
    simp only [Nat.div_one]
    rw [Nat.mod_mod_of_dvd _ hdvd]
    exact Nat.ModEq.mul_right _ h1
  rw [GetWaveBlockSize_eq hc]
  refine ⟨key, fun h16 hcc => ?_, fun h0 hcc => ?_⟩
  · show waveBlockSize w d.hcaInfo = _
    rw [key, h16, if_pos (by decide), U32_eq]
    omega
  · show waveBlockSize w d.hcaInfo = _
    rw [key, h0, if_neg (by decide), U32_eq]
    omega

/-- C7, witness: two channels, 16-bit output and float output. -/
theorem GetWaveBlockSize_value_witness :
    (GetWaveBlockSize pcm16Wave (longDecoder 1)).1 = 2048 * 2 ∧
      (GetWaveBlockSize scenarioWave scenarioDecoder).1 = 128 * 4 * 2 :=
  ⟨(GetWaveBlockSize_value pcm16Wave (longDecoder 1) (by decide)).2.1 rfl (by decide),
    (GetWaveBlockSize_value scenarioWave scenarioDecoder (by decide)).2.2 rfl (by decide)⟩

/-- C7, counterexample: with the 16-bit output and one channel
`GetWaveBlockSize()` is 2048, not `128 * (16 / 8) * 1 = 256`. -/
theorem GetWaveBlockSize_counterexample :
    (GetWaveBlockSize pcm16Wave (monoDecoder 1)).1 = 2048 ∧
      (GetWaveBlockSize pcm16Wave (monoDecoder 1)).1 ≠
        128 * (pcm16Wave.BitPerChannel / 8) * (monoDecoder 1).hcaInfo.channelCount := by
  constructor <;> decide

/-- C8: `Read` on a non-null buffer with `count = 0` or with
`offset = buffer_size` returns 0 and leaves the whole object as it was: the
position, the block cache and the record of decoded blocks are untouched, and
nothing is thrown, whatever the configuration. -/
theorem Read_nothing_requested (env : Environment) (d : CHcaDecoder)
    (bufferSize offset count : Nat) (hsize : bufferSize < U64)
    (h : count = 0 ∨ offset = bufferSize) :
    Read env true bufferSize offset count d = ⟨.ok 0, [], d⟩ := by
  have h0 : min count (sub64 bufferSize offset) = 0 := by
    rcases h with h | h
    · simp [h]
    · have : sub64 bufferSize offset = 0 := by
        subst h
        unfold sub64
        rw [Nat.mod_eq_of_lt hsize, Nat.add_sub_cancel_left, Nat.mod_self]
      simp [this]
  unfold Read
  simp only [Bool.not_true, Bool.false_eq_true, if_false, h0, if_true]

/-- C8, witness: a zero count, and an offset at the end of the buffer, in the
configuration for which `GetLength` throws. -/
theorem Read_nothing_requested_witness :
    Read (silentEnvironment pcm16Wave) true 16 0 0 (monoDecoder 0) =
        ⟨.ok 0, [], monoDecoder 0⟩ ∧
      Read (silentEnvironment pcm16Wave) true 16 16 8 (monoDecoder 0) =
        ⟨.ok 0, [], monoDecoder 0⟩ :=
  ⟨Read_nothing_requested _ _ 16 0 0 (by decide) (Or.inl rfl),
    Read_nothing_requested _ _ 16 16 8 (by decide) (Or.inr rfl)⟩

/-! ## The copy loop of `Read` -/

theorem BlocksOnly_refl (d : CHcaDecoder) : d.BlocksOnly d :=
  ⟨rfl, rfl, rfl, rfl, rfl, rfl, fun _ _ h => h⟩

theorem BlocksOnly_trans {d d' d'' : CHcaDecoder}
    (h : d.BlocksOnly d') (h' : d'.BlocksOnly d'') : d.BlocksOnly d'' := by
  obtain ⟨a1, a2, a3, a4, a5, a6, a7⟩ := h
  obtain ⟨b1, b2, b3, b4, b5, b6, b7⟩ := h'
  exact ⟨b1.trans a1, b2.trans a2, b3.trans a3, b4.trans a4, b5.trans a5, b6.trans a6,
    fun j b hj => b7 j b (a7 j b hj)⟩

theorem DecodeBlock_ok (env : Environment) (k : Nat) (d : CHcaDecoder)
    (hB : d._waveBlockSize ≠ 0)
    (hdec : ∀ runs, ∃ pcm, env.pipeline runs k = .ok pcm) :
    ∃ blockData d', DecodeBlock env k d = (.ok blockData, d') ∧
      d'._decodedBlocks.lookup k = some blockData ∧ d.BlocksOnly d' := by
  unfold DecodeBlock
  cases hlk : d._decodedBlocks.lookup k with
  | some blockData => exact ⟨blockData, d, rfl, hlk, BlocksOnly_refl d⟩
  | none =>
    have hg : GetWaveBlockSize env.wave d = (d._waveBlockSize, d) := by
      unfold GetWaveBlockSize
      simp [hB]
    obtain ⟨pcm, hp⟩ := hdec d.pipelineRuns
    simp only [hg, hp]
    refine ⟨_, _, rfl, ?_, rfl, rfl, rfl, rfl, rfl, rfl, ?_⟩
    · simp [List.lookup]
    · intro j b hj
      have hjk : j ≠ k := by
        rintro rfl
        rw [hlk] at hj
        cases hj
      simp only [List.lookup]
      have : (j == k) = false := by simpa using hjk
      rw [this]
      exact hj

theorem slice_eq_audio {d : CHcaDecoder} {B k o cl : Nat} {blockData : List Nat}
    (hlk : d._decodedBlocks.lookup k = some blockData) (ho : o + cl ≤ B) :
    slice blockData o cl = (List.range cl).map (fun i => audioByte d B (k * B + o + i)) := by
  unfold slice
  apply List.map_congr_left
  intro i hi
  rw [List.mem_range] at hi
  have hlt : o + i < B := by omega
  have h1 : (k * B + o + i) / B = k := by
    rw [Nat.add_assoc, Nat.mul_comm, Nat.mul_add_div (by omega), Nat.div_eq_of_lt hlt,
      Nat.add_zero]
  have h2 : (k * B + o + i) % B = o + i := by
    rw [Nat.add_assoc, Nat.mul_comm, Nat.mul_add_mod, Nat.mod_eq_of_lt hlt]
  unfold audioByte
  rw [h1, h2, hlk]
  rfl

theorem ReadLoop_copies (env : Environment) (L H B N : Nat) (hB : 0 < B) (hB64 : B < U64)
    (hL : L < U64) (hN : N ≤ U32 * B)
    (hdec : ∀ k, k * B < N → ∀ runs, ∃ pcm, env.pipeline runs k = .ok pcm) :
    ∀ (fuel : Nat) (v : ReadLocals) (d : CHcaDecoder),
      d._waveBlockSize = B → v.bufferSize ≤ fuel → H ≤ v.mappedPosition →
      v.mappedPosition + v.bufferSize ≤ L → v.mappedPosition - H + v.bufferSize ≤ N →
      v.streamPosition + v.bufferSize < U64 → v.totalRead + v.bufferSize < U64 →
      ∃ v' d', ReadLoop env L H B fuel v d = (none, v', d') ∧
        v'.streamPosition = v.streamPosition + v.bufferSize ∧
        v'.totalRead = v.totalRead + v.bufferSize ∧
        v'.written = v.written ++
          (List.range v.bufferSize).map (fun i => audioByte d' B (v.mappedPosition - H + i)) ∧
        d.BlocksOnly d' := by
  intro fuel
  induction fuel with
  | zero =>
    intro v d _ hf _ _ _ _ _
    have h0 : v.bufferSize = 0 := by omega
    refine ⟨v, d, rfl, ?_, ?_, ?_, BlocksOnly_refl d⟩ <;> simp [h0]
  | succ fuel ih =>
    intro v d hd hf hH hlen hNn hsp htr
    by_cases h0 : v.bufferSize = 0
    · refine ⟨v, d, ?_, ?_, ?_, ?_, BlocksOnly_refl d⟩
      · rw [ReadLoop, if_neg (by omega)]
      all_goals simp [h0]
    · have hm64 : v.mappedPosition < U64 := by omega
      have hsubH : sub64 v.mappedPosition H = v.mappedPosition - H := sub64_of_le hm64 hH
      have hklt : (v.mappedPosition - H) / B < U32 := by
        apply Nat.div_lt_of_lt_mul
        calc v.mappedPosition - H < N := by omega
          _ ≤ U32 * B := hN
          _ = B * U32 := Nat.mul_comm _ _
      have hkB : (v.mappedPosition - H) / B * B < N := by
        have := Nat.div_mul_le_self (v.mappedPosition - H) B
        omega
      have hBd : d._waveBlockSize ≠ 0 := by omega
      obtain ⟨blockData, d1, e1, hlk, b1⟩ :=
        DecodeBlock_ok env ((v.mappedPosition - H) / B) d hBd (hdec _ hkB)
      have ho : (v.mappedPosition - H) % B < B := Nat.mod_lt _ hB
      have hsubL : sub64 L v.mappedPosition = L - v.mappedPosition :=
        sub64_of_le hL (by omega)
      have hsubB : sub64 B ((v.mappedPosition - H) % B) = B - (v.mappedPosition - H) % B :=
        sub64_of_le hB64 (by omega)
      have hcl : min (L - v.mappedPosition) (min (B - (v.mappedPosition - H) % B) v.bufferSize) =
          min (B - (v.mappedPosition - H) % B) v.bufferSize := by
        apply Nat.min_eq_right
        exact le_trans (Nat.min_le_right _ _) (by omega)
      have hcl1 : 1 ≤ min (B - (v.mappedPosition - H) % B) v.bufferSize := by
        rw [Nat.le_min]; omega
      have hcln : min (B - (v.mappedPosition - H) % B) v.bufferSize ≤ v.bufferSize :=
        Nat.min_le_right _ _
      have hclB : (v.mappedPosition - H) % B +
          min (B - (v.mappedPosition - H) % B) v.bufferSize ≤ B := by
        have := Nat.min_le_left (B - (v.mappedPosition - H) % B) v.bufferSize
        omega
      generalize hcldef : min (B - (v.mappedPosition - H) % B) v.bufferSize = cl at *
      have hn64 : v.bufferSize < U64 := by omega
      obtain ⟨v', d', e2, p1, p2, p3, b2⟩ := ih
        { streamPosition := v.streamPosition + cl
          bufferSize := v.bufferSize - cl
          offset := add64 v.offset cl
          totalRead := v.totalRead + cl
          mappedPosition := v.mappedPosition + cl
          written := v.written ++ slice blockData ((v.mappedPosition - H) % B) cl } d1
        (b1.2.2.2.1.trans hd) (by show v.bufferSize - cl ≤ fuel; omega)
        (by show H ≤ v.mappedPosition + cl; omega)
        (by show v.mappedPosition + cl + (v.bufferSize - cl) ≤ L; omega)
        (by show v.mappedPosition + cl - H + (v.bufferSize - cl) ≤ N; omega)
        (by show v.streamPosition + cl + (v.bufferSize - cl) < U64; omega)
        (by show v.totalRead + cl + (v.bufferSize - cl) < U64; omega)
      refine ⟨v', d', ?_, ?_, ?_, ?_, BlocksOnly_trans b1 b2⟩
      · rw [ReadLoop, if_pos ⟨by omega, by omega⟩, if_neg (by omega)]
        have e_sp : add64 v.streamPosition cl = v.streamPosition + cl :=
          add64_of_lt (by omega)
        have e_tr : add64 v.totalRead cl = v.totalRead + cl := add64_of_lt (by omega)
        have e_mp : add64 v.mappedPosition cl = v.mappedPosition + cl :=
          add64_of_lt (by omega)
        simp only [hsubH, Nat.mod_eq_of_lt hklt, e1, hsubL, hsubB, hcl, hcldef, e_sp, e_tr,
          e_mp, sub64_of_le hn64 hcln]
        exact e2
      · rw [p1]; show v.streamPosition + cl + (v.bufferSize - cl) = _; omega
      · rw [p2]; show v.totalRead + cl + (v.bufferSize - cl) = _; omega
      · rw [p3]
        show (v.written ++ slice blockData ((v.mappedPosition - H) % B) cl) ++
          (List.range (v.bufferSize - cl)).map
            (fun i => audioByte d' B (v.mappedPosition + cl - H + i)) = _
        have hsplit : v.bufferSize = cl + (v.bufferSize - cl) := by omega
        have hmH : (v.mappedPosition - H) / B * B + (v.mappedPosition - H) % B =
            v.mappedPosition - H := Nat.div_add_mod' _ _
        rw [List.append_assoc]
        congr 1
        conv_rhs => rw [hsplit, List.range_add, List.map_append, List.map_map]
        congr 1
        · rw [slice_eq_audio (b2.2.2.2.2.2.2 _ _ hlk) hclB]
          apply List.map_congr_left
          intro i _
          rw [hmH]
        · apply List.map_congr_left
          intro i _
          show audioByte d' B (v.mappedPosition + cl - H + i) =
            audioByte d' B (v.mappedPosition - H + (cl + i))
          congr 1
          omega

theorem GenerateWaveHeader_eq {env : Environment} {d : CHcaDecoder} (h : d.CacheOk env.wave) :
    ∃ d', GenerateWaveHeader env d = (headerBytes env d, d') ∧ d'.CacheOk env.wave ∧
      d'.hcaInfo = d.hcaInfo ∧ d'.decoderConfig = d.decoderConfig ∧
      d'._position = d._position ∧ d'._decodedBlocks = d._decodedBlocks ∧
      d'.pipelineRuns = d.pipelineRuns := by
  unfold GenerateWaveHeader headerBytes
  cases hb : d._waveHeaderBuffer with
  | some b => exact ⟨d, rfl, h, rfl, rfl, rfl, rfl, rfl⟩
  | none =>
    simp only [GetWaveHeaderSize_eq h]
    exact ⟨_, rfl, withHeaderSize_cacheOk h, rfl, rfl, rfl, rfl, rfl⟩

theorem lengthValue_lt {w : WaveSettings} {d : CHcaDecoder} {L : Nat}
    (h : lengthValue w d = .ok L) : L < U64 := by
  unfold lengthValue at h
  have h32 : U32 ≤ U64 := by decide
  by_cases hl : (d.hcaInfo.loopExists && d.decoderConfig.loopEnabled) = true
  · rw [if_pos hl] at h
    by_cases hc : d.decoderConfig.loopCount = 0
    · rw [if_pos hc] at h
      cases h
    · rw [if_neg hc] at h
      injection h with h
      rw [← h]
      exact Nat.mod_lt _ (by decide)
  · rw [if_neg hl] at h
    by_cases hh : d.decoderConfig.waveHeaderEnabled = true
    · rw [if_pos hh] at h
      injection h with h
      rw [← h]
      exact lt_of_lt_of_le (Nat.mod_lt _ (by decide)) h32
    · rw [if_neg hh] at h
      injection h with h
      rw [← h]
      exact Nat.mod_lt _ (by decide)

/-- Fuel: with the lengths 64-bit values, any two amounts of fuel that cover
`bufferSize` give the same run of the loop, so the `bufferSize` passes that
`Read` allows are enough. -/
theorem ReadLoop_fuel (env : Environment) (L H B : Nat) (hL : L < U64) (hB : B < U64) :
    ∀ (fuel fuel' : Nat) (v : ReadLocals) (d : CHcaDecoder),
      v.bufferSize ≤ fuel → v.bufferSize ≤ fuel' → v.bufferSize < U64 →
      ReadLoop env L H B fuel v d = ReadLoop env L H B fuel' v d := by
  intro fuel
  induction fuel with
  | zero =>
    intro fuel' v d h1 _ _
    have h0 : v.bufferSize = 0 := by omega
    cases fuel' with
    | zero => rfl
    | succ n => rw [ReadLoop, ReadLoop, if_neg (by omega)]
  | succ fuel ih =>
    intro fuel' v d h1 h2 h64
    cases fuel' with
    | zero =>
      have h0 : v.bufferSize = 0 := by omega
      rw [ReadLoop, ReadLoop, if_neg (by omega)]
    | succ fuel' =>
      rw [ReadLoop, ReadLoop]
      by_cases hcond : v.bufferSize > 0 ∧ v.mappedPosition < L
      · rw [if_pos hcond, if_pos hcond]
        by_cases hB0 : B = 0
        · rw [if_pos hB0, if_pos hB0]
        · rw [if_neg hB0, if_neg hB0]
          dsimp only
          rcases hdb : DecodeBlock env (sub64 v.mappedPosition H / B % U32) d with ⟨r, d1⟩
          cases r with
          | error e => rfl
          | ok blockData =>
            dsimp only
            have ho : sub64 v.mappedPosition H % B < B := Nat.mod_lt _ (by omega)
            have e1 : sub64 L v.mappedPosition = L - v.mappedPosition :=
              sub64_of_le hL (by omega)
            have e2 : sub64 B (sub64 v.mappedPosition H % B) =
                B - sub64 v.mappedPosition H % B := sub64_of_le hB (by omega)
            have hle : min (sub64 L v.mappedPosition)
                (min (sub64 B (sub64 v.mappedPosition H % B)) v.bufferSize) ≤ v.bufferSize :=
              le_trans (Nat.min_le_right _ _) (Nat.min_le_right _ _)
            have hge : 1 ≤ min (sub64 L v.mappedPosition)
                (min (sub64 B (sub64 v.mappedPosition H % B)) v.bufferSize) := by
              rw [e1, e2, Nat.le_min, Nat.le_min]
              omega
            have e3 := sub64_of_le h64 hle
            apply ih
            · show sub64 v.bufferSize _ ≤ fuel
              rw [e3]; omega
            · show sub64 v.bufferSize _ ≤ fuel'
              rw [e3]; omega
            · show sub64 v.bufferSize _ < U64
              rw [e3]; omega
      · rw [if_neg hcond, if_neg hcond]

/-! ## Reading across the end of the header -/

theorem headerBytes_congr {env : Environment} {d d' : CHcaDecoder}
    (h : d.SizesOnly env.wave d') : headerBytes env d' = headerBytes env d := by
  unfold headerBytes
  rw [h.2.1, h.2.2.2.2.1]

theorem GenerateWaveHeader_fst {env : Environment} {d : CHcaDecoder} (h : d.CacheOk env.wave) :
    (GenerateWaveHeader env d).1 = headerBytes env d := by
  obtain ⟨d', e, -⟩ := GenerateWaveHeader_eq h
  rw [e]

theorem mappedValue_of_le_boundary {w : WaveSettings} {d : CHcaDecoder} {p : Nat}
    (h : d.hcaInfo.loopExists = true → d.decoderConfig.loopEnabled = true →
      p ≤ loopBoundary w d) : mappedValue w d p = .ok p := by
  unfold mappedValue
  by_cases hl : (!d.hcaInfo.loopExists || !d.decoderConfig.loopEnabled) = true
  · rw [if_pos hl]
  · rw [if_neg hl]
    have hl' : d.hcaInfo.loopExists = true ∧ d.decoderConfig.loopEnabled = true := by
      simpa using hl
    dsimp only
    rw [if_pos (h hl'.1 hl'.2)]

/-- C9: with the WAVE header enabled, a position `p` inside the header, an
effective count `c = min(count, buffer_size - offset)` that reaches past the
header (`header_size - p < c`), `p + c ≤ GetLength()`, and, when looping is
active, `p + c ≤ header_size + (before + in) * wbs` with `p` not past the loop
boundary as line 365 forms it in 32 bits, and every block that the request
touches decoding: one `Read` returns `c`, stores the header bytes
`[p, header_size)` followed at once by the first `c - (header_size - p)` bytes
of the decoded audio from block 0, offset 0 on (as the block cache holds them
after the call), and leaves the position at `p + c`. -/
theorem Read_header_then_audio (env : Environment) (d : CHcaDecoder)
    (bufferSize offset count L : Nat)
    (hc : d.CacheOk env.wave) (hr : d.hcaInfo.InRange) (hl : d.hcaInfo.LoopInvariant)
    (hen : d.decoderConfig.waveHeaderEnabled = true)
    (hpos : d._position < sizeNeeded env.wave d.hcaInfo)
    (hcnt : sizeNeeded env.wave d.hcaInfo - d._position < min count (sub64 bufferSize offset))
    (hL : (GetLength env.wave d).1 = .ok L)
    (hlen : d._position + min count (sub64 bufferSize offset) ≤ L)
    (hloop : d.hcaInfo.loopExists = true → d.decoderConfig.loopEnabled = true →
      d._position + min count (sub64 bufferSize offset) ≤
          sizeNeeded env.wave d.hcaInfo +
            (d.hcaInfo.loopStart - 1 + (d.hcaInfo.loopEnd - d.hcaInfo.loopStart + 1)) *
              waveBlockSize env.wave d.hcaInfo ∧
        d._position ≤ loopBoundary env.wave d)
    (hdec : ∀ k, k * waveBlockSize env.wave d.hcaInfo <
        min count (sub64 bufferSize offset) - (sizeNeeded env.wave d.hcaInfo - d._position) →
      ∀ runs, ∃ pcm, env.pipeline runs k = .ok pcm) :
    (Read env true bufferSize offset count d).result =
        .ok (min count (sub64 bufferSize offset)) ∧
      (Read env true bufferSize offset count d).written =
        slice (GenerateWaveHeader env d).1 d._position
            (sizeNeeded env.wave d.hcaInfo - d._position) ++
          (List.range (min count (sub64 bufferSize offset) -
              (sizeNeeded env.wave d.hcaInfo - d._position))).map
            (audioByte (Read env true bufferSize offset count d).decoder
              (waveBlockSize env.wave d.hcaInfo)) ∧
      (Read env true bufferSize offset count d).decoder._position =
        d._position + min count (sub64 bufferSize offset) := by
  -- names for the quantities
  generalize hcdef : min count (sub64 bufferSize offset) = c at *
  generalize hHdef : sizeNeeded env.wave d.hcaInfo = H at *
  generalize hBdef : waveBlockSize env.wave d.hcaInfo = B at *
  have hH32 : H < U32 := hHdef ▸ sizeNeeded_lt env.wave d.hcaInfo
  have hB32 : B < U32 := hBdef ▸ waveBlockSize_lt env.wave d.hcaInfo
  have h3264 : U32 ≤ U64 := by decide
  -- the calls made before the copy
  obtain ⟨d1, e1, s1⟩ := MapLoopedPosition_eq hc d._position
  obtain ⟨d2, e2, s2⟩ := GetLength_eq s1.1
  obtain ⟨d0, e0, -⟩ := GetLength_eq hc
  have hLv : lengthValue env.wave d = .ok L := by
    rw [e0] at hL; exact hL
  have hL64 : L < U64 := lengthValue_lt hLv
  have s12 := SizesOnly_trans s1 s2
  have e3 := GetWaveHeaderSize_eq s2.1
  have s3 := SizesOnly_withHeaderSize s2.1
  have s13 := SizesOnly_trans s12 s3
  obtain ⟨d4, e4, c4, i4, g4, p4, b4, r4⟩ := GenerateWaveHeader_eq s3.1
  have e5 := GetWaveBlockSize_eq c4
  have hmv : mappedValue env.wave d d._position = .ok d._position :=
    mappedValue_of_le_boundary (fun h1 h2 => (hloop h1 h2).2)
  -- the block size is not zero, and no block index is cut to 32 bits
  have hBN : 0 < B ∧ c - (H - d._position) ≤ U32 * B := by
    by_cases hact : (d.hcaInfo.loopExists && d.decoderConfig.loopEnabled) = true
    · rw [Bool.and_eq_true] at hact
      obtain ⟨hb, -⟩ := hloop hact.1 hact.2
      obtain ⟨-, hbc, -, -, -⟩ := hr
      obtain ⟨q1, q2⟩ := hl hact.1
      have hsum : d.hcaInfo.loopStart - 1 + (d.hcaInfo.loopEnd - d.hcaInfo.loopStart + 1) ≤
          U32 := by omega
      have hmul := Nat.mul_le_mul_right B hsum
      constructor
      · rcases Nat.eq_zero_or_pos B with h0 | h0
        · rw [h0, Nat.mul_zero] at hb; omega
        · exact h0
      · omega
    · have hLf : L = add32 H (mul32 B d.hcaInfo.blockCount) := by
        unfold lengthValue at hLv
        rw [if_neg hact, if_pos hen, hHdef, hBdef] at hLv
        injection hLv with hLv
        exact hLv.symm
      have hL32 : L < U32 := by
        rw [hLf]; exact Nat.mod_lt _ (by decide)
      constructor
      · rcases Nat.eq_zero_or_pos B with h0 | h0
        · rw [h0] at hLf
          have : L = H := by
            rw [hLf]
            unfold mul32 add32
            rw [Nat.zero_mul, Nat.zero_mod, Nat.add_zero, Nat.mod_eq_of_lt hH32]
          omega
        · exact h0
      · rcases Nat.eq_zero_or_pos B with h0 | h0
        · rw [h0] at hLf
          have : L = H := by
            rw [hLf]
            unfold mul32 add32
            rw [Nat.zero_mul, Nat.zero_mod, Nat.add_zero, Nat.mod_eq_of_lt hH32]
          omega
        · have : U32 * 1 ≤ U32 * B := Nat.mul_le_mul_left _ h0
          omega
  obtain ⟨hBpos, hNB⟩ := hBN
  -- the copy loop
  have hd5 : (d4.withBlockSize env.wave)._waveBlockSize = B := by
    show waveBlockSize env.wave d4.hcaInfo = B
    rw [i4, withHeaderSize_hcaInfo, s12.2.1, hBdef]
  obtain ⟨v', d', e6, k1, k2, k3, b6⟩ := ReadLoop_copies env L H B (c - (H - d._position))
    hBpos (lt_of_lt_of_le hB32 h3264) hL64 hNB
    (fun k hk runs => hdec k hk runs) (c - (H - d._position))
    { streamPosition := H, bufferSize := c - (H - d._position),
      offset := add64 offset (H - d._position), totalRead := H - d._position,
      mappedPosition := H,
      written := slice (headerBytes env d) d._position (H - d._position) }
    (d4.withBlockSize env.wave) hd5 (le_refl _) (le_refl _)
    (by show H + (c - (H - d._position)) ≤ L; omega)
    (by show H - H + (c - (H - d._position)) ≤ c - (H - d._position); omega)
    (by show H + (c - (H - d._position)) < U64; omega)
    (by show H - d._position + (c - (H - d._position)) < U64; omega)
  have hc0 : c ≠ 0 := by omega
  have hLv1 : lengthValue env.wave d1 = .ok L := by rw [lengthValue_congr s1]; exact hLv
  have hen2 : d2.decoderConfig.waveHeaderEnabled = true := by rw [s12.2.2.1]; exact hen
  have hH2 : sizeNeeded env.wave d2.hcaInfo = H := by rw [s12.2.1]; exact hHdef
  have hB4 : waveBlockSize env.wave d4.hcaInfo = B := hd5
  have hhb : headerBytes env (d2.withHeaderSize env.wave) = headerBytes env d :=
    headerBytes_congr s13
  have hsubH : sub64 H d._position = H - d._position :=
    sub64_of_le (lt_of_lt_of_le hH32 h3264) (by omega)
  have hminH : min (H - d._position) c = H - d._position := Nat.min_eq_left (by omega)
  have haddp : add64 d._position (H - d._position) = H := by
    rw [add64_of_lt (by omega)]; omega
  have hc64 : c < U64 := by omega
  have hsubc : sub64 c (H - d._position) = c - (H - d._position) :=
    sub64_of_le hc64 (by omega)
  have hadd0 : add64 0 (H - d._position) = H - d._position := by
    rw [add64_of_lt (by omega)]; omega
  have hnge : ¬ d._position ≥ L := by omega
  have hnle : ¬ c ≤ H - d._position := by omega
  have hgen : (GenerateWaveHeader env d).1 = headerBytes env d := GenerateWaveHeader_fst hc
  unfold Read
  simp only [Bool.not_true, Bool.false_eq_true, if_false, hcdef, hc0, GetPosition, e1, hmv, e2,
    hLv1, hnge, hen2, if_true, e3, hH2, hpos, hsubH, hminH, e4, hhb, haddp, hnle, e5, hB4,
    hsubc, hadd0, e6, hgen]
  refine ⟨?_, ?_, ?_⟩
  · rw [k2]
    show Except.ok (H - d._position + (c - (H - d._position))) = _
    congr 1
    omega
  · rw [k3]
    show slice (headerBytes env d) d._position (H - d._position) ++
      (List.range (c - (H - d._position))).map (fun i => audioByte d' B (H - H + i)) = _
    congr 1
    apply List.map_congr_left
    intro i _
    rw [Nat.sub_self, Nat.zero_add]
    rfl
  · show v'.streamPosition = _
    rw [k1]
    show H + (c - (H - d._position)) = _
    omega

set_option maxRecDepth 10000 in
/-- C9, witness: the one-channel stream (header 112, looping active), position
110, five bytes asked for: bytes 110 and 111 of the header, then bytes 0, 1, 2
of block 0. -/
theorem Read_header_then_audio_witness :
    (Read (rampEnvironment pcm16Wave) true 5 0 5 (SetPosition 110 (monoDecoder 1))).result =
        .ok 5 ∧
      (Read (rampEnvironment pcm16Wave) true 5 0 5 (SetPosition 110 (monoDecoder 1))).written =
        [110, 111, 1, 2, 3] ∧
      (Read (rampEnvironment pcm16Wave) true 5 0 5
        (SetPosition 110 (monoDecoder 1))).decoder._position = 115 :=
  have h := Read_header_then_audio (rampEnvironment pcm16Wave) (SetPosition 110 (monoDecoder 1))
    5 0 5 10352 (by decide) (by decide) (by decide) rfl (by decide) (by decide) rfl (by decide)
    (fun _ _ => by decide) (fun _ _ _ => ⟨_, rfl⟩)
  ⟨h.1, h.2.1.trans (by rfl), h.2.2⟩


/-! ## `MapLoopedPosition` where nothing wraps -/

theorem loopBoundary_le (w : WaveSettings) (d : CHcaDecoder) (hr : d.hcaInfo.InRange)
    (hex : d.hcaInfo.loopExists = true) (hl : d.hcaInfo.LoopInvariant) :
    loopBoundary w d ≤ headerSize w d +
      (d.hcaInfo.loopStart - 1 + (d.hcaInfo.loopEnd - d.hcaInfo.loopStart + 1)) *
        waveBlockSize w d.hcaInfo := by
  obtain ⟨q1, -, q3⟩ := loop_quantities hr hex hl
  unfold loopBoundary
  rw [q1, q3]
  dsimp only
  unfold add32 mul32
  calc (headerSize w d + (d.hcaInfo.loopStart - 1 + (d.hcaInfo.loopEnd - d.hcaInfo.loopStart + 1))
          % U32 * waveBlockSize w d.hcaInfo % U32) % U32
      ≤ headerSize w d + (d.hcaInfo.loopStart - 1 + (d.hcaInfo.loopEnd - d.hcaInfo.loopStart + 1))
          % U32 * waveBlockSize w d.hcaInfo % U32 := Nat.mod_le _ _
    _ ≤ headerSize w d + (d.hcaInfo.loopStart - 1 + (d.hcaInfo.loopEnd - d.hcaInfo.loopStart + 1))
          % U32 * waveBlockSize w d.hcaInfo := Nat.add_le_add_left (Nat.mod_le _ _) _
    _ ≤ _ := Nat.add_le_add_left (Nat.mul_le_mul_right _ (Nat.mod_le _ _)) _

theorem loopBoundary_eq (w : WaveSettings) (d : CHcaDecoder) (hr : d.hcaInfo.InRange)
    (hex : d.hcaInfo.loopExists = true) (hl : d.hcaInfo.LoopInvariant)
    (hfit : headerSize w d +
      (d.hcaInfo.loopStart - 1 + (d.hcaInfo.loopEnd - d.hcaInfo.loopStart + 1)) *
        waveBlockSize w d.hcaInfo < U32) :
    loopBoundary w d = headerSize w d +
      (d.hcaInfo.loopStart - 1 + (d.hcaInfo.loopEnd - d.hcaInfo.loopStart + 1)) *
        waveBlockSize w d.hcaInfo := by
  obtain ⟨q1, -, q3⟩ := loop_quantities hr hex hl
  have hsum : d.hcaInfo.loopStart - 1 + (d.hcaInfo.loopEnd - d.hcaInfo.loopStart + 1) < U32 := by
    obtain ⟨-, hb, -, -, -⟩ := hr
    obtain ⟨h1, h2⟩ := hl hex
    omega
  unfold loopBoundary
  rw [q1, q3]
  dsimp only
  rw [add32_of_lt hsum, mul32_of_lt (by omega), add32_of_lt hfit]

/-- The unlooped prefix: without active looping `MapLoopedPosition` is the
identity, and with it the identity up to `header + (before + in) * wbs` as long
as that boundary fits in 32 bits. -/
theorem MapLoopedPosition_prefix (w : WaveSettings) (d : CHcaDecoder) (p : Nat)
    (hc : d.CacheOk w) (hr : d.hcaInfo.InRange) (hl : d.hcaInfo.LoopInvariant) :
    (¬(d.hcaInfo.loopExists = true ∧ d.decoderConfig.loopEnabled = true) →
        (MapLoopedPosition w p d).1 = .ok p) ∧
      (headerSize w d +
          (d.hcaInfo.loopStart - 1 + (d.hcaInfo.loopEnd - d.hcaInfo.loopStart + 1)) *
            waveBlockSize w d.hcaInfo < U32 →
        p ≤ headerSize w d +
          (d.hcaInfo.loopStart - 1 + (d.hcaInfo.loopEnd - d.hcaInfo.loopStart + 1)) *
            waveBlockSize w d.hcaInfo →
        (MapLoopedPosition w p d).1 = .ok p) := by
  obtain ⟨d1, e1, -⟩ := MapLoopedPosition_eq hc p
  rw [e1]
  constructor
  · intro hno
    exact mappedValue_of_le_boundary (fun h1 h2 => absurd ⟨h1, h2⟩ hno)
  · intro hfit hp
    exact mappedValue_of_le_boundary
      (fun h1 _ => by rw [loopBoundary_eq w d hr h1 hl hfit]; exact hp)

/-- Past the first loop: with active looping, `loop_count ≥ 1`, a non-zero
block size and fewer than `2 ^ 32` completed repetitions, `MapLoopedPosition(p)`
is `p - min(k, loop_count) * in * wbs - header`. -/
theorem MapLoopedPosition_looped (w : WaveSettings) (d : CHcaDecoder) (p : Nat)
    (hc : d.CacheOk w) (hr : d.hcaInfo.InRange) (hl : d.hcaInfo.LoopInvariant)
    (hex : d.hcaInfo.loopExists = true) (hen : d.decoderConfig.loopEnabled = true)
    (hlc : 1 ≤ d.decoderConfig.loopCount) (hp64 : p < U64)
    (hB : 0 < waveBlockSize w d.hcaInfo)
    (hp : headerSize w d +
      (d.hcaInfo.loopStart - 1 + (d.hcaInfo.loopEnd - d.hcaInfo.loopStart + 1)) *
        waveBlockSize w d.hcaInfo < p)
    (hk : (p - headerSize w d - (d.hcaInfo.loopStart - 1) * waveBlockSize w d.hcaInfo) /
      ((d.hcaInfo.loopEnd - d.hcaInfo.loopStart + 1) * waveBlockSize w d.hcaInfo) < U32) :
    (MapLoopedPosition w p d).1 =
      .ok (p -
        min ((p - headerSize w d - (d.hcaInfo.loopStart - 1) * waveBlockSize w d.hcaInfo) /
            ((d.hcaInfo.loopEnd - d.hcaInfo.loopStart + 1) * waveBlockSize w d.hcaInfo))
          d.decoderConfig.loopCount *
          (d.hcaInfo.loopEnd - d.hcaInfo.loopStart + 1) * waveBlockSize w d.hcaInfo -
        headerSize w d) := by
  obtain ⟨d1, e1, -⟩ := MapLoopedPosition_eq hc p
  obtain ⟨q1, -, q3⟩ := loop_quantities hr hex hl
  have hbd := loopBoundary_le w d hr hex hl
  have hH := headerSize_lt w d
  have hB32 := waveBlockSize_lt w d.hcaInfo
  rw [e1]
  generalize hHdef : headerSize w d = H at *
  generalize hBdef : waveBlockSize w d.hcaInfo = B at *
  generalize hbdef : d.hcaInfo.loopStart - 1 = before at *
  generalize hidef : d.hcaInfo.loopEnd - d.hcaInfo.loopStart + 1 = inL at *
  have hb32 : before < U32 := by
    obtain ⟨-, -, hs, -, -⟩ := hr
    omega
  have hi32 : inL < U32 := by
    obtain ⟨-, hb, -, he, -⟩ := hr
    obtain ⟨h1, h2⟩ := hl hex
    omega
  have hipos : 0 < inL := by omega
  have h3264 : U32 * U32 = U64 := by decide
  have hiB : inL * B < U64 := by
    rw [← h3264]; exact Nat.mul_lt_mul'' hi32 hB32
  have hbB : before * B < U64 := by
    rw [← h3264]; exact Nat.mul_lt_mul'' hb32 hB32
  have hiBpos : 0 < inL * B := Nat.mul_pos hipos hB
  have hexp : (before + inL) * B = before * B + inL * B := Nat.add_mul _ _ _
  have e_a : sub64 p H = p - H := sub64_of_le hp64 (by omega)
  have e_b : mul64 before B = before * B := mul64_of_lt hbB
  have e_c : sub64 (p - H) (before * B) = p - H - before * B :=
    sub64_of_le (by omega) (by omega)
  have e_d : mul64 inL B = inL * B := mul64_of_lt hiB
  generalize hkdef : (p - H - before * B) / (inL * B) = k at *
  have hkle : k * (inL * B) ≤ p - H - before * B := by
    rw [← hkdef]; exact Nat.div_mul_le_self _ _
  have hmin : min k d.decoderConfig.loopCount * (inL * B) ≤ p - H - before * B :=
    le_trans (Nat.mul_le_mul_right _ (Nat.min_le_left _ _)) hkle
  have hminlt : min k d.decoderConfig.loopCount < U32 := lt_of_le_of_lt (Nat.min_le_left _ _) hk
  have e_e : mul64 (min k d.decoderConfig.loopCount) inL = min k d.decoderConfig.loopCount * inL :=
    mul64_of_lt (by rw [← h3264]; exact Nat.mul_lt_mul'' hminlt hi32)
  have hassoc : min k d.decoderConfig.loopCount * inL * B =
      min k d.decoderConfig.loopCount * (inL * B) := Nat.mul_assoc _ _ _
  have e_f : mul64 (min k d.decoderConfig.loopCount * inL) B =
      min k d.decoderConfig.loopCount * inL * B := mul64_of_lt (by omega)
  have e_g : sub64 p (min k d.decoderConfig.loopCount * inL * B) =
      p - min k d.decoderConfig.loopCount * inL * B := sub64_of_le hp64 (by omega)
  have e_h : sub64 (p - min k d.decoderConfig.loopCount * inL * B) H =
      p - min k d.decoderConfig.loopCount * inL * B - H := sub64_of_le (by omega) (by omega)
  unfold mappedValue
  rw [if_neg (by simp [hex, hen]), q1, q3]
  dsimp only
  rw [if_neg (by omega), if_neg (by omega), hBdef, hHdef, e_d, if_neg (by omega), e_a, e_b, e_c,
    hkdef, Nat.mod_eq_of_lt hk, e_e, e_f, e_g, e_h]

/-! ## Sequential reading without active looping -/

/-- The copy loop in general: with every block decoding it takes
`min(bufferSize, length - mappedPosition)` bytes. -/
theorem ReadLoop_totals (env : Environment) (L H B : Nat) (hB64 : B < U64) (hL : L < U64)
    (hidx : L - H ≤ U32 * B)
    (hdec : ∀ k runs, ∃ pcm, env.pipeline runs k = .ok pcm) :
    ∀ (fuel : Nat) (v : ReadLocals) (d : CHcaDecoder),
      d._waveBlockSize = B → (v.mappedPosition < L → 0 < B) → v.bufferSize ≤ fuel →
      H ≤ v.mappedPosition →
      v.streamPosition + min v.bufferSize (L - v.mappedPosition) < U64 →
      v.totalRead + min v.bufferSize (L - v.mappedPosition) < U64 → v.bufferSize < U64 →
      ∃ v' d', ReadLoop env L H B fuel v d = (none, v', d') ∧
        v'.streamPosition = v.streamPosition + min v.bufferSize (L - v.mappedPosition) ∧
        v'.totalRead = v.totalRead + min v.bufferSize (L - v.mappedPosition) ∧
        d.BlocksOnly d' := by
  intro fuel
  induction fuel with
  | zero =>
    intro v d _ _ hf _ _ _ _
    have h0 : v.bufferSize = 0 := by omega
    refine ⟨v, d, rfl, ?_, ?_, BlocksOnly_refl d⟩ <;> simp [h0]
  | succ fuel ih =>
    intro v d hd hBpos hf hH hsp htr hn64
    by_cases hcond : v.bufferSize > 0 ∧ v.mappedPosition < L
    · obtain ⟨hn, hm⟩ := hcond
      have hB := hBpos hm
      have hm64 : v.mappedPosition < U64 := by omega
      have hsubH : sub64 v.mappedPosition H = v.mappedPosition - H := sub64_of_le hm64 hH
      have hklt : (v.mappedPosition - H) / B < U32 := by
        apply Nat.div_lt_of_lt_mul
        calc v.mappedPosition - H < L - H := by omega
          _ ≤ U32 * B := hidx
          _ = B * U32 := Nat.mul_comm _ _
      obtain ⟨blockData, d1, e1, -, b1⟩ :=
        DecodeBlock_ok env ((v.mappedPosition - H) / B) d (by omega) (hdec _)
      have ho : (v.mappedPosition - H) % B < B := Nat.mod_lt _ hB
      have hsubL : sub64 L v.mappedPosition = L - v.mappedPosition :=
        sub64_of_le hL (by omega)
      have hsubB : sub64 B ((v.mappedPosition - H) % B) = B - (v.mappedPosition - H) % B :=
        sub64_of_le hB64 (by omega)
      have hcl1 : 1 ≤ min (L - v.mappedPosition)
          (min (B - (v.mappedPosition - H) % B) v.bufferSize) := by
        rw [Nat.le_min, Nat.le_min]; omega
      have hcln : min (L - v.mappedPosition)
          (min (B - (v.mappedPosition - H) % B) v.bufferSize) ≤ v.bufferSize :=
        le_trans (Nat.min_le_right _ _) (Nat.min_le_right _ _)
      have hclL : min (L - v.mappedPosition)
          (min (B - (v.mappedPosition - H) % B) v.bufferSize) ≤ L - v.mappedPosition :=
        Nat.min_le_left _ _
      generalize hcldef : min (L - v.mappedPosition)
          (min (B - (v.mappedPosition - H) % B) v.bufferSize) = cl at *
      have e_sp : add64 v.streamPosition cl = v.streamPosition + cl :=
        add64_of_lt (by omega)
      have e_tr : add64 v.totalRead cl = v.totalRead + cl := add64_of_lt (by omega)
      have e_mp : add64 v.mappedPosition cl = v.mappedPosition + cl :=
        add64_of_lt (by omega)
      obtain ⟨v', d', e2, p1, p2, b2⟩ := ih
        { streamPosition := v.streamPosition + cl
          bufferSize := v.bufferSize - cl
          offset := add64 v.offset cl
          totalRead := v.totalRead + cl
          mappedPosition := v.mappedPosition + cl
          written := v.written ++ slice blockData ((v.mappedPosition - H) % B) cl } d1
        (b1.2.2.2.1.trans hd) (fun _ => hB) (by show v.bufferSize - cl ≤ fuel; omega)
        (by show H ≤ v.mappedPosition + cl; omega)
        (by show v.streamPosition + cl +
              min (v.bufferSize - cl) (L - (v.mappedPosition + cl)) < U64; omega)
        (by show v.totalRead + cl +
              min (v.bufferSize - cl) (L - (v.mappedPosition + cl)) < U64; omega)
        (by show v.bufferSize - cl < U64; omega)
      refine ⟨v', d', ?_, ?_, ?_, BlocksOnly_trans b1 b2⟩
      · rw [ReadLoop, if_pos ⟨hn, hm⟩, if_neg (by clear p1 p2; omega)]
        simp only [hsubH, Nat.mod_eq_of_lt hklt, e1, hsubL, hsubB, hcldef, e_sp, e_tr,
          e_mp, sub64_of_le hn64 hcln]
        exact e2
      · rw [p1]
        show v.streamPosition + cl + min (v.bufferSize - cl) (L - (v.mappedPosition + cl)) = _
        clear p1 p2
        omega
      · rw [p2]
        show v.totalRead + cl + min (v.bufferSize - cl) (L - (v.mappedPosition + cl)) = _
        clear p1 p2
        omega
    · refine ⟨v, d, ?_, ?_, ?_, BlocksOnly_refl d⟩
      · rw [ReadLoop, if_neg hcond]
      · have : min v.bufferSize (L - v.mappedPosition) = 0 := by omega
        rw [this]; rfl
      · have : min v.bufferSize (L - v.mappedPosition) = 0 := by omega
        rw [this]; rfl

theorem cacheOk_of_blocksOnly {w : WaveSettings} {d d' : CHcaDecoder} (h : d.CacheOk w)
    (b : d.BlocksOnly d') : d'.CacheOk w := by
  unfold CHcaDecoder.CacheOk
  rw [b.1, b.2.2.1, b.2.2.2.1]
  exact h

theorem lengthValue_no_loop {w : WaveSettings} {d : CHcaDecoder} {L : Nat}
    (hno : ¬(d.hcaInfo.loopExists = true ∧ d.decoderConfig.loopEnabled = true))
    (hr : d.hcaInfo.InRange) (hLv : lengthValue w d = .ok L) (hHL : headerSize w d ≤ L) :
    (headerSize w d < L → 0 < waveBlockSize w d.hcaInfo) ∧
      L - headerSize w d ≤ U32 * waveBlockSize w d.hcaInfo := by
  have hact : ¬(d.hcaInfo.loopExists && d.decoderConfig.loopEnabled) = true := by
    rw [Bool.and_eq_true]; exact hno
  have hH32 := sizeNeeded_lt w d.hcaInfo
  have hB32 := waveBlockSize_lt w d.hcaInfo
  unfold lengthValue at hLv
  rw [if_neg hact] at hLv
  unfold headerSize at *
  by_cases hen : d.decoderConfig.waveHeaderEnabled = true
  · rw [if_pos hen] at hLv hHL ⊢
    injection hLv with hLv
    have hL32 : L < U32 := by rw [← hLv]; exact Nat.mod_lt _ (by decide)
    rcases Nat.eq_zero_or_pos (waveBlockSize w d.hcaInfo) with h0 | h0
    · have : L = sizeNeeded w d.hcaInfo := by
        rw [← hLv, h0]
        unfold mul32 add32
        rw [Nat.zero_mul, Nat.zero_mod, Nat.add_zero, Nat.mod_eq_of_lt hH32]
      constructor
      · intro h; omega
      · omega
    · have : U32 * 1 ≤ U32 * waveBlockSize w d.hcaInfo := Nat.mul_le_mul_left _ h0
      exact ⟨fun _ => h0, by omega⟩
  · rw [if_neg hen] at hLv hHL ⊢
    injection hLv with hLv
    have hle : L ≤ waveBlockSize w d.hcaInfo * d.hcaInfo.blockCount := by
      rw [← hLv]; exact Nat.mod_le _ _
    have hbc : d.hcaInfo.blockCount ≤ U32 := le_of_lt hr.2.1
    have hmul : waveBlockSize w d.hcaInfo * d.hcaInfo.blockCount ≤
        U32 * waveBlockSize w d.hcaInfo := by
      rw [Nat.mul_comm U32]; exact Nat.mul_le_mul_left _ hbc
    constructor
    · intro h
      rcases Nat.eq_zero_or_pos (waveBlockSize w d.hcaInfo) with h0 | h0
      · rw [h0, Nat.zero_mul] at hle; omega
      · exact h0
    · omega

/-- Without active looping, with every block decoding and the length not below
the header size, a `Read` of `count` bytes at a position `p` before the end
returns `min(count, GetLength() - p)`, moves the position by as much, and
leaves the descriptor, the configuration and the caches in order. -/
theorem Read_no_loop (env : Environment) (d : CHcaDecoder) (count L : Nat)
    (hc : d.CacheOk env.wave) (hr : d.hcaInfo.InRange)
    (hno : ¬(d.hcaInfo.loopExists = true ∧ d.decoderConfig.loopEnabled = true))
    (hcount : 0 < count) (hcount64 : count < U64)
    (hdec : ∀ k runs, ∃ pcm, env.pipeline runs k = .ok pcm)
    (hLv : lengthValue env.wave d = .ok L) (hHL : headerSize env.wave d ≤ L)
    (hp : d._position < L) :
    ∃ written d', Read env true count 0 count d =
        ⟨.ok (min count (L - d._position)), written, d'⟩ ∧
      d'._position = d._position + min count (L - d._position) ∧
      d'.CacheOk env.wave ∧ d'.hcaInfo = d.hcaInfo ∧ d'.decoderConfig = d.decoderConfig := by
  have hL64 : L < U64 := lengthValue_lt hLv
  have h3264 : U32 ≤ U64 := by decide
  obtain ⟨hBpos, hidx⟩ := lengthValue_no_loop hno hr hLv hHL
  have hH32 := headerSize_lt env.wave d
  have hB32 := waveBlockSize_lt env.wave d.hcaInfo
  generalize hBdef : waveBlockSize env.wave d.hcaInfo = B at *
  obtain ⟨d1, e1, s1⟩ := MapLoopedPosition_eq hc d._position
  obtain ⟨d2, e2, s2⟩ := GetLength_eq s1.1
  have s12 := SizesOnly_trans s1 s2
  have hmv : mappedValue env.wave d d._position = .ok d._position :=
    mappedValue_of_le_boundary (fun h1 h2 => absurd ⟨h1, h2⟩ hno)
  have hLv1 : lengthValue env.wave d1 = .ok L := by rw [lengthValue_congr s1]; exact hLv
  have hnge : ¬ d._position ≥ L := by omega
  have hsub0 : sub64 count 0 = count := by
    unfold sub64
    rw [Nat.zero_mod, Nat.sub_zero, Nat.add_mod_right, Nat.mod_eq_of_lt hcount64]
  have hc0 : count ≠ 0 := by omega
  have hmin : min count count = count := Nat.min_self _
  by_cases hen : d.decoderConfig.waveHeaderEnabled = true
  · -- header enabled
    have hHeq : headerSize env.wave d = sizeNeeded env.wave d.hcaInfo := by
      unfold headerSize; rw [if_pos hen]
    rw [hHeq] at hHL hBpos hidx hH32
    generalize hHdef : sizeNeeded env.wave d.hcaInfo = H at *
    have hen2 : d2.decoderConfig.waveHeaderEnabled = true := by rw [s12.2.2.1]; exact hen
    have hH2 : sizeNeeded env.wave d2.hcaInfo = H := by rw [s12.2.1]; exact hHdef
    have e3 := GetWaveHeaderSize_eq s2.1
    have s3 := SizesOnly_withHeaderSize s2.1
    have s13 := SizesOnly_trans s12 s3
    by_cases hpH : d._position < H
    · obtain ⟨d4, e4, c4, i4, g4, p4, b4, r4⟩ := GenerateWaveHeader_eq s3.1
      have hsubH : sub64 H d._position = H - d._position :=
        sub64_of_le (lt_of_lt_of_le hH32 h3264) (by omega)
      by_cases hsmall : count ≤ H - d._position
      · have hminH : min (H - d._position) count = count := Nat.min_eq_right hsmall
        have haddp : add64 d._position count = d._position + count :=
          add64_of_lt (by omega)
        have hR : Read env true count 0 count d =
            ⟨.ok count, slice (headerBytes env (d2.withHeaderSize env.wave)) d._position count,
              SetPosition (d._position + count) d4⟩ := by
          unfold Read
          simp only [Bool.not_true, Bool.false_eq_true, if_false, hsub0, hmin, hc0, GetPosition,
            e1, hmv, e2, hLv1, hnge, hen2, if_true, e3, hH2, hpH, hsubH, hminH, e4, haddp,
            le_refl]
        have hres : count = min count (L - d._position) := by omega
        rw [← hres]
        refine ⟨_, _, hR, ?_, c4, ?_, ?_⟩
        · show d._position + count = _; omega
        · show d4.hcaInfo = _; rw [i4]; exact s12.2.1
        · show d4.decoderConfig = _; rw [g4]; exact s12.2.2.1
      · have hminH : min (H - d._position) count = H - d._position :=
          Nat.min_eq_left (by omega)
        have haddp : add64 d._position (H - d._position) = H := by
          rw [add64_of_lt (by omega)]; omega
        have hsubc : sub64 count (H - d._position) = count - (H - d._position) :=
          sub64_of_le hcount64 (by omega)
        have hadd0 : add64 0 (H - d._position) = H - d._position := by
          rw [add64_of_lt (by omega)]; omega
        have e5 := GetWaveBlockSize_eq c4
        have hB4 : waveBlockSize env.wave d4.hcaInfo = B := by
          rw [i4, withHeaderSize_hcaInfo, s12.2.1, hBdef]
        have c5 := withBlockSize_cacheOk c4
        obtain ⟨v', d', e6, k1, k2, b6⟩ := ReadLoop_totals env L H B
          (lt_of_lt_of_le hB32 h3264) hL64 hidx hdec (count - (H - d._position))
          { streamPosition := H, bufferSize := count - (H - d._position),
            offset := H - d._position, totalRead := H - d._position,
            mappedPosition := H, written := slice (headerBytes env
              (d2.withHeaderSize env.wave)) d._position (H - d._position) }
          (d4.withBlockSize env.wave) hB4 hBpos (le_refl _) (le_refl _)
          (by show H + min (count - (H - d._position)) (L - H) < U64; omega)
          (by show H - d._position + min (count - (H - d._position)) (L - H) < U64; omega)
          (by show count - (H - d._position) < U64; omega)
        have hR : Read env true count 0 count d =
            ⟨.ok v'.totalRead, v'.written, SetPosition v'.streamPosition d'⟩ := by
          unfold Read
          simp only [Bool.not_true, Bool.false_eq_true, if_false, hsub0, hmin, hc0, GetPosition,
            e1, hmv, e2, hLv1, hnge, hen2, if_true, e3, hH2, hpH, hsubH, hminH, e4, haddp,
            hsmall, e5, hB4, hsubc, hadd0, e6]
        have hres : v'.totalRead = min count (L - d._position) := by
          rw [k2]
          show H - d._position + min (count - (H - d._position)) (L - H) = _
          clear hR e6 k1 k2
          omega
        rw [← hres]
        refine ⟨_, _, hR, ?_, (cacheOk_of_blocksOnly c5 b6 : d'.CacheOk env.wave), ?_, ?_⟩
        · show v'.streamPosition = _
          rw [k1]
          show H + min (count - (H - d._position)) (L - H) = _
          clear hR e6 k1 k2
          omega
        · show d'.hcaInfo = _
          rw [b6.1, withBlockSize_hcaInfo, i4]; exact s12.2.1
        · show d'.decoderConfig = _
          rw [b6.2.1, withBlockSize_decoderConfig, g4]; exact s12.2.2.1
    · have c3 := s3.1
      have e5 := GetWaveBlockSize_eq c3
      have hB3 : waveBlockSize env.wave (d2.withHeaderSize env.wave).hcaInfo = B := by
        rw [withHeaderSize_hcaInfo, s12.2.1, hBdef]
      have c5 := withBlockSize_cacheOk c3
      obtain ⟨v', d', e6, k1, k2, b6⟩ := ReadLoop_totals env L H B
        (lt_of_lt_of_le hB32 h3264) hL64 hidx hdec count
        { streamPosition := d._position, bufferSize := count, offset := 0, totalRead := 0,
          mappedPosition := d._position, written := [] }
        ((d2.withHeaderSize env.wave).withBlockSize env.wave) hB3
        (fun _ => hBpos (by omega)) (le_refl _) (by show H ≤ d._position; omega)
        (by show d._position + min count (L - d._position) < U64; omega)
        (by show 0 + min count (L - d._position) < U64; omega) hcount64
      have hR : Read env true count 0 count d =
          ⟨.ok v'.totalRead, v'.written, SetPosition v'.streamPosition d'⟩ := by
        unfold Read
        simp only [Bool.not_true, Bool.false_eq_true, if_false, hsub0, hmin, hc0, GetPosition,
          e1, hmv, e2, hLv1, hnge, hen2, if_true, e3, hH2, hpH, e5, hB3, e6]
      have hres : v'.totalRead = min count (L - d._position) := by
        rw [k2]
        show 0 + min count (L - d._position) = _
        rw [Nat.zero_add]
      rw [← hres]
      refine ⟨_, _, hR, ?_, (cacheOk_of_blocksOnly c5 b6 : d'.CacheOk env.wave), ?_, ?_⟩
      · show v'.streamPosition = _
        rw [k1, hres]
      · show d'.hcaInfo = _
        rw [b6.1, withBlockSize_hcaInfo, withHeaderSize_hcaInfo]; exact s12.2.1
      · show d'.decoderConfig = _
        rw [b6.2.1, withBlockSize_decoderConfig, withHeaderSize_decoderConfig]
        exact s12.2.2.1
  · -- header disabled
    have hHeq : headerSize env.wave d = 0 := by
      unfold headerSize; rw [if_neg hen]
    rw [hHeq] at hBpos hidx
    have hen2 : d2.decoderConfig.waveHeaderEnabled = false := by
      rw [s12.2.2.1]; simpa using hen
    have e5 := GetWaveBlockSize_eq s2.1
    have hB2 : waveBlockSize env.wave d2.hcaInfo = B := by rw [s12.2.1, hBdef]
    have c5 := withBlockSize_cacheOk s2.1
    obtain ⟨v', d', e6, k1, k2, b6⟩ := ReadLoop_totals env L 0 B
      (lt_of_lt_of_le hB32 h3264) hL64 hidx hdec count
      { streamPosition := d._position, bufferSize := count, offset := 0, totalRead := 0,
        mappedPosition := d._position, written := [] }
      (d2.withBlockSize env.wave) hB2
      (fun _ => hBpos (by omega)) (le_refl _) (Nat.zero_le _)
      (by show d._position + min count (L - d._position) < U64; omega)
      (by show 0 + min count (L - d._position) < U64; omega) hcount64
    have hR : Read env true count 0 count d =
        ⟨.ok v'.totalRead, v'.written, SetPosition v'.streamPosition d'⟩ := by
      unfold Read
      simp only [Bool.not_true, Bool.false_eq_true, if_false, hsub0, hmin, hc0, GetPosition,
        e1, hmv, e2, hLv1, hnge, hen2, Nat.not_lt_zero, e5, hB2, e6]
    have hres : v'.totalRead = min count (L - d._position) := by
      rw [k2]
      show 0 + min count (L - d._position) = _
      rw [Nat.zero_add]
    rw [← hres]
    refine ⟨_, _, hR, ?_, (cacheOk_of_blocksOnly c5 b6 : d'.CacheOk env.wave), ?_, ?_⟩
    · show v'.streamPosition = _
      rw [k1, hres]
    · show d'.hcaInfo = _
      rw [b6.1, withBlockSize_hcaInfo]; exact s12.2.1
    · show d'.decoderConfig = _
      rw [b6.2.1, withBlockSize_decoderConfig]; exact s12.2.2.1


theorem Read_at_end (env : Environment) (d : CHcaDecoder) (count L : Nat)
    (hc : d.CacheOk env.wave)
    (hno : ¬(d.hcaInfo.loopExists = true ∧ d.decoderConfig.loopEnabled = true))
    (hLv : lengthValue env.wave d = .ok L) (hp : L ≤ d._position) :
    (Read env true count 0 count d).result = .ok 0 := by
  obtain ⟨d1, e1, s1⟩ := MapLoopedPosition_eq hc d._position
  obtain ⟨d2, e2, s2⟩ := GetLength_eq s1.1
  have hmv : mappedValue env.wave d d._position = .ok d._position :=
    mappedValue_of_le_boundary (fun h1 h2 => absurd ⟨h1, h2⟩ hno)
  have hLv1 : lengthValue env.wave d1 = .ok L := by rw [lengthValue_congr s1]; exact hLv
  have hge : d._position ≥ L := hp
  unfold Read
  by_cases h0 : min count (sub64 count 0) = 0
  · simp only [Bool.not_true, Bool.false_eq_true, if_false, h0, if_true]
  · simp only [Bool.not_true, Bool.false_eq_true, if_false, h0, GetPosition, e1, hmv, e2,
      hLv1, hge, if_true]

/-- Without active looping, with every block decoding and the length not below
the header size, reading from a position `p ≤ GetLength()` in calls of `count`
bytes until `Read` returns 0 yields `GetLength() - p` bytes; from position 0
that is `GetLength()`. -/
theorem ReadToEnd_no_loop (env : Environment) (count L : Nat)
    (hcount : 0 < count) (hcount64 : count < U64)
    (hdec : ∀ k runs, ∃ pcm, env.pipeline runs k = .ok pcm) :
    ∀ (calls : Nat) (d : CHcaDecoder), d.CacheOk env.wave → d.hcaInfo.InRange →
      ¬(d.hcaInfo.loopExists = true ∧ d.decoderConfig.loopEnabled = true) →
      lengthValue env.wave d = .ok L → headerSize env.wave d ≤ L → d._position ≤ L →
      L - d._position < calls → ReadToEnd env count calls d = some (L - d._position) := by
  intro calls
  induction calls with
  | zero => intro d _ _ _ _ _ _ h; omega
  | succ calls ih =>
    intro d hc hr hno hLv hHL hp hcalls
    rw [ReadToEnd]
    by_cases hend : L ≤ d._position
    · rw [Read_at_end env d count L hc hno hLv hend]
      have : L - d._position = 0 := by omega
      rw [this]
    · have hlt : d._position < L := by omega
      obtain ⟨written, d', hR, r2, r3, r4, r5⟩ :=
        Read_no_loop env d count L hc hr hno hcount hcount64 hdec hLv hHL hlt
      have hpos : 1 ≤ min count (L - d._position) := by
        rw [Nat.le_min]; omega
      obtain ⟨n, hn⟩ : ∃ n, min count (L - d._position) = n + 1 :=
        ⟨min count (L - d._position) - 1, by omega⟩
      have hle : min count (L - d._position) ≤ L - d._position := Nat.min_le_right _ _
      rw [hR, hn]
      dsimp only
      have hLv' : lengthValue env.wave d' = .ok L := by
        unfold lengthValue
        rw [r4, r5]
        exact hLv
      have hHL' : headerSize env.wave d' ≤ L := by
        unfold headerSize
        rw [r4, r5]
        exact hHL
      rw [ih d' r3 (r4 ▸ hr) (by rw [r4, r5]; exact hno)
        hLv' hHL' (by rw [r2]; omega) (by rw [r2]; omega), r2]
      show some (n + 1 + (L - (d._position + min count (L - d._position)))) = _
      apply congrArg some
      omega

/-! ## Claims about the AFS2 parser -/

theorem IsAfs2Archive_iff (stream : Nat → Nat) (offset : Nat) :
    IsAfs2Archive stream offset = true ↔ PeekBytes stream offset 4 = Afs2Signature := by
  simp [IsAfs2Archive, PeekBytes, Afs2Signature, List.range_succ, List.range_zero, and_assoc]

theorem Initialize_past_checks (RoundUpToAlignment : Nat → Nat → Nat) (stream : Nat → Nat)
    (offset : Nat) (hsig : IsAfs2Archive stream offset = true)
    (hcount : ¬ PeekInt32LE stream (add64 offset 8) > 65535) :
    Initialize RoundUpToAlignment stream offset = .error .Undefined ∨
      ∃ a, Initialize RoundUpToAlignment stream offset = .ok a := by
  unfold Initialize
  simp only [hsig, Bool.not_true, Bool.false_eq_true, if_false, hcount]
  split
  · exact Or.inl rfl
  · split
    · exact Or.inl rfl
    · exact Or.inr ⟨_, rfl⟩

/-- C10: with every stream read succeeding, constructing an AFS2 archive at
`offset` throws `CFormatException` exactly when the four bytes at `offset`
differ from `'A','F','S','2'` or the signed 32-bit little-endian `file_count`
at `offset + 8` is greater than 65535. The signature is checked first: a wrong
signature gives the signature message whatever `file_count` is, and the
file-count message needs a right signature. -/
theorem Initialize_fails_with_FormatError_iff (RoundUpToAlignment : Nat → Nat → Nat)
    (stream : Nat → Nat) (offset : Nat) :
    ((∃ message, Initialize RoundUpToAlignment stream offset =
        .error (.CFormatException message)) ↔
      (PeekBytes stream offset 4 ≠ [0x41, 0x46, 0x53, 0x32] ∨
        PeekInt32LE stream (add64 offset 8) > 65535)) ∧
    (PeekBytes stream offset 4 ≠ [0x41, 0x46, 0x53, 0x32] →
      Initialize RoundUpToAlignment stream offset =
        .error (.CFormatException "The file is not a valid AFS2 archive.")) ∧
    (PeekBytes stream offset 4 = [0x41, 0x46, 0x53, 0x32] →
      PeekInt32LE stream (add64 offset 8) > 65535 →
      Initialize RoundUpToAlignment stream offset =
        .error (.CFormatException "File count exceeds max file entries.")) := by
  have hbad : PeekBytes stream offset 4 ≠ [0x41, 0x46, 0x53, 0x32] →
      Initialize RoundUpToAlignment stream offset =
        .error (.CFormatException "The file is not a valid AFS2 archive.") := by
    intro h
    have h' : IsAfs2Archive stream offset = false := by
      rw [← Bool.not_eq_true, IsAfs2Archive_iff]
      exact h
    unfold Initialize
    simp only [h', Bool.not_false, if_true]
  have hmany : PeekBytes stream offset 4 = [0x41, 0x46, 0x53, 0x32] →
      PeekInt32LE stream (add64 offset 8) > 65535 →
      Initialize RoundUpToAlignment stream offset =
        .error (.CFormatException "File count exceeds max file entries.") := by
    intro h hc
    have h' : IsAfs2Archive stream offset = true := (IsAfs2Archive_iff _ _).2 h
    unfold Initialize
    simp only [h', Bool.not_true, Bool.false_eq_true, if_false, hc, if_true]
  refine ⟨⟨?_, ?_⟩, hbad, hmany⟩
  · rintro ⟨message, hm⟩
    by_contra hcon
    rw [not_or, not_not] at hcon
    rcases Initialize_past_checks RoundUpToAlignment stream offset
      ((IsAfs2Archive_iff _ _).2 hcon.1) hcon.2 with h | ⟨a, h⟩
    · rw [h] at hm; cases hm
    · rw [h] at hm; cases hm
  · rintro (h | h)
    · exact ⟨_, hbad h⟩
    · by_cases hs : PeekBytes stream offset 4 = [0x41, 0x46, 0x53, 0x32]
      · exact ⟨_, hmany hs h⟩
      · exact ⟨_, hbad hs⟩

/-- C10, witness: at offset 4 of `oversizedArchive` the signature is right and
`file_count` is 65536; at offset 0 the signature is wrong. -/
theorem Initialize_fails_with_FormatError_iff_witness :
    Initialize roundUpByDivision oversizedArchive 4 =
        .error (.CFormatException "File count exceeds max file entries.") ∧
      Initialize roundUpByDivision oversizedArchive 0 =
        .error (.CFormatException "The file is not a valid AFS2 archive.") :=
  ⟨(Initialize_fails_with_FormatError_iff roundUpByDivision oversizedArchive 4).2.2
      (by decide) (by decide),
    (Initialize_fails_with_FormatError_iff roundUpByDivision oversizedArchive 0).2.1
      (by decide)⟩

/-! ## The header size and the block cache -/

theorem paddedNoteSize_least (n : Nat) :
    4 ∣ paddedNoteSize n ∧ 4 + n + 1 ≤ paddedNoteSize n ∧
      ∀ m, 4 ∣ m → 4 + n + 1 ≤ m → paddedNoteSize n ≤ m := by
  unfold paddedNoteSize
  refine ⟨Nat.dvd_mul_left _ _, by omega, ?_⟩
  rintro m ⟨k, rfl⟩ h
  omega

theorem sizeNeeded_value (w : WaveSettings) (i : HCA_INFO)
    (hRiff : w.sizeofWaveRiffSection = 36) (hSmpl : w.sizeofWaveSampleSection = 68)
    (hData : w.sizeofWaveDataSection = 8) (hfit : i.commentLength + 128 < U32) :
    sizeNeeded w i =
      36 + (if i.loopExists = true ∧ w.SoftLoop = false then 68 else 0) +
        (if i.commentLength > 0 then 8 + paddedNoteSize i.commentLength else 0) + 8 := by
  rw [U32_eq] at hfit
  have hmod : (4 + i.commentLength + 1) % U32 = 4 + i.commentLength + 1 :=
    Nat.mod_eq_of_lt (by rw [U32_eq]; omega)
  have hnote : (if (4 + i.commentLength + 1) % U32 % 4 ≠ 0 then
      add32 ((4 + i.commentLength + 1) % U32) (4 - (4 + i.commentLength + 1) % U32 % 4)
      else (4 + i.commentLength + 1) % U32) = paddedNoteSize i.commentLength := by
    rw [hmod]
    unfold paddedNoteSize
    split
    · rw [add32_of_lt (by rw [U32_eq]; omega)]
      omega
    · omega
  have hP : paddedNoteSize i.commentLength ≤ i.commentLength + 8 := by
    unfold paddedNoteSize; omega
  unfold sizeNeeded
  simp only [hRiff, hSmpl, hData, hnote]
  unfold add32
  rw [U32_eq]
  by_cases hl : i.loopExists = true ∧ w.SoftLoop = false
  · have hl' : (i.loopExists && !w.SoftLoop) = true := by simp [hl.1, hl.2]
    rw [if_pos hl', if_pos hl]
    by_cases hcl : i.commentLength > 0
    · rw [if_pos hcl, if_pos hcl]
      omega
    · rw [if_neg hcl, if_neg hcl]
  · have hl' : ¬(i.loopExists && !w.SoftLoop) = true := by
      intro h; apply hl; simpa using h
    rw [if_neg hl', if_neg hl]
    by_cases hcl : i.commentLength > 0
    · rw [if_pos hcl, if_pos hcl]
      omega
    · rw [if_neg hcl, if_neg hcl]

theorem GetWaveHeaderSize_again (w : WaveSettings) (d : CHcaDecoder) :
    (GetWaveHeaderSize w (GetWaveHeaderSize w d).2).1 = (GetWaveHeaderSize w d).1 := by
  unfold GetWaveHeaderSize
  by_cases h0 : d._waveHeaderSize = 0
  · simp only [h0, ne_eq, not_true_eq_false, if_false]
    split <;> rfl
  · simp only [ne_eq, h0, not_false_eq_true, if_true]

/-- C17: with the section records of 36, 68 and 8 bytes, `GetWaveHeaderSize()`
is `36 + (68 if loop_exists and not soft_loop) + (8 + P if comment_length > 0)
+ 8`, where `P` is the least multiple of 4 that is not below
`4 + comment_length + 1`; without the `smpl` section and without a comment it
is 44; and a second call returns what the first returned. -/
theorem GetWaveHeaderSize_value (w : WaveSettings) (d : CHcaDecoder) (hc : d.CacheOk w)
    (hRiff : w.sizeofWaveRiffSection = 36) (hSmpl : w.sizeofWaveSampleSection = 68)
    (hData : w.sizeofWaveDataSection = 8) (hfit : d.hcaInfo.commentLength + 128 < U32) :
    (GetWaveHeaderSize w d).1 =
        36 + (if d.hcaInfo.loopExists = true ∧ w.SoftLoop = false then 68 else 0) +
          (if d.hcaInfo.commentLength > 0 then 8 + paddedNoteSize d.hcaInfo.commentLength
            else 0) + 8 ∧
      (4 ∣ paddedNoteSize d.hcaInfo.commentLength ∧
        4 + d.hcaInfo.commentLength + 1 ≤ paddedNoteSize d.hcaInfo.commentLength ∧
        ∀ m, 4 ∣ m → 4 + d.hcaInfo.commentLength + 1 ≤ m →
          paddedNoteSize d.hcaInfo.commentLength ≤ m) ∧
      (¬(d.hcaInfo.loopExists = true ∧ w.SoftLoop = false) → d.hcaInfo.commentLength = 0 →
        (GetWaveHeaderSize w d).1 = 44) ∧
      (GetWaveHeaderSize w (GetWaveHeaderSize w d).2).1 = (GetWaveHeaderSize w d).1 := by
  have hv := sizeNeeded_value w d.hcaInfo hRiff hSmpl hData hfit
  rw [GetWaveHeaderSize_eq hc]
  refine ⟨hv, paddedNoteSize_least _, fun hl hcl => ?_, ?_⟩
  · show sizeNeeded w d.hcaInfo = 44
    rw [hv, if_neg hl, if_neg (by omega)]
  · have h := GetWaveHeaderSize_again w d
    rw [GetWaveHeaderSize_eq hc] at h
    exact h

/-- C17, witness: no loop and no comment gives 44; a loop gives 112; a ten-byte
comment gives `36 + (8 + 16) + 8 = 68`. -/
theorem GetWaveHeaderSize_value_witness :
    (GetWaveHeaderSize pcm16Wave (CHcaDecoder.create plainInfo plainConfig)).1 = 44 ∧
      (GetWaveHeaderSize pcm16Wave (monoDecoder 1)).1 = 36 + 68 + 0 + 8 ∧
      (GetWaveHeaderSize pcm16Wave (CHcaDecoder.create commentedInfo plainConfig)).1 =
        36 + 0 + (8 + 16) + 8 :=
  ⟨(GetWaveHeaderSize_value pcm16Wave (CHcaDecoder.create plainInfo plainConfig) (by decide)
      rfl rfl rfl (by decide)).2.2.1 (by decide) rfl,
    (GetWaveHeaderSize_value pcm16Wave (monoDecoder 1) (by decide) rfl rfl rfl (by decide)).1,
    (GetWaveHeaderSize_value pcm16Wave (CHcaDecoder.create commentedInfo plainConfig)
      (by decide) rfl rfl rfl (by decide)).1⟩

/-- C18: when `DecodeBlock(i)` returns a buffer, the next `DecodeBlock(i)`
returns the same buffer and leaves the whole object as it is: nothing goes to
the underlying stream, and the block cache and the channel scratch stay as they
were. When `DecodeBlock(i)` throws, the block cache is what it was before. -/
theorem DecodeBlock_twice (env : Environment) (i : Nat) (d : CHcaDecoder) :
    (∀ blockData d1, DecodeBlock env i d = (.ok blockData, d1) →
        DecodeBlock env i d1 = (.ok blockData, d1)) ∧
      (∀ e d1, DecodeBlock env i d = (.error e, d1) →
        d1._decodedBlocks = d._decodedBlocks) := by
  constructor
  · intro blockData d1 h
    have hlk : d1._decodedBlocks.lookup i = some blockData := by
      unfold DecodeBlock at h
      cases hc : d._decodedBlocks.lookup i with
      | some b =>
        rw [hc] at h
        injection h with h1 h2
        injection h1 with h1
        rw [← h2, ← h1]
        exact hc
      | none =>
        rw [hc] at h
        dsimp only at h
        cases hp : env.pipeline (GetWaveBlockSize env.wave d).2.pipelineRuns i with
        | error e => rw [hp] at h; injection h with h1 _; cases h1
        | ok pcm =>
          rw [hp] at h
          injection h with h1 h2
          injection h1 with h1
          rw [← h2, ← h1]
          simp [List.lookup]
    unfold DecodeBlock
    rw [hlk]
  · intro e d1 h
    unfold DecodeBlock at h
    cases hc : d._decodedBlocks.lookup i with
    | some b => rw [hc] at h; injection h with h1 _; cases h1
    | none =>
      rw [hc] at h
      dsimp only at h
      cases hp : env.pipeline (GetWaveBlockSize env.wave d).2.pipelineRuns i with
      | error e' =>
        rw [hp] at h
        injection h with _ h2
        rw [← h2]
        show (GetWaveBlockSize env.wave d).2._decodedBlocks = _
        unfold GetWaveBlockSize
        split <;> rfl
      | ok pcm => rw [hp] at h; injection h with h1 _; cases h1

/-- C18, witness: block 3 of the one-channel stream decoded twice, and a block
that fails its checksum. -/
theorem DecodeBlock_twice_witness :
    DecodeBlock (rampEnvironment pcm16Wave) 3
        (DecodeBlock (rampEnvironment pcm16Wave) 3 (monoDecoder 1)).2 =
      DecodeBlock (rampEnvironment pcm16Wave) 3 (monoDecoder 1) ∧
    (DecodeBlock (corruptEnvironment pcm16Wave) 3 (monoDecoder 1)).2._decodedBlocks = [] :=
  ⟨(DecodeBlock_twice (rampEnvironment pcm16Wave) 3 (monoDecoder 1)).1 _ _ rfl,
    (DecodeBlock_twice (corruptEnvironment pcm16Wave) 3 (monoDecoder 1)).2 _ _ rfl⟩


/-! ## Channel types and counts -/

set_option maxRecDepth 100000 in
theorem InitializeTypes_small :
    ∀ cc ∈ List.range 17, ∀ R03 ∈ List.range 9, ∀ R04 ∈ List.range 4,
      (1 ≤ R03 ∧ 2 ≤ cc / R03 ∧ cc / R03 ≤ 5) →
        (InitializeTypes R03 R04 (cc / R03) (List.replicate 0x10 0)).map Prod.fst =
          .ok ((List.range 0x10).map (tableChannelType R03 R04 1 (cc / R03))) := by
  decide

theorem InitializeGroup_min (compR04 b : Nat) (r : List Nat) (c : Nat) :
    InitializeGroup compR04 b r c = InitializeGroup (min compR04 3) b r c := by
  have h0 : (min compR04 3 = 0) = (compR04 = 0) := by
    apply propext; omega
  have h2 : (min compR04 3 ≤ 2) = (compR04 ≤ 2) := by
    apply propext; omega
  unfold InitializeGroup
  simp only [h0, h2]

theorem InitializeTypes_min (compR03 compR04 b : Nat) (r : List Nat) :
    InitializeTypes compR03 compR04 b r = InitializeTypes compR03 (min compR04 3) b r := by
  unfold InitializeTypes
  simp only [← InitializeGroup_min]

theorem tableChannelType_min (compR03 compR04 compR07 b i : Nat) (h7 : compR07 ≠ 0) :
    tableChannelType compR03 compR04 compR07 b i =
      tableChannelType compR03 (min compR04 3) 1 b i := by
  have h0 : (min compR04 3 = 0) = (compR04 = 0) := by
    apply propext; omega
  have h2 : (min compR04 3 ≤ 2) = (compR04 ≤ 2) := by
    apply propext; omega
  unfold tableChannelType tableType
  simp only [h0, h2, h7, one_ne_zero, false_or]

theorem InitializeTypes_table (cc compR03 compR04 compR07 : Nat) (hcc : cc ≤ 16)
    (h3 : 1 ≤ compR03) (h7 : compR07 ≠ 0) (hb2 : 2 ≤ cc / compR03)
    (hb5 : cc / compR03 ≤ 5) :
    (InitializeTypes compR03 compR04 (cc / compR03) (List.replicate 0x10 0)).map Prod.fst =
      .ok ((List.range 0x10).map
        (tableChannelType compR03 compR04 compR07 (cc / compR03))) := by
  have hmul : 2 * compR03 ≤ cc := by
    have := (Nat.le_div_iff_mul_le (by omega : 0 < compR03)).1 hb2
    omega
  have hfun : tableChannelType compR03 compR04 compR07 (cc / compR03) =
      tableChannelType compR03 (min compR04 3) 1 (cc / compR03) := by
    funext i; exact tableChannelType_min _ _ _ _ _ h7
  rw [InitializeTypes_min, hfun]
  exact InitializeTypes_small cc (List.mem_range.2 (by omega)) compR03
    (List.mem_range.2 (by omega)) (min compR04 3) (List.mem_range.2 (by omega))
    ⟨h3, hb2, hb5⟩

theorem InitializeChannels_loop (hcaInfo : HCA_INFO) (r : List Nat) (f : Nat → Nat) (n : Nat)
    (hr : ∀ i < n, r[i]? = some (f i)) :
    (List.range n).foldlM
      (fun (channels : List CHcaChannel) i =>
        match r[i]? with
        | some t =>
          (.ok (channels ++
            [({ type := t,
                count := add32 hcaInfo.compR06 (if t ≠ 2 then hcaInfo.compR07 else 0) } :
              CHcaChannel)]) :
            Except CException (List CHcaChannel))
        | none => .error .Undefined)
      [] =
    .ok ((List.range n).map fun i =>
      ({ type := f i,
         count := add32 hcaInfo.compR06 (if f i ≠ 2 then hcaInfo.compR07 else 0) } :
        CHcaChannel)) := by
  induction n with
  | zero => rfl
  | succ n ih =>
    rw [List.range_succ, List.foldlM_append, ih (fun i hi => hr i (by omega))]
    simp only [List.foldlM_cons, List.foldlM_nil, hr n (by omega), List.map_append,
      List.map_cons, List.map_nil]
    rfl

theorem InitializeChannels_eq (hcaInfo : HCA_INFO) (r : List Nat) (f : Nat → Nat)
    (hr : ∀ i < hcaInfo.channelCount, r[i]? = some (f i)) :
    InitializeChannels hcaInfo r =
      .ok ((List.range hcaInfo.channelCount).map fun i =>
        ({ type := f i,
           count := add32 hcaInfo.compR06 (if f i ≠ 2 then hcaInfo.compR07 else 0) } :
          CHcaChannel)) :=
  InitializeChannels_loop hcaInfo r f hcaInfo.channelCount hr


/-- C19: with `compR03 ≥ 1`, at most 16 channels and `b = channel_count /
compR03` at most 5 (or `compR07 = 0`), `InitializeExtra` succeeds and creates
`channel_count` channels; channel `i` has the type of the layout table (0 when
`compR07 = 0` or `b ≤ 1`; else the table entry of position `i mod b` for
`i < compR03 * b`, and 0 behind the last group), and its count is
`compR06 + (0 if the type is 2, else compR07)`. -/
theorem InitializeExtra_table (hcaInfo : HCA_INFO) (h3 : 1 ≤ hcaInfo.compR03)
    (hcc : hcaInfo.channelCount ≤ 16)
    (hb : hcaInfo.compR07 = 0 ∨ hcaInfo.channelCount / hcaInfo.compR03 ≤ 5)
    (hsum : hcaInfo.compR06 + hcaInfo.compR07 < U32) :
    InitializeExtra true hcaInfo =
      .ok ((List.range hcaInfo.channelCount).map fun i =>
        ({ type := tableChannelType hcaInfo.compR03 hcaInfo.compR04 hcaInfo.compR07
             (hcaInfo.channelCount / hcaInfo.compR03) i,
           count := hcaInfo.compR06 +
             (if tableChannelType hcaInfo.compR03 hcaInfo.compR04 hcaInfo.compR07
                 (hcaInfo.channelCount / hcaInfo.compR03) i = 2 then 0
               else hcaInfo.compR07) } : CHcaChannel)) := by
  have hcount : ∀ t : Nat, add32 hcaInfo.compR06 (if t ≠ 2 then hcaInfo.compR07 else 0) =
      hcaInfo.compR06 + (if t = 2 then 0 else hcaInfo.compR07) := by
    intro t
    by_cases ht : t = 2
    · rw [if_neg (by simpa using ht), if_pos ht]
      exact add32_of_lt (by omega)
    · rw [if_pos ht, if_neg ht]
      exact add32_of_lt hsum
  have h30 : ¬ hcaInfo.compR03 = 0 := by omega
  unfold InitializeExtra
  simp only [Bool.not_true, Bool.false_eq_true, if_false, h30]
  by_cases hact : hcaInfo.compR07 ≠ 0 ∧ hcaInfo.channelCount / hcaInfo.compR03 > 1
  · rw [if_pos hact]
    have hb5 : hcaInfo.channelCount / hcaInfo.compR03 ≤ 5 := by
      rcases hb with h | h
      · exact absurd h hact.1
      · exact h
    have ht := InitializeTypes_table hcaInfo.channelCount hcaInfo.compR03 hcaInfo.compR04
      hcaInfo.compR07 hcc h3 hact.1 hact.2 hb5
    cases hs : InitializeTypes hcaInfo.compR03 hcaInfo.compR04
        (hcaInfo.channelCount / hcaInfo.compR03) (List.replicate 0x10 0) with
    | error e => rw [hs] at ht; cases ht
    | ok state =>
      rw [hs] at ht
      have h1 : state.1 = (List.range 0x10).map
          (tableChannelType hcaInfo.compR03 hcaInfo.compR04 hcaInfo.compR07
            (hcaInfo.channelCount / hcaInfo.compR03)) := by
        injection ht
      show InitializeChannels hcaInfo state.1 = _
      rw [InitializeChannels_eq hcaInfo state.1
        (tableChannelType hcaInfo.compR03 hcaInfo.compR04 hcaInfo.compR07
          (hcaInfo.channelCount / hcaInfo.compR03))]
      · simp only [hcount]
      · intro i hi
        rw [h1, List.getElem?_map, List.getElem?_range (by omega)]
        rfl
  · rw [if_neg hact]
    have hz : ∀ i, tableChannelType hcaInfo.compR03 hcaInfo.compR04 hcaInfo.compR07
        (hcaInfo.channelCount / hcaInfo.compR03) i = 0 := by
      intro i
      unfold tableChannelType
      rw [if_pos]
      by_cases h7 : hcaInfo.compR07 = 0
      · exact Or.inl h7
      · right
        by_contra hgt
        exact hact ⟨h7, by omega⟩
    rw [InitializeChannels_eq hcaInfo _ (fun _ => 0)]
    · simp only [hz, hcount]
    · intro i hi
      rw [List.getElem?_replicate]
      rw [if_pos (by omega)]

/-- Two groups of five channels with `compR04 = 1`, `compR06 = 3` and
`compR07 = 4`: each group has the types 1, 2, 0, 1, 2 and the counts 7, 3, 7,
7, 3. -/
theorem InitializeExtra_table_witness :
    InitializeExtra true quintetInfo =
      .ok [⟨1, 7⟩, ⟨2, 3⟩, ⟨0, 7⟩, ⟨1, 7⟩, ⟨2, 3⟩, ⟨1, 7⟩, ⟨2, 3⟩, ⟨0, 7⟩, ⟨1, 7⟩, ⟨2, 3⟩] :=
  (InitializeExtra_table quintetInfo (by decide) (by decide) (by decide)
    (by decide)).trans (by decide)


/-- With `compR07 ≠ 0` and more than eight channels to a group the first pass
of the loop reaches the `default` label: `InitializeExtra` throws
`CArgumentException`. -/
theorem InitializeExtra_above_eight (hcaInfo : HCA_INFO) (h3 : 1 ≤ hcaInfo.compR03)
    (h7 : hcaInfo.compR07 ≠ 0) (hb : 8 < hcaInfo.channelCount / hcaInfo.compR03) :
    InitializeExtra true hcaInfo = .error (.CArgumentException "") := by
  have h30 : ¬ hcaInfo.compR03 = 0 := by omega
  obtain ⟨t, ht⟩ : ∃ t, hcaInfo.compR03 = t + 1 := ⟨hcaInfo.compR03 - 1, by omega⟩
  have hgroup : ∀ r c, InitializeGroup hcaInfo.compR04
      (hcaInfo.channelCount / hcaInfo.compR03) r c = .error (.CArgumentException "") := by
    intro r c
    unfold InitializeGroup
    rw [if_neg (by omega), if_neg (by omega), if_neg (by omega), if_neg (by omega),
      if_neg (by omega)]
  unfold InitializeExtra
  simp only [Bool.not_true, Bool.false_eq_true, if_false, h30]
  rw [if_pos ⟨h7, by omega⟩]
  unfold InitializeTypes
  rw [ht, List.range_succ_eq_map, List.foldlM_cons, ← ht, hgroup]
  rfl


/-- C20: one group of eight channels (`compR03 = 1`, `compR07 = 1`) gets the
types 0, 0, 0, 0, 0, 0, 1, 2 from `InitializeExtra`, where the layout table
lists 1, 2, 0, 0, 1, 2, 1, 2; and with two groups of six channels and a
thirteenth channel behind them, the channels 6 and 7 of the second group and
the thirteenth channel get the types 1, 2 and 1. -/
theorem InitializeExtra_wide_groups :
    (InitializeExtra true octetInfo).map (List.map CHcaChannel.type) =
        .ok [0, 0, 0, 0, 0, 0, 1, 2] ∧
      (List.range 8).map (tableTypeWide 8) = [1, 2, 0, 0, 1, 2, 1, 2] ∧
      (InitializeExtra true sextetInfo).map (List.map CHcaChannel.type) =
        .ok [1, 2, 0, 0, 1, 2, 1, 2, 0, 0, 1, 2, 1] ∧
      (List.range 13).map (fun i => if i < 12 then tableTypeWide 6 (i % 6) else 0) =
        [1, 2, 0, 0, 1, 2, 1, 2, 0, 0, 1, 2, 0] := by
  decide

/-! ## `CBitConverter` -/

theorem byteAt_eq {p : List Nat} {i b : Nat} (h : p[i]? = some b) : byteAt p i = .ok b := by
  unfold byteAt; rw [h]

/-- A round of the little-endian loop for a type of at most 32 bits: below the
byte being placed the pattern is kept, and the byte is put at bit `8 * i`. -/
theorem littleEndianRound_eq (bit : Nat) (signed : Bool) (p : List Nat) (v i b : Nat)
    (hp : p[i]? = some b) (hb : b < 256) (hbit : bit ≤ 32) (hi : 8 * i + 8 ≤ bit)
    (hv : v < 2 ^ (8 * i)) :
    littleEndianRound bit signed p v i = .ok (v + b * 2 ^ (8 * i)) := by
  have hpow : 2 ^ (8 * i + 8) ≤ 2 ^ bit := Nat.pow_le_pow_right (by decide) hi
  have hpow32 : 2 ^ bit ≤ 2 ^ 32 := Nat.pow_le_pow_right (by decide) hbit
  have hsum : v + b * 2 ^ (8 * i) < 2 ^ (8 * i + 8) := by
    rw [Nat.pow_add]
    have h256 : (2 : Nat) ^ 8 = 256 := by decide
    rw [h256]
    have : (b + 1) * 2 ^ (8 * i) ≤ 256 * 2 ^ (8 * i) := Nat.mul_le_mul_right _ (by omega)
    rw [Nat.add_mul, Nat.one_mul] at this
    rw [Nat.mul_comm (2 ^ (8 * i)) 256]
    omega
  have ht : b * 2 ^ (i * 8) % 2 ^ 32 = b * 2 ^ (8 * i) := by
    rw [Nat.mul_comm i 8]
    exact Nat.mod_eq_of_lt (by omega)
  have hvs : ¬ 2 ^ (bit - 1) ≤ v := by
    have : 2 ^ (8 * i) ≤ 2 ^ (bit - 1) := Nat.pow_le_pow_right (by decide) (by omega)
    omega
  have hmax : max bit 32 = 32 := Nat.max_eq_right hbit
  have hor : v ||| b * 2 ^ (8 * i) = v + b * 2 ^ (8 * i) := by
    rw [Nat.or_comm, Nat.mul_comm b, ← Nat.mul_add_lt_is_or hv b, Nat.add_comm]
  unfold littleEndianRound shiftLeftInt convertPattern
  rw [byteAt_eq hp, hmax]
  have hi32 : i * 8 < 32 := by omega
  simp only [hi32, if_true, ht, hvs, and_false, if_false, Nat.sub_self,
    Nat.add_zero, ite_self, hor, pure, Except.pure, bind, Except.bind]
  rw [Nat.mod_eq_of_lt (by omega)]

theorem range_two : List.range 2 = [0, 1] := by decide

theorem range_four : List.range 4 = [0, 1, 2, 3] := by decide

theorem TO_INT_16 (signed : Bool) (b0 b1 : Nat) (rest : List Nat) (h0 : b0 < 256)
    (h1 : b1 < 256) :
    TO_INT true 16 signed (b0 :: b1 :: rest) = .ok (b0 + 256 * b1) := by
  unfold TO_INT
  rw [if_pos rfl, show 16 / 8 = 2 from rfl, range_two]
  simp only [List.foldlM_cons, List.foldlM_nil]
  rw [littleEndianRound_eq 16 signed _ 0 0 b0 (by simp) h0 (by decide) (by decide) (by decide)]
  simp only [bind, Except.bind]
  rw [littleEndianRound_eq 16 signed _ _ 1 b1 (by simp) h1 (by decide) (by decide)
    (by simpa using h0)]
  simp only [pure, Except.pure]
  apply congrArg Except.ok
  omega

theorem TO_INT_32 (signed : Bool) (b0 b1 b2 b3 : Nat) (rest : List Nat) (h0 : b0 < 256)
    (h1 : b1 < 256) (h2 : b2 < 256) (h3 : b3 < 256) :
    TO_INT true 32 signed (b0 :: b1 :: b2 :: b3 :: rest) =
      .ok (b0 + 256 * b1 + 65536 * b2 + 16777216 * b3) := by
  unfold TO_INT
  rw [if_pos rfl, show 32 / 8 = 4 from rfl, range_four]
  simp only [List.foldlM_cons, List.foldlM_nil]
  rw [littleEndianRound_eq 32 signed _ 0 0 b0 (by simp) h0 (by decide) (by decide) (by decide)]
  simp only [bind, Except.bind]
  rw [littleEndianRound_eq 32 signed _ _ 1 b1 (by simp) h1 (by decide) (by decide)
    (by simpa using h0)]
  simp only []
  rw [littleEndianRound_eq 32 signed _ _ 2 b2 (by simp) h2 (by decide) (by decide)
    (by norm_num; omega)]
  simp only []
  rw [littleEndianRound_eq 32 signed _ _ 3 b3 (by simp) h3 (by decide) (by decide)
    (by norm_num; omega)]
  simp only [pure, Except.pure]
  apply congrArg Except.ok
  norm_num
  omega

/-- C15: on a little-endian host and for bytes `b0 .. b3`, `ToUInt16` returns
`b0 + 256 * b1`, `ToUInt32` returns `b0 + 256 * b1 + 65536 * b2 +
16777216 * b3`, and `ToInt16` and `ToInt32` return the two's-complement
reading of the same 16 and 32 bits: the unsigned value when it is below `2^15`
or `2^31`, and the unsigned value less `2^16` or `2^32` otherwise. -/
theorem ToInt_little_endian (b0 b1 b2 b3 : Nat) (rest : List Nat) (h0 : b0 < 256)
    (h1 : b1 < 256) (h2 : b2 < 256) (h3 : b3 < 256) :
    ToUInt16 true (b0 :: b1 :: rest) = .ok (b0 + 256 * b1) ∧
      ToUInt32 true (b0 :: b1 :: b2 :: b3 :: rest) =
        .ok (b0 + 256 * b1 + 65536 * b2 + 16777216 * b3) ∧
      ToInt16 true (b0 :: b1 :: rest) =
        .ok (if b0 + 256 * b1 < 32768 then ((b0 + 256 * b1 : Nat) : Int)
          else ((b0 + 256 * b1 : Nat) : Int) - 65536) ∧
      ToInt32 true (b0 :: b1 :: b2 :: b3 :: rest) =
        .ok (if b0 + 256 * b1 + 65536 * b2 + 16777216 * b3 < 2147483648 then
            ((b0 + 256 * b1 + 65536 * b2 + 16777216 * b3 : Nat) : Int)
          else ((b0 + 256 * b1 + 65536 * b2 + 16777216 * b3 : Nat) : Int) - 4294967296) := by
  refine ⟨TO_INT_16 false b0 b1 rest h0 h1, TO_INT_32 false b0 b1 b2 b3 rest h0 h1 h2 h3,
    ?_, ?_⟩
  · unfold ToInt16
    rw [TO_INT_16 true b0 b1 rest h0 h1]
    rfl
  · unfold ToInt32
    rw [TO_INT_32 true b0 b1 b2 b3 rest h0 h1 h2 h3]
    rfl

/-- The bytes 78 56 34 92 (hexadecimal) read as `0x5678` in 16 bits and as
`0x92345678` in 32 bits, which as a signed number is `0x92345678 - 2^32`. -/
theorem ToInt_little_endian_witness :
    ToUInt16 true [0x78, 0x56, 0x34, 0x92] = .ok 0x5678 ∧
      ToUInt32 true [0x78, 0x56, 0x34, 0x92] = .ok 0x92345678 ∧
      ToInt16 true [0x78, 0x56, 0x34, 0x92] = .ok 0x5678 ∧
      ToInt32 true [0x78, 0x56, 0x34, 0x92] = .ok (-1842063752) :=
  ToInt_little_endian 0x78 0x56 0x34 0x92 [] (by decide) (by decide) (by decide) (by decide)

theorem littleEndianRound_cases (bit : Nat) (signed : Bool) (p : List Nat) (v i : Nat) :
    littleEndianRound bit signed p v i = .error .Undefined ∨
      ∃ w, littleEndianRound bit signed p v i = .ok w := by
  unfold littleEndianRound byteAt shiftLeftInt
  cases p[i]? with
  | none => left; rfl
  | some b =>
    by_cases h : i * 8 < 32
    · right; simp only [h, if_true]; exact ⟨_, rfl⟩
    · left; simp only [h, if_false]; rfl

theorem littleEndianRound_undefined (bit : Nat) (signed : Bool) (p : List Nat) (v i : Nat)
    (hi : 4 ≤ i) : littleEndianRound bit signed p v i = .error .Undefined := by
  unfold littleEndianRound byteAt shiftLeftInt
  have h : ¬ i * 8 < 32 := by omega
  cases p[i]? with
  | none => rfl
  | some b => simp only [h, if_false]; rfl

theorem range_eight : List.range 8 = [0, 1, 2, 3, 4, 5, 6, 7] := by decide

theorem TO_INT_64 (signed : Bool) (p : List Nat) :
    TO_INT true 64 signed p = .error .Undefined := by
  unfold TO_INT
  rw [if_pos rfl, show 64 / 8 = 8 from rfl, range_eight]
  simp only [List.foldlM_cons, bind, Except.bind]
  rcases littleEndianRound_cases 64 signed p 0 0 with h | ⟨w0, h⟩
  · simp only [h]
  rcases littleEndianRound_cases 64 signed p w0 1 with h1 | ⟨w1, h1⟩
  · simp only [h, h1]
  rcases littleEndianRound_cases 64 signed p w1 2 with h2 | ⟨w2, h2⟩
  · simp only [h, h1, h2]
  rcases littleEndianRound_cases 64 signed p w2 3 with h3 | ⟨w3, h3⟩
  · simp only [h, h1, h2, h3]
  simp only [h, h1, h2, h3, littleEndianRound_undefined 64 signed p w3 4 (le_refl _)]

/-- C16: on a little-endian host `ToUInt64` and `ToInt64` have no defined
result for any bytes: the round for byte 4 shifts an `int` by 32 bits. The
four rounds before it, on the bytes 00 00 00 80 (hexadecimal), leave the 64-bit
pattern `0xFFFFFFFF80000000`, the sign of the `int` copied into the upper
half, where the bytes read `0x80000000`. -/
theorem ToInt64_undefined (p : List Nat) :
    ToUInt64 true p = .error .Undefined ∧ ToInt64 true p = .error .Undefined ∧
      (List.range 4).foldlM (littleEndianRound 64 false [0, 0, 0, 0x80, 0, 0, 0, 0]) 0 =
        .ok 0xFFFFFFFF80000000 := by
  refine ⟨TO_INT_64 false p, ?_, by decide⟩
  unfold ToInt64
  rw [TO_INT_64 true p]
  rfl


/-! ## The file table of an AFS2 archive -/

theorem lookup_cons_eq (c k : Nat) (v : AFS2_FILE_RECORD)
    (rest : List (Nat × AFS2_FILE_RECORD)) :
    List.lookup c ((k, v) :: rest) = if c = k then some v else List.lookup c rest := by
  by_cases h : c = k
  · subst h
    simp [List.lookup]
  · have h' : (c == k) = false := by simpa using h
    rw [if_neg h]
    simp only [List.lookup, h']

theorem lookup_mapAssign (key : Nat) (value : AFS2_FILE_RECORD)
    (files : List (Nat × AFS2_FILE_RECORD)) (c : Nat) :
    (mapAssign key value files).lookup c =
      if c = key then some value else files.lookup c := by
  induction files with
  | nil =>
    unfold mapAssign
    rw [lookup_cons_eq]
  | cons e rest ih =>
    obtain ⟨k, v⟩ := e
    unfold mapAssign
    by_cases h1 : key < k
    · rw [if_pos h1, lookup_cons_eq]
    · rw [if_neg h1]
      by_cases h2 : key = k
      · rw [if_pos h2]
        subst h2
        rw [lookup_cons_eq, lookup_cons_eq]
        by_cases h : c = key
        · rw [if_pos h, if_pos h]
        · rw [if_neg h, if_neg h, if_neg h]
      · rw [if_neg h2, lookup_cons_eq, lookup_cons_eq, ih]
        by_cases h : c = key
        · have hck : ¬ c = k := by rw [h]; exact h2
          rw [if_pos h, if_neg hck, if_pos h]
        · rw [if_neg h, if_neg h]

theorem mem_keys_iff (files : List (Nat × AFS2_FILE_RECORD)) (c : Nat) :
    c ∈ files.map Prod.fst ↔ (files.lookup c).isSome = true := by
  induction files with
  | nil => simp [List.lookup]
  | cons e rest ih =>
    obtain ⟨k, v⟩ := e
    rw [lookup_cons_eq, List.map_cons, List.mem_cons]
    by_cases h : c = k
    · rw [if_pos h]
      simp [h]
    · rw [if_neg h, ← ih]
      simp [h]

theorem mem_keys_mapAssign (key : Nat) (value : AFS2_FILE_RECORD)
    (files : List (Nat × AFS2_FILE_RECORD)) (c : Nat) :
    c ∈ (mapAssign key value files).map Prod.fst ↔ c = key ∨ c ∈ files.map Prod.fst := by
  rw [mem_keys_iff, mem_keys_iff, lookup_mapAssign]
  by_cases h : c = key
  · simp [h]
  · simp [h]

theorem sorted_mapAssign (key : Nat) (value : AFS2_FILE_RECORD)
    (files : List (Nat × AFS2_FILE_RECORD))
    (hs : (files.map Prod.fst).Pairwise (fun a b => a < b)) :
    ((mapAssign key value files).map Prod.fst).Pairwise (fun a b => a < b) := by
  induction files with
  | nil => simp [mapAssign]
  | cons e rest ih =>
    obtain ⟨k, v⟩ := e
    rw [List.map_cons, List.pairwise_cons] at hs
    unfold mapAssign
    by_cases h1 : key < k
    · rw [if_pos h1]
      simp only [List.map_cons, List.pairwise_cons, List.mem_cons]
      refine ⟨?_, hs.1, hs.2⟩
      rintro x (rfl | hx)
      · exact h1
      · exact lt_trans h1 (hs.1 x hx)
    · rw [if_neg h1]
      by_cases h2 : key = k
      · rw [if_pos h2]
        subst h2
        simp only [List.map_cons, List.pairwise_cons]
        exact hs
      · rw [if_neg h2]
        simp only [List.map_cons, List.pairwise_cons]
        refine ⟨?_, ih hs.2⟩
        intro x hx
        rcases (mem_keys_mapAssign key value rest x).1 hx with rfl | hx
        · omega
        · exact hs.1 x hx

theorem lastIndex_some {cue : Nat → Nat} {c : Nat} :
    ∀ {k j : Nat}, lastIndex cue c k = some j →
      j < k ∧ cue j = c ∧ ∀ i, j < i → i < k → cue i ≠ c := by
  intro k
  induction k with
  | zero => intro j h; cases h
  | succ k ih =>
    intro j h
    unfold lastIndex at h
    by_cases hc : cue k = c
    · rw [if_pos hc] at h
      injection h with h
      subst h
      exact ⟨Nat.lt_succ_self _, hc, fun i h1 h2 => by omega⟩
    · rw [if_neg hc] at h
      obtain ⟨h1, h2, h3⟩ := ih h
      refine ⟨by omega, h2, fun i hi1 hi2 => ?_⟩
      by_cases hik : i = k
      · rw [hik]; exact hc
      · exact h3 i hi1 (by omega)

theorem lastIndex_of_last {cue : Nat → Nat} {c : Nat} :
    ∀ {k j : Nat}, j < k → cue j = c → (∀ i, j < i → i < k → cue i ≠ c) →
      lastIndex cue c k = some j := by
  intro k
  induction k with
  | zero => intro j h; omega
  | succ k ih =>
    intro j hj hc hlast
    unfold lastIndex
    by_cases hjk : j = k
    · subst hjk
      rw [if_pos hc]
    · rw [if_neg (hlast k (by omega) (Nat.lt_succ_self _))]
      exact ih (by omega) hc (fun i h1 h2 => hlast i h1 (by omega))

theorem lastIndex_isSome {cue : Nat → Nat} {c : Nat} (k : Nat) :
    (lastIndex cue c k).isSome = true ↔ ∃ j, j < k ∧ cue j = c := by
  induction k with
  | zero => simp [lastIndex]
  | succ k ih =>
    unfold lastIndex
    by_cases hc : cue k = c
    · rw [if_pos hc]
      simp only [Option.isSome_some, true_iff]
      exact ⟨k, Nat.lt_succ_self _, hc⟩
    · rw [if_neg hc, ih]
      constructor
      · rintro ⟨j, h1, h2⟩
        exact ⟨j, by omega, h2⟩
      · rintro ⟨j, h1, h2⟩
        refine ⟨j, ?_, h2⟩
        by_cases hjk : j = k
        · subst hjk; exact absurd h2 hc
        · omega

theorem InitializeStep_eq (RoundUpToAlignment : Nat → Nat → Nat) (stream : Nat → Nat)
    (offset : Nat) (fileCount fileOffsetFieldBase : Int) (offsetFieldSize offsetMask : Nat)
    (_byteAlignment : Nat) (files : List (Nat × AFS2_FILE_RECORD)) (prev : Int) (i : Nat) :
    InitializeStep RoundUpToAlignment stream offset fileCount fileOffsetFieldBase
        offsetFieldSize offsetMask _byteAlignment (files, prev) i =
      (mapAssign
        (passRecord RoundUpToAlignment stream offset fileCount fileOffsetFieldBase
          offsetFieldSize offsetMask _byteAlignment i).cueId
        (passRecord RoundUpToAlignment stream offset fileCount fileOffsetFieldBase
          offsetFieldSize offsetMask _byteAlignment i)
        (if prev ≠ InvalidCueId then
          mapAssign prev.toNat
            { mapAt files prev.toNat with
              fileSize := sub64
                (passRecord RoundUpToAlignment stream offset fileCount fileOffsetFieldBase
                  offsetFieldSize offsetMask _byteAlignment i).fileOffsetRaw
                (mapAt files prev.toNat).fileOffsetAligned }
            files
        else files),
      ((passRecord RoundUpToAlignment stream offset fileCount fileOffsetFieldBase
          offsetFieldSize offsetMask _byteAlignment i).cueId : Int)) :=
  rfl

/-- The state of the loop after `k` passes: the last cue id, the record under
every cue id, and the ascending order of the keys. -/
theorem loop_invariant
    (step : List (Nat × AFS2_FILE_RECORD) × Int → Nat → List (Nat × AFS2_FILE_RECORD) × Int)
    (fresh : Nat → AFS2_FILE_RECORD)
    (hstep : ∀ files prev i, step (files, prev) i =
      (mapAssign (fresh i).cueId (fresh i)
        (if prev ≠ InvalidCueId then
          mapAssign prev.toNat
            { mapAt files prev.toNat with
              fileSize := sub64 (fresh i).fileOffsetRaw (mapAt files prev.toNat).fileOffsetAligned }
            files
        else files),
      ((fresh i).cueId : Int)))
    (k : Nat) :
    ((List.range k).foldl step ([], InvalidCueId)).2 =
        (if k = 0 then InvalidCueId else ((fresh (k - 1)).cueId : Int)) ∧
      (∀ c, ((List.range k).foldl step ([], InvalidCueId)).1.lookup c =
        (lastIndex (fun i => (fresh i).cueId) c k).map (recordAfter fresh k)) ∧
      (((List.range k).foldl step ([], InvalidCueId)).1.map Prod.fst).Pairwise
        (fun a b => a < b) := by
  induction k with
  | zero =>
    refine ⟨rfl, fun c => rfl, ?_⟩
    simp
  | succ k ih =>
    rw [List.range_succ, List.foldl_append, List.foldl_cons, List.foldl_nil]
    generalize (List.range k).foldl step ([], InvalidCueId) = st at ih
    obtain ⟨files, prev⟩ := st
    obtain ⟨hprev, hlook, hsort⟩ := ih
    simp only at hprev hlook hsort
    rw [hstep]
    refine ⟨by simp, ?_, ?_⟩
    · intro c
      show List.lookup c (mapAssign _ _ _) = _
      rw [lookup_mapAssign]
      unfold lastIndex
      by_cases hc : (fresh k).cueId = c
      · rw [if_pos hc.symm, if_pos hc]
        simp [recordAfter]
      · rw [if_neg (fun h => hc h.symm), if_neg hc]
        rcases Nat.eq_zero_or_pos k with hk | hk
        · subst hk
          rw [if_pos rfl] at hprev
          rw [hprev, if_neg (by simp), hlook]
          rfl
        · have hk0 : ¬ k = 0 := by omega
          rw [if_neg hk0] at hprev
          have hne : prev ≠ InvalidCueId := by
            rw [hprev]; unfold InvalidCueId; omega
          have htn : prev.toNat = (fresh (k - 1)).cueId := by rw [hprev]; rfl
          rw [if_pos hne, lookup_mapAssign, htn]
          have hlastk : lastIndex (fun i => (fresh i).cueId) ((fresh (k - 1)).cueId) k =
              some (k - 1) :=
            lastIndex_of_last (by omega) rfl (fun i h1 h2 => by omega)
          by_cases hcp : c = (fresh (k - 1)).cueId
          · rw [if_pos hcp, hcp, hlastk]
            have hat : mapAt files (fresh (k - 1)).cueId = fresh (k - 1) := by
              unfold mapAt
              rw [hlook, hlastk]
              simp only [Option.map_some', Option.getD_some]
              unfold recordAfter
              rw [if_pos (by omega)]
            rw [hat]
            simp only [Option.map_some']
            unfold recordAfter
            rw [if_neg (by omega), show k - 1 + 1 = k by omega]
          · rw [if_neg hcp, hlook]
            cases hl : lastIndex (fun i => (fresh i).cueId) c k with
            | none => rfl
            | some j =>
              obtain ⟨h1, h2, h3⟩ := lastIndex_some hl
              have hj : j ≠ k - 1 := by
                intro hjk
                apply hcp
                rw [← h2, hjk]
              simp only [Option.map_some']
              unfold recordAfter
              rw [if_neg (by omega), if_neg (by omega)]
    · show ((mapAssign _ _ _).map Prod.fst).Pairwise _
      apply sorted_mapAssign
      split
      · exact sorted_mapAssign _ _ _ hsort
      · exact hsort


theorem offsetMask_small : ∀ s ∈ List.range 5, offsetMask s = some (2 ^ (8 * s) - 1) := by
  decide

theorem offsetMask_five : offsetMask 5 = none := by decide

theorem offsetMask_large (s : Nat) (hs : 5 ≤ s) : offsetMask s = none := by
  obtain ⟨t, rfl⟩ : ∃ t, s = 5 + t := ⟨s - 5, by omega⟩
  have h5 := offsetMask_five
  unfold offsetMask at h5 ⊢
  rw [List.range_add, List.foldlM_append, h5]
  rfl

theorem offsetMask_eq {s m : Nat} (h : offsetMask s = some m) :
    s ≤ 4 ∧ m = 2 ^ (8 * s) - 1 := by
  by_cases hs : s ≤ 4
  · rw [offsetMask_small s (List.mem_range.2 (by omega))] at h
    injection h with h
    exact ⟨hs, h.symm⟩
  · rw [offsetMask_large s (by omega)] at h
    cases h

/-- What a successful `Initialize` went through, and the file table that it
leaves. -/
theorem Initialize_ok {RoundUpToAlignment : Nat → Nat → Nat} {stream : Nat → Nat}
    {offset : Nat} {archive : CAfs2Archive}
    (hok : Initialize RoundUpToAlignment stream offset = .ok archive) :
    fileCountAt stream offset ≤ 65535 ∧
      offsetMask (offsetFieldSizeAt stream offset) =
        some (2 ^ (8 * offsetFieldSizeAt stream offset) - 1) ∧
      offsetFieldSizeAt stream offset ≤ 4 ∧
      archive._files =
        ((List.range (fileCountAt stream offset).toNat).foldl
          (InitializeStep RoundUpToAlignment stream offset (fileCountAt stream offset)
            (0x10 + fileCountAt stream offset * 2) (offsetFieldSizeAt stream offset)
            (2 ^ (8 * offsetFieldSizeAt stream offset) - 1) (byteAlignmentAt stream offset))
          ([], InvalidCueId)).1 := by
  unfold Initialize at hok
  by_cases hsig : IsAfs2Archive stream offset = true
  · simp only [hsig, Bool.not_true, Bool.false_eq_true, if_false] at hok
    by_cases hc : PeekInt32LE stream (add64 offset 8) > 65535
    · rw [if_pos hc] at hok; cases hok
    · rw [if_neg hc] at hok
      cases hm : offsetMask ((PeekUInt32LE stream (add64 offset 4) >>> 8) &&& 0xff) with
      | none => rw [hm] at hok; cases hok
      | some m =>
        rw [hm] at hok
        simp only at hok
        obtain ⟨hs, hmeq⟩ := offsetMask_eq hm
        by_cases hu : PeekInt32LE stream (add64 offset 8) * 2 < -2 ^ 31
        · rw [if_pos hu] at hok; cases hok
        · rw [if_neg hu] at hok
          injection hok with hok
          subst hmeq
          refine ⟨not_lt.1 hc, hm, hs, ?_⟩
          rw [← hok]
          rfl
  · have hsig' : IsAfs2Archive stream offset = false := by simpa using hsig
    simp only [hsig', Bool.not_false, if_true] at hok
    cases hok

/-- A valid header is enough for `Initialize` to succeed. -/
theorem Initialize_of_valid (RoundUpToAlignment : Nat → Nat → Nat) (stream : Nat → Nat)
    (offset : Nat) (hsig : IsAfs2Archive stream offset = true)
    (h0 : 0 ≤ fileCountAt stream offset) (h1 : fileCountAt stream offset ≤ 65535)
    (hs : offsetFieldSizeAt stream offset ≤ 4) :
    ∃ archive, Initialize RoundUpToAlignment stream offset = .ok archive := by
  have hm := offsetMask_small (offsetFieldSizeAt stream offset) (List.mem_range.2 (by omega))
  unfold fileCountAt at h0 h1
  unfold offsetFieldSizeAt at hm
  unfold Initialize
  simp only [hsig, Bool.not_true, Bool.false_eq_true, if_false]
  rw [if_neg (by omega), hm]
  simp only
  rw [if_neg (by omega)]
  exact ⟨_, rfl⟩

/-- The raw offset of the record built for file `i` is the table entry the
specification names. -/
theorem passRecord_raw (RoundUpToAlignment : Nat → Nat → Nat) (stream : Nat → Nat)
    (offset : Nat) (h1 : fileCountAt stream offset ≤ 65535)
    (hs : offsetFieldSizeAt stream offset ≤ 4) (i : Nat)
    (hi : i < (fileCountAt stream offset).toNat) :
    (passRecord RoundUpToAlignment stream offset (fileCountAt stream offset)
        (0x10 + fileCountAt stream offset * 2) (offsetFieldSizeAt stream offset)
        (2 ^ (8 * offsetFieldSizeAt stream offset) - 1)
        (byteAlignmentAt stream offset) i).fileOffsetRaw =
      tableOffsetAt stream offset i := by
  have hbase : ((0x10 + fileCountAt stream offset * 2 +
      ((offsetFieldSizeAt stream offset * i % U32 : Nat) : Int)) % (U32 : Int)).toNat =
      0x10 + 2 * (fileCountAt stream offset).toNat + i * offsetFieldSizeAt stream offset := by
    have hmul : offsetFieldSizeAt stream offset * i ≤ 4 * i := Nat.mul_le_mul_right _ hs
    rw [Nat.mul_comm i]
    generalize offsetFieldSizeAt stream offset * i = x at hmul ⊢
    generalize fileCountAt stream offset = n at h1 hi ⊢
    rw [U32_eq]
    omega
  unfold tableOffsetAt
  rw [← hbase]
  rfl

theorem recordAfter_cueId (fresh : Nat → AFS2_FILE_RECORD) (k j : Nat) :
    (recordAfter fresh k j).cueId = (fresh j).cueId := by
  unfold recordAfter; split <;> rfl

theorem recordAfter_raw (fresh : Nat → AFS2_FILE_RECORD) (k j : Nat) :
    (recordAfter fresh k j).fileOffsetRaw = (fresh j).fileOffsetRaw := by
  unfold recordAfter; split <;> rfl

theorem recordAfter_aligned (fresh : Nat → AFS2_FILE_RECORD) (k j : Nat) :
    (recordAfter fresh k j).fileOffsetAligned = (fresh j).fileOffsetAligned := by
  unfold recordAfter; split <;> rfl

/-- The entry of a successfully parsed archive under a cue id: none when no
file has the cue id, and else the record of the last file that has it. -/
theorem Initialize_lookup {RoundUpToAlignment : Nat → Nat → Nat} {stream : Nat → Nat}
    {offset : Nat} {archive : CAfs2Archive}
    (hok : Initialize RoundUpToAlignment stream offset = .ok archive) (c : Nat) :
    archive._files.lookup c =
      (lastIndex (cueIdAt stream offset) c (fileCountAt stream offset).toNat).map
        (recordAfter
          (passRecord RoundUpToAlignment stream offset (fileCountAt stream offset)
            (0x10 + fileCountAt stream offset * 2) (offsetFieldSizeAt stream offset)
            (2 ^ (8 * offsetFieldSizeAt stream offset) - 1) (byteAlignmentAt stream offset))
          (fileCountAt stream offset).toNat) := by
  obtain ⟨-, -, -, hfiles⟩ := Initialize_ok hok
  rw [hfiles]
  exact (loop_invariant _ _ (fun files prev i => InitializeStep_eq _ _ _ _ _ _ _ _ files prev i)
    (fileCountAt stream offset).toNat).2.1 c

theorem Initialize_sorted {RoundUpToAlignment : Nat → Nat → Nat} {stream : Nat → Nat}
    {offset : Nat} {archive : CAfs2Archive}
    (hok : Initialize RoundUpToAlignment stream offset = .ok archive) :
    (archive._files.map Prod.fst).Pairwise (fun a b => a < b) := by
  obtain ⟨-, -, -, hfiles⟩ := Initialize_ok hok
  rw [hfiles]
  exact (loop_invariant _ _ (fun files prev i => InitializeStep_eq _ _ _ _ _ _ _ _ files prev i)
    (fileCountAt stream offset).toNat).2.2

theorem Initialize_keys {RoundUpToAlignment : Nat → Nat → Nat} {stream : Nat → Nat}
    {offset : Nat} {archive : CAfs2Archive}
    (hok : Initialize RoundUpToAlignment stream offset = .ok archive) (c : Nat) :
    c ∈ archive._files.map Prod.fst ↔
      ∃ j, j < (fileCountAt stream offset).toNat ∧ cueIdAt stream offset j = c := by
  rw [mem_keys_iff, Initialize_lookup hok, Option.isSome_map', lastIndex_isSome]

theorem Initialize_nodup {RoundUpToAlignment : Nat → Nat → Nat} {stream : Nat → Nat}
    {offset : Nat} {archive : CAfs2Archive}
    (hok : Initialize RoundUpToAlignment stream offset = .ok archive) :
    (archive._files.map Prod.fst).Nodup :=
  (Initialize_sorted hok).imp (fun h => Nat.ne_of_lt h)

/-- The entry under the cue id of file `i`, when no later file has the same
cue id. -/
theorem Initialize_mapAt {RoundUpToAlignment : Nat → Nat → Nat} {stream : Nat → Nat}
    {offset : Nat} {archive : CAfs2Archive}
    (hok : Initialize RoundUpToAlignment stream offset = .ok archive) (i : Nat)
    (hi : i < (fileCountAt stream offset).toNat)
    (hlast : ∀ j, i < j → j < (fileCountAt stream offset).toNat →
      cueIdAt stream offset j ≠ cueIdAt stream offset i) :
    archive._files.lookup (cueIdAt stream offset i) =
      some (recordAfter
        (passRecord RoundUpToAlignment stream offset (fileCountAt stream offset)
          (0x10 + fileCountAt stream offset * 2) (offsetFieldSizeAt stream offset)
          (2 ^ (8 * offsetFieldSizeAt stream offset) - 1) (byteAlignmentAt stream offset))
        (fileCountAt stream offset).toNat i) := by
  rw [Initialize_lookup hok, lastIndex_of_last hi rfl hlast]
  rfl

/-- C11: in a successfully parsed archive whose cue ids are pairwise distinct,
the record of every file `i` but the last has the size `raw_{i+1} - aligned_i`
in 64-bit arithmetic, so that `aligned_i + size_i` is the raw offset of file
`i + 1` (as 64-bit integers, and as plain numbers when `aligned_i` is not
above that raw offset); the raw offsets are the entries of the offset
table. -/
theorem Initialize_size_chain (RoundUpToAlignment : Nat → Nat → Nat) (stream : Nat → Nat)
    (offset : Nat) (archive : CAfs2Archive)
    (hok : Initialize RoundUpToAlignment stream offset = .ok archive)
    (hdistinct : ∀ i < (fileCountAt stream offset).toNat,
      ∀ j < (fileCountAt stream offset).toNat,
        cueIdAt stream offset i = cueIdAt stream offset j → i = j)
    (i : Nat) (hi : i + 1 < (fileCountAt stream offset).toNat) :
    (mapAt archive._files (cueIdAt stream offset i)).fileSize =
        sub64 (mapAt archive._files (cueIdAt stream offset (i + 1))).fileOffsetRaw
          (mapAt archive._files (cueIdAt stream offset i)).fileOffsetAligned ∧
      add64 (mapAt archive._files (cueIdAt stream offset i)).fileOffsetAligned
          (mapAt archive._files (cueIdAt stream offset i)).fileSize =
        (mapAt archive._files (cueIdAt stream offset (i + 1))).fileOffsetRaw ∧
      ((mapAt archive._files (cueIdAt stream offset i)).fileOffsetAligned ≤
          (mapAt archive._files (cueIdAt stream offset (i + 1))).fileOffsetRaw →
        (mapAt archive._files (cueIdAt stream offset i)).fileOffsetAligned +
            (mapAt archive._files (cueIdAt stream offset i)).fileSize =
          (mapAt archive._files (cueIdAt stream offset (i + 1))).fileOffsetRaw) ∧
      (mapAt archive._files (cueIdAt stream offset i)).fileOffsetRaw =
        tableOffsetAt stream offset i ∧
      (mapAt archive._files (cueIdAt stream offset (i + 1))).fileOffsetRaw =
        tableOffsetAt stream offset (i + 1) := by
  obtain ⟨h1, -, hs, -⟩ := Initialize_ok hok
  have hl0 := Initialize_mapAt hok i (by omega)
    (fun j h1 h2 h => absurd (hdistinct j h2 i (by omega) h) (by omega))
  have hl1 := Initialize_mapAt hok (i + 1) hi
    (fun j h1 h2 h => absurd (hdistinct j h2 (i + 1) hi h) (by omega))
  have hr0 := passRecord_raw RoundUpToAlignment stream offset h1 hs i (by omega)
  have hr1 := passRecord_raw RoundUpToAlignment stream offset h1 hs (i + 1) hi
  generalize passRecord RoundUpToAlignment stream offset (fileCountAt stream offset)
    (0x10 + fileCountAt stream offset * 2) (offsetFieldSizeAt stream offset)
    (2 ^ (8 * offsetFieldSizeAt stream offset) - 1) (byteAlignmentAt stream offset) = fresh
    at hl0 hl1 hr0 hr1
  have hlt : tableOffsetAt stream offset (i + 1) < U64 := Nat.mod_lt _ (by decide)
  have e0 : mapAt archive._files (cueIdAt stream offset i) =
      { fresh i with
        fileSize := sub64 (fresh (i + 1)).fileOffsetRaw (fresh i).fileOffsetAligned } := by
    unfold mapAt
    rw [hl0]
    unfold recordAfter
    rw [if_neg (by omega)]
    rfl
  have e1 : (mapAt archive._files (cueIdAt stream offset (i + 1))).fileOffsetRaw =
      (fresh (i + 1)).fileOffsetRaw := by
    unfold mapAt
    rw [hl1]
    exact recordAfter_raw _ _ _
  rw [e0, e1, hr1]
  simp only [hr0]
  refine ⟨trivial, ?_, ?_, trivial, trivial⟩
  · generalize (fresh i).fileOffsetAligned = a
    generalize tableOffsetAt stream offset (i + 1) = r at hlt
    unfold add64 sub64
    rw [U64_eq] at *
    omega
  · intro hle
    rw [sub64_of_le hlt hle]
    omega

/-- The parsing scenario: the three records are (aligned 0x100, size 0x20),
(aligned 0x120, size 0x40) and (aligned 0x160, size 7), and the record of the
second file ends where the third begins. -/
theorem Initialize_size_chain_witness :
    Initialize roundUpByDivision scenarioArchive 0 =
        .ok { _version := 0x20401, _byteAlignment := 32, _hcaKeyModifier := 0,
              _files := [(0, ⟨0, 0x100, 0x100, 0x20⟩), (1, ⟨1, 0x120, 0x120, 0x40⟩),
                (2, ⟨2, 0x160, 0x160, 7⟩)] } ∧
      (mapAt [(0, ⟨0, 0x100, 0x100, 0x20⟩), (1, ⟨1, 0x120, 0x120, 0x40⟩),
          (2, ⟨2, 0x160, 0x160, 7⟩)] (cueIdAt scenarioArchive 0 1)).fileOffsetAligned +
        (mapAt [(0, ⟨0, 0x100, 0x100, 0x20⟩), (1, ⟨1, 0x120, 0x120, 0x40⟩),
          (2, ⟨2, 0x160, 0x160, 7⟩)] (cueIdAt scenarioArchive 0 1)).fileSize =
        (mapAt [(0, ⟨0, 0x100, 0x100, 0x20⟩), (1, ⟨1, 0x120, 0x120, 0x40⟩),
          (2, ⟨2, 0x160, 0x160, 7⟩)] (cueIdAt scenarioArchive 0 (1 + 1))).fileOffsetRaw :=
  ⟨by decide,
    (Initialize_size_chain roundUpByDivision scenarioArchive 0
      { _version := 0x20401, _byteAlignment := 32, _hcaKeyModifier := 0,
        _files := [(0, ⟨0, 0x100, 0x100, 0x20⟩), (1, ⟨1, 0x120, 0x120, 0x40⟩),
          (2, ⟨2, 0x160, 0x160, 7⟩)] }
      (by decide) (by decide) 1 (by decide)).2.2.1 (by decide)⟩

/-- C13: an archive with the AFS2 signature, a `file_count` `n` from 0 to
65535, an offset field size of at most 4 bytes and pairwise distinct cue ids
is constructed successfully; its file table has exactly `n` records, one
under each cue id of the cue-id table and none under any other key, and none
at all for `n = 0`. -/
theorem Initialize_record_count (RoundUpToAlignment : Nat → Nat → Nat) (stream : Nat → Nat)
    (offset : Nat) (hsig : PeekBytes stream offset 4 = [0x41, 0x46, 0x53, 0x32])
    (h0 : 0 ≤ fileCountAt stream offset) (h1 : fileCountAt stream offset ≤ 65535)
    (hs : offsetFieldSizeAt stream offset ≤ 4)
    (hdistinct : ∀ i < (fileCountAt stream offset).toNat,
      ∀ j < (fileCountAt stream offset).toNat,
        cueIdAt stream offset i = cueIdAt stream offset j → i = j) :
    ∃ archive, Initialize RoundUpToAlignment stream offset = .ok archive ∧
      archive._files.length = (fileCountAt stream offset).toNat ∧
      (∀ i < (fileCountAt stream offset).toNat,
        ∃ record, archive._files.lookup (cueIdAt stream offset i) = some record ∧
          record.cueId = cueIdAt stream offset i) ∧
      (∀ c ∈ archive._files.map Prod.fst,
        ∃ i < (fileCountAt stream offset).toNat, cueIdAt stream offset i = c) ∧
      (fileCountAt stream offset = 0 → archive._files = []) := by
  obtain ⟨archive, hok⟩ := Initialize_of_valid RoundUpToAlignment stream offset
    ((IsAfs2Archive_iff _ _).2 hsig) h0 h1 hs
  have hlen : archive._files.length = (fileCountAt stream offset).toNat := by
    have hcard := List.toFinset_card_of_nodup (Initialize_nodup hok)
    rw [List.length_map] at hcard
    rw [← hcard]
    have himage : (archive._files.map Prod.fst).toFinset =
        (Finset.range (fileCountAt stream offset).toNat).image (cueIdAt stream offset) := by
      ext c
      rw [List.mem_toFinset, Initialize_keys hok, Finset.mem_image]
      constructor
      · rintro ⟨j, hj, hc⟩
        exact ⟨j, Finset.mem_range.2 hj, hc⟩
      · rintro ⟨j, hj, hc⟩
        exact ⟨j, Finset.mem_range.1 hj, hc⟩
    rw [himage, Finset.card_image_of_injOn, Finset.card_range]
    intro i hi j hj hij
    exact hdistinct i (Finset.mem_range.1 hi) j (Finset.mem_range.1 hj) hij
  refine ⟨archive, hok, hlen, ?_, ?_, ?_⟩
  · intro i hi
    refine ⟨_, Initialize_mapAt hok i hi
      (fun j h1 h2 h => absurd (hdistinct j h2 i hi h) (by omega)), ?_⟩
    rw [recordAfter_cueId]
    rfl
  · intro c hc
    obtain ⟨j, hj, hcj⟩ := (Initialize_keys hok c).1 hc
    exact ⟨j, hj, hcj⟩
  · intro hz
    rw [hz] at hlen
    exact List.length_eq_zero.1 hlen

/-- The parsing scenario has three files with the cue ids 0, 1 and 2, and an
archive built from it has three records. -/
theorem Initialize_record_count_witness :
    ∃ archive, Initialize roundUpByDivision scenarioArchive 0 = .ok archive ∧
      archive._files.length = 3 :=
  (Initialize_record_count roundUpByDivision scenarioArchive 0 (by decide) (by decide)
    (by decide) (by decide) (by decide)).imp (fun _ h => ⟨h.1, h.2.1⟩)

/-- C14: in a successfully parsed archive, cue ids repeated or not, the file
table has exactly one record under the cue id of a file `i` that no later
file shares, and the raw and the aligned offset of that record are those of
file `i`: the raw offset is the table entry `(peek_u32_le(offset + 0x10 + 2n +
i*s) & offset_mask) + offset`, the aligned offset is the rounding of it. -/
theorem Initialize_last_record (RoundUpToAlignment : Nat → Nat → Nat) (stream : Nat → Nat)
    (offset : Nat) (archive : CAfs2Archive)
    (hok : Initialize RoundUpToAlignment stream offset = .ok archive) (i : Nat)
    (hi : i < (fileCountAt stream offset).toNat)
    (hlast : ∀ j < (fileCountAt stream offset).toNat, i < j →
      cueIdAt stream offset j ≠ cueIdAt stream offset i) :
    (archive._files.map Prod.fst).count (cueIdAt stream offset i) = 1 ∧
      ∃ record, archive._files.lookup (cueIdAt stream offset i) = some record ∧
        record.cueId = cueIdAt stream offset i ∧
        record.fileOffsetRaw = tableOffsetAt stream offset i ∧
        record.fileOffsetAligned =
          RoundUpToAlignment (tableOffsetAt stream offset i) (byteAlignmentAt stream offset) := by
  obtain ⟨h1, -, hs, -⟩ := Initialize_ok hok
  have hraw := passRecord_raw RoundUpToAlignment stream offset h1 hs i hi
  refine ⟨List.count_eq_one_of_mem (Initialize_nodup hok)
    ((Initialize_keys hok _).2 ⟨i, hi, rfl⟩), _,
    Initialize_mapAt hok i hi (fun j h1 h2 => hlast j h2 h1), ?_, ?_, ?_⟩
  · rw [recordAfter_cueId]; rfl
  · rw [recordAfter_raw]; exact hraw
  · rw [recordAfter_aligned, ← hraw]; rfl

/-- The files 0 and 2 of `repeatedCueArchive` share the cue id 7: the one
record under 7 has the raw offset 0x48 of file 2 and its rounding 0x50. -/
theorem Initialize_last_record_witness :
    ([(5, (⟨5, 0x30, 0x30, 0x18⟩ : AFS2_FILE_RECORD)), (7, ⟨7, 0x48, 0x50, 8⟩)].map
        Prod.fst).count (cueIdAt repeatedCueArchive 0 2) = 1 ∧
      ∃ record, List.lookup (cueIdAt repeatedCueArchive 0 2)
          [(5, (⟨5, 0x30, 0x30, 0x18⟩ : AFS2_FILE_RECORD)), (7, ⟨7, 0x48, 0x50, 8⟩)] =
            some record ∧
        record.cueId = cueIdAt repeatedCueArchive 0 2 ∧
        record.fileOffsetRaw = tableOffsetAt repeatedCueArchive 0 2 ∧
        record.fileOffsetAligned =
          roundUpByDivision (tableOffsetAt repeatedCueArchive 0 2)
            (byteAlignmentAt repeatedCueArchive 0) :=
  Initialize_last_record roundUpByDivision repeatedCueArchive 0
    { _version := 0x20201, _byteAlignment := 16, _hcaKeyModifier := 0,
      _files := [(5, ⟨5, 0x30, 0x30, 0x18⟩), (7, ⟨7, 0x48, 0x50, 8⟩)] }
    (by decide) 2 (by decide) (by decide)

/-- C12: `shortOffsetArchive` has one file and 2-byte offsets, with the
sentinel 0x30 followed by the file data. `Initialize` records the size
`0x43480030 - 22`, taking the sentinel with the two bytes behind it, where the
sentinel masked to 2 bytes gives `0x30 - 22 = 26`. -/
theorem Initialize_sentinel_unmasked :
    Initialize roundUpByDivision shortOffsetArchive 0 =
        .ok { _version := 0x20201, _byteAlignment := 2, _hcaKeyModifier := 0,
              _files := [(0, ⟨0, 22, 22, 0x43480030 - 22⟩)] } ∧
      offsetFieldSizeAt shortOffsetArchive 0 = 2 ∧
      (PeekUInt32LE shortOffsetArchive (0 + 0x10 + 2 * 1 + 1 * 2) &&& (2 ^ (8 * 2) - 1)) + 0 -
        22 = 26 := by
  decide


/-! ## The position across `Read` -/

theorem GetWaveHeaderSize_position (w : WaveSettings) (d : CHcaDecoder) :
    (GetWaveHeaderSize w d).2._position = d._position := by
  unfold GetWaveHeaderSize
  split <;> rfl

theorem GetWaveBlockSize_position (w : WaveSettings) (d : CHcaDecoder) :
    (GetWaveBlockSize w d).2._position = d._position := by
  unfold GetWaveBlockSize
  split <;> rfl

theorem GenerateWaveHeader_position (env : Environment) (d : CHcaDecoder) :
    (GenerateWaveHeader env d).2._position = d._position := by
  unfold GenerateWaveHeader
  split
  · rfl
  · exact GetWaveHeaderSize_position env.wave d

theorem DecodeBlock_position (env : Environment) (blockIndex : Nat) (d : CHcaDecoder) :
    (DecodeBlock env blockIndex d).2._position = d._position := by
  have hg := GetWaveBlockSize_position env.wave d
  unfold DecodeBlock
  rcases hB : GetWaveBlockSize env.wave d with ⟨B, d1⟩
  rw [hB] at hg
  cases d._decodedBlocks.lookup blockIndex with
  | some b => rfl
  | none =>
    simp only
    cases env.pipeline d1.pipelineRuns blockIndex with
    | error e => exact hg
    | ok pcm => exact hg

theorem headerChoice_position (w : WaveSettings) (d : CHcaDecoder) :
    (if d.decoderConfig.waveHeaderEnabled = true then GetWaveHeaderSize w d
      else (0, d)).2._position = d._position := by
  split
  · exact GetWaveHeaderSize_position w d
  · rfl

theorem MapLoopedPosition_position (w : WaveSettings) (p : Nat) (d : CHcaDecoder) :
    (MapLoopedPosition w p d).2._position = d._position := by
  have hh := headerChoice_position w d
  unfold MapLoopedPosition
  rcases hH : (if d.decoderConfig.waveHeaderEnabled = true then GetWaveHeaderSize w d
      else (0, d)) with ⟨H, d1⟩
  rw [hH] at hh
  have hb := GetWaveBlockSize_position w d1
  simp only
  split_ifs <;> first | exact hh | exact hb.trans hh

theorem GetLength_position (w : WaveSettings) (d : CHcaDecoder) :
    (GetLength w d).2._position = d._position := by
  unfold GetLength
  by_cases hl : (d.hcaInfo.loopExists && d.decoderConfig.loopEnabled) = true
  · rw [if_pos hl]
    by_cases h0 : d.decoderConfig.loopCount = 0
    · rw [if_pos h0]
    · rw [if_neg h0]
      have hh := GetWaveHeaderSize_position w d
      rcases hH : GetWaveHeaderSize w d with ⟨H, d1⟩
      rw [hH] at hh
      by_cases hen : d.decoderConfig.waveHeaderEnabled = true
      · simp only [hen, if_true]
        have hb := GetWaveBlockSize_position w d1
        rcases hB : GetWaveBlockSize w d1 with ⟨B, d2⟩
        rw [hB] at hb
        have hb2 := GetWaveBlockSize_position w d2
        rcases hB2 : GetWaveBlockSize w d2 with ⟨B2, d3⟩
        rw [hB2] at hb2
        exact hb2.trans (hb.trans hh)
      · simp only [hen, Bool.false_eq_true, if_false]
        have hb := GetWaveBlockSize_position w d
        rcases hB : GetWaveBlockSize w d with ⟨B, d2⟩
        rw [hB] at hb
        have hb2 := GetWaveBlockSize_position w d2
        rcases hB2 : GetWaveBlockSize w d2 with ⟨B2, d3⟩
        rw [hB2] at hb2
        exact hb2.trans hb
  · rw [if_neg hl]
    by_cases hen : d.decoderConfig.waveHeaderEnabled = true
    · rw [if_pos hen]
      have hh := GetWaveHeaderSize_position w d
      rcases hH : GetWaveHeaderSize w d with ⟨H, d1⟩
      rw [hH] at hh
      exact (GetWaveBlockSize_position w d1).trans hh
    · rw [if_neg hen]
      have hb := GetWaveBlockSize_position w d
      rcases hB : GetWaveBlockSize w d with ⟨B, d2⟩
      rw [hB] at hb
      exact hb

/-- The copy loop keeps the position member, keeps `totalRead + bufferSize`,
and moves `streamPosition` by what it adds to `totalRead`. -/
theorem ReadLoop_advance (env : Environment) (L H B : Nat) :
    ∀ (fuel : Nat) (v : ReadLocals) (d : CHcaDecoder),
      v.totalRead + v.bufferSize < U64 → v.streamPosition < U64 →
      (ReadLoop env L H B fuel v d).2.2._position = d._position ∧
        (ReadLoop env L H B fuel v d).2.1.totalRead +
            (ReadLoop env L H B fuel v d).2.1.bufferSize = v.totalRead + v.bufferSize ∧
        v.totalRead ≤ (ReadLoop env L H B fuel v d).2.1.totalRead ∧
        (ReadLoop env L H B fuel v d).2.1.streamPosition =
          add64 v.streamPosition ((ReadLoop env L H B fuel v d).2.1.totalRead - v.totalRead) := by
  intro fuel
  induction fuel with
  | zero =>
    intro v d _ hsp
    refine ⟨rfl, rfl, le_refl _, ?_⟩
    show v.streamPosition = add64 v.streamPosition (v.totalRead - v.totalRead)
    rw [Nat.sub_self]
    exact (Nat.mod_eq_of_lt hsp).symm
  | succ fuel ih =>
    intro v d hsum hsp
    have hbase : v.streamPosition = add64 v.streamPosition (v.totalRead - v.totalRead) := by
      rw [Nat.sub_self]
      exact (Nat.mod_eq_of_lt hsp).symm
    rw [ReadLoop]
    by_cases hcond : v.bufferSize > 0 ∧ v.mappedPosition < L
    · rw [if_pos hcond]
      by_cases hB : B = 0
      · rw [if_pos hB]
        exact ⟨rfl, rfl, le_refl _, hbase⟩
      · rw [if_neg hB]
        have hdp := DecodeBlock_position env (sub64 v.mappedPosition H / B % U32) d
        rcases hD : DecodeBlock env (sub64 v.mappedPosition H / B % U32) d with ⟨r, d1⟩
        rw [hD] at hdp
        simp only [hD]
        cases r with
        | error e => exact ⟨hdp, rfl, le_refl _, hbase⟩
        | ok blockData =>
          simp only
          generalize hcl : min (sub64 L v.mappedPosition)
            (min (sub64 B (sub64 v.mappedPosition H % B)) v.bufferSize) = cl
          have hle : cl ≤ v.bufferSize := by
            rw [← hcl]
            exact le_trans (Nat.min_le_right _ _) (Nat.min_le_right _ _)
          have e_bs : sub64 v.bufferSize cl = v.bufferSize - cl :=
            sub64_of_le (by omega) hle
          have e_tr : add64 v.totalRead cl = v.totalRead + cl := add64_of_lt (by omega)
          have hspl : add64 v.streamPosition cl < U64 := Nat.mod_lt _ (by decide)
          rw [e_bs, e_tr]
          obtain ⟨i1, i2, i3, i4⟩ := ih
            { streamPosition := add64 v.streamPosition cl
              bufferSize := v.bufferSize - cl
              offset := add64 v.offset cl
              totalRead := v.totalRead + cl
              mappedPosition := add64 v.mappedPosition cl
              written := v.written ++ slice blockData (sub64 v.mappedPosition H % B) cl } d1
            (by show v.totalRead + cl + (v.bufferSize - cl) < U64; omega) hspl
          generalize ReadLoop env L H B fuel
            { streamPosition := add64 v.streamPosition cl
              bufferSize := v.bufferSize - cl
              offset := add64 v.offset cl
              totalRead := v.totalRead + cl
              mappedPosition := add64 v.mappedPosition cl
              written := v.written ++ slice blockData (sub64 v.mappedPosition H % B) cl } d1 = res
            at i1 i2 i3 i4 ⊢
          simp only at i1 i2 i3 i4
          refine ⟨i1.trans hdp, by omega, by omega, ?_⟩
          rw [i4]
          unfold add64
          rw [U64_eq]
          omega
    · rw [if_neg hcond]
      exact ⟨rfl, rfl, le_refl _, hbase⟩

/-- The end of `Read` behind the copy loop: a normal return gives back
`totalRead` and sets the position to `streamPosition`. -/
theorem ReadLoop_return (env : Environment) (L H B fuel : Nat) (v : ReadLocals)
    (d : CHcaDecoder) (hsum : v.totalRead + v.bufferSize < U64)
    (hsp : v.streamPosition < U64) (res : ReadResult) (n : Nat)
    (hres : (match ReadLoop env L H B fuel v d with
      | (some e, v, d) => ({ result := .error e, written := v.written, decoder := d } :
          ReadResult)
      | (none, v, d) =>
        { result := .ok v.totalRead, written := v.written,
          decoder := SetPosition v.streamPosition d }) = res)
    (hn : res.result = .ok n) :
    res.decoder._position = add64 v.streamPosition (n - v.totalRead) ∧ v.totalRead ≤ n ∧
      n ≤ v.totalRead + v.bufferSize := by
  obtain ⟨-, i2, i3, i4⟩ := ReadLoop_advance env L H B fuel v d hsum hsp
  rcases hR : ReadLoop env L H B fuel v d with ⟨r, v1, d1⟩
  rw [hR] at hres i2 i3 i4
  simp only at i2 i3 i4
  cases r with
  | some e =>
    simp only at hres
    subst hres
    cases hn
  | none =>
    simp only at hres
    subst hres
    injection hn with hn
    subst hn
    exact ⟨i4, i3, by omega⟩

/-- C21: a call of `Read` that returns normally with the value `n` leaves the
position at the position before the call plus `n`, taken as 64-bit integers,
and `n` is at most `count`; when the position before the call plus `count`
is below `2^64` the sum is the plain one and the position has not moved
backwards. This covers the zero-count return, the end-of-stream return, the
header-only return and the return behind the copy loop. -/
theorem Read_moves_position (env : Environment) (buffer : Bool)
    (bufferSize offset count : Nat) (d : CHcaDecoder) (n : Nat) (hp : d._position < U64)
    (hn : (Read env buffer bufferSize offset count d).result = .ok n) :
    (Read env buffer bufferSize offset count d).decoder._position = add64 d._position n ∧
      n ≤ count ∧
      (d._position + count < U64 →
        (Read env buffer bufferSize offset count d).decoder._position = d._position + n ∧
          d._position ≤ (Read env buffer bufferSize offset count d).decoder._position) := by
  suffices h : (Read env buffer bufferSize offset count d).decoder._position =
      add64 d._position n ∧ n ≤ count by
    refine ⟨h.1, h.2, fun hfit => ?_⟩
    rw [h.1, add64_of_lt (by omega)]
    exact ⟨rfl, Nat.le_add_right _ _⟩
  generalize hres : Read env buffer bufferSize offset count d = res at hn ⊢
  have hp0 : d._position = add64 d._position 0 := (Nat.mod_eq_of_lt hp).symm
  unfold Read at hres
  cases buffer with
  | false =>
    simp only [Bool.not_false, if_true] at hres
    subst hres
    cases hn
  | true =>
    simp only [Bool.not_true, Bool.false_eq_true, if_false] at hres
    have hbs64 : min count (sub64 bufferSize offset) < U64 :=
      lt_of_le_of_lt (Nat.min_le_right _ _) (Nat.mod_lt _ (by decide))
    have hbsc : min count (sub64 bufferSize offset) ≤ count := Nat.min_le_left _ _
    generalize min count (sub64 bufferSize offset) = bs at hres hbs64 hbsc
    by_cases hbs : bs = 0
    · rw [if_pos hbs] at hres
      subst hres
      injection hn with hn
      subst hn
      subst hbs
      exact ⟨hp0, Nat.zero_le _⟩
    · rw [if_neg hbs] at hres
      have pM := MapLoopedPosition_position env.wave (GetPosition d) d
      rcases hM : MapLoopedPosition env.wave (GetPosition d) d with ⟨rm, d1⟩
      rw [hM] at hres pM
      cases rm with
      | error e =>
        simp only at hres
        subst hres
        cases hn
      | ok m =>
        simp only at hres
        have pL := GetLength_position env.wave d1
        rcases hL : GetLength env.wave d1 with ⟨rl, d2⟩
        rw [hL] at hres pL
        cases rl with
        | error e =>
          simp only at hres
          subst hres
          cases hn
        | ok L =>
          simp only at hres
          by_cases hge : m ≥ L
          · rw [if_pos hge] at hres
            subst hres
            injection hn with hn
            subst hn
            exact ⟨by rw [← hp0]; exact pL.trans pM, Nat.zero_le _⟩
          · rw [if_neg hge] at hres
            have pH := headerChoice_position env.wave d2
            rcases hH : (if d2.decoderConfig.waveHeaderEnabled = true then
                GetWaveHeaderSize env.wave d2 else (0, d2)) with ⟨H, d3⟩
            rw [hH] at hres pH
            simp only at hres pH
            have hgp : GetPosition d = d._position := rfl
            rw [hgp] at hres
            by_cases hmH : m < H
            · rw [if_pos hmH] at hres
              have pG := GenerateWaveHeader_position env d3
              generalize hhc : min (sub64 H m) bs = hcl at hres
              have hle : hcl ≤ bs := by rw [← hhc]; exact Nat.min_le_right _ _
              by_cases hall : bs ≤ hcl
              · rw [if_pos hall] at hres
                subst hres
                injection hn with hn
                subst hn
                have : hcl = bs := le_antisymm hle hall
                rw [this]
                exact ⟨rfl, hbsc⟩
              · rw [if_neg hall] at hres
                have e_bs : sub64 bs hcl = bs - hcl := sub64_of_le hbs64 hle
                have e_tr : add64 0 hcl = hcl := by
                  rw [add64_of_lt (by omega)]; omega
                rw [e_bs, e_tr] at hres
                obtain ⟨r1, r2, r3⟩ := ReadLoop_return env L H _ _ _ _
                  (by show hcl + (bs - hcl) < U64; omega)
                  (by show add64 d._position hcl < U64; exact Nat.mod_lt _ (by decide))
                  res n hres hn
                simp only at r1 r2 r3
                refine ⟨?_, by omega⟩
                rw [r1]
                unfold add64
                rw [U64_eq]
                omega
            · rw [if_neg hmH] at hres
              obtain ⟨r1, r2, r3⟩ := ReadLoop_return env L H _ _ _ _
                (by show 0 + bs < U64; omega) (by show d._position < U64; exact hp)
                res n hres hn
              simp only at r1 r2 r3
              exact ⟨by rw [r1, Nat.sub_zero], by omega⟩

set_option maxRecDepth 10000 in
/-- C21, witness: on the one-channel stream (header 112) five bytes from
position 110 go through the header and the copy loop, fifty bytes from
position 0 stay in the header; on the stream without loop (length 24620) a
call at the end returns 0, and a call for no bytes returns 0. -/
theorem Read_moves_position_witness :
    (Read (rampEnvironment pcm16Wave) true 5 0 5
        (SetPosition 110 (monoDecoder 1))).decoder._position = 110 + 5 ∧
      (Read (rampEnvironment pcm16Wave) true 50 0 50 (monoDecoder 1)).decoder._position =
        0 + 50 ∧
      (Read (rampEnvironment pcm16Wave) true 5 0 5
        (SetPosition 24620 (CHcaDecoder.create plainInfo plainConfig))).decoder._position =
        24620 + 0 ∧
      (Read (rampEnvironment pcm16Wave) true 5 0 0
        (SetPosition 7 (monoDecoder 1))).decoder._position = 7 + 0 :=
  ⟨((Read_moves_position (rampEnvironment pcm16Wave) true 5 0 5
      (SetPosition 110 (monoDecoder 1)) 5 (by decide) (by decide)).2.2 (by decide)).1,
    ((Read_moves_position (rampEnvironment pcm16Wave) true 50 0 50 (monoDecoder 1) 50
      (by decide) (by decide)).2.2 (by decide)).1,
    ((Read_moves_position (rampEnvironment pcm16Wave) true 5 0 5
      (SetPosition 24620 (CHcaDecoder.create plainInfo plainConfig)) 0 (by decide)
      (by decide)).2.2 (by decide)).1,
    ((Read_moves_position (rampEnvironment pcm16Wave) true 5 0 0
      (SetPosition 7 (monoDecoder 1)) 0 (by decide) (by decide)).2.2 (by decide)).1⟩


/-! ## The block indices that `Read` asks for -/

theorem DecodeBlock_runs (env : Environment) (i : Nat) (d : CHcaDecoder) :
    ∀ k ∈ (DecodeBlock env i d).2.pipelineRuns, k ∈ d.pipelineRuns ∨ k = i := by
  have hg : (GetWaveBlockSize env.wave d).2.pipelineRuns = d.pipelineRuns := by
    unfold GetWaveBlockSize
    split <;> rfl
  unfold DecodeBlock
  rcases hB : GetWaveBlockSize env.wave d with ⟨B, d1⟩
  rw [hB] at hg
  simp only at hg
  cases d._decodedBlocks.lookup i with
  | some b => intro k hk; exact Or.inl hk
  | none =>
    simp only
    cases env.pipeline d1.pipelineRuns i with
    | error e =>
      intro k hk
      simp only [List.mem_cons] at hk
      rcases hk with hk | hk
      · exact Or.inr hk
      · exact Or.inl (hg ▸ hk)
    | ok pcm =>
      intro k hk
      simp only [List.mem_cons] at hk
      rcases hk with hk | hk
      · exact Or.inr hk
      · exact Or.inl (hg ▸ hk)

/-- The copy loop entered at or behind the header: every block index `k` that
goes to the pipeline has `k * waveBlockSize` below `waveStreamLength -
waveHeaderSize`. -/
theorem ReadLoop_runs (env : Environment) (L H B : Nat) (hL : L < U64) :
    ∀ (fuel : Nat) (v : ReadLocals) (d : CHcaDecoder), H ≤ v.mappedPosition →
      ∀ k ∈ (ReadLoop env L H B fuel v d).2.2.pipelineRuns,
        k ∈ d.pipelineRuns ∨ k * B < L - H := by
  intro fuel
  induction fuel with
  | zero => intro v d _ k hk; exact Or.inl hk
  | succ fuel ih =>
    intro v d hH k hk
    rw [ReadLoop] at hk
    by_cases hcond : v.bufferSize > 0 ∧ v.mappedPosition < L
    · rw [if_pos hcond] at hk
      by_cases hB : B = 0
      · rw [if_pos hB] at hk
        exact Or.inl hk
      · rw [if_neg hB] at hk
        have hsub : sub64 v.mappedPosition H = v.mappedPosition - H :=
          sub64_of_le (by omega) hH
        have hidx : (v.mappedPosition - H) / B % U32 * B < L - H := by
          have h1 : (v.mappedPosition - H) / B % U32 ≤ (v.mappedPosition - H) / B :=
            Nat.mod_le _ _
          have h2 : (v.mappedPosition - H) / B * B ≤ v.mappedPosition - H :=
            Nat.div_mul_le_self _ _
          have h3 := Nat.mul_le_mul_right B h1
          omega
        have hruns := DecodeBlock_runs env (sub64 v.mappedPosition H / B % U32) d
        rcases hD : DecodeBlock env (sub64 v.mappedPosition H / B % U32) d with ⟨r, d1⟩
        rw [hD] at hruns
        simp only [hD] at hk
        cases r with
        | error e =>
          simp only at hk
          rcases hruns k hk with h | h
          · exact Or.inl h
          · right; rw [h, hsub]; exact hidx
        | ok blockData =>
          simp only at hk
          generalize hcl : min (sub64 L v.mappedPosition)
            (min (sub64 B (sub64 v.mappedPosition H % B)) v.bufferSize) = cl at hk
          have hle : cl ≤ L - v.mappedPosition := by
            rw [← hcl, ← sub64_of_le hL (le_of_lt hcond.2)]
            exact Nat.min_le_left _ _
          have hmp : add64 v.mappedPosition cl = v.mappedPosition + cl :=
            add64_of_lt (by omega)
          rw [hmp] at hk
          rcases ih _ d1 (by show H ≤ v.mappedPosition + cl; omega) k hk with h | h
          · rcases hruns k h with h | h
            · exact Or.inl h
            · right; rw [h, hsub]; exact hidx
          · exact Or.inr h
    · rw [if_neg hcond] at hk
      exact Or.inl hk

theorem ReadLoop_return_runs (env : Environment) (L H B fuel : Nat) (v : ReadLocals)
    (d : CHcaDecoder) (res : ReadResult)
    (hres : (match ReadLoop env L H B fuel v d with
      | (some e, v, d) => ({ result := .error e, written := v.written, decoder := d } :
          ReadResult)
      | (none, v, d) =>
        { result := .ok v.totalRead, written := v.written,
          decoder := SetPosition v.streamPosition d }) = res) :
    res.decoder.pipelineRuns = (ReadLoop env L H B fuel v d).2.2.pipelineRuns := by
  subst hres
  rcases ReadLoop env L H B fuel v d with ⟨r, v1, d1⟩
  cases r <;> rfl

theorem lengthValue_le_blocks {w : WaveSettings} {d : CHcaDecoder} {L : Nat}
    (hno : ¬(d.hcaInfo.loopExists = true ∧ d.decoderConfig.loopEnabled = true))
    (hLv : lengthValue w d = .ok L) :
    L - headerSize w d ≤ d.hcaInfo.blockCount * waveBlockSize w d.hcaInfo := by
  have hact : ¬(d.hcaInfo.loopExists && d.decoderConfig.loopEnabled) = true := by
    rw [Bool.and_eq_true]; exact hno
  unfold lengthValue at hLv
  rw [if_neg hact] at hLv
  unfold headerSize
  by_cases hen : d.decoderConfig.waveHeaderEnabled = true
  · rw [if_pos hen] at hLv ⊢
    injection hLv with hLv
    have h1 : L ≤ sizeNeeded w d.hcaInfo +
        mul32 (waveBlockSize w d.hcaInfo) d.hcaInfo.blockCount := by
      rw [← hLv]; exact Nat.mod_le _ _
    have h2 : mul32 (waveBlockSize w d.hcaInfo) d.hcaInfo.blockCount ≤
        waveBlockSize w d.hcaInfo * d.hcaInfo.blockCount := Nat.mod_le _ _
    rw [Nat.mul_comm d.hcaInfo.blockCount]
    omega
  · rw [if_neg hen] at hLv ⊢
    injection hLv with hLv
    have h2 : mul64 (waveBlockSize w d.hcaInfo) d.hcaInfo.blockCount ≤
        waveBlockSize w d.hcaInfo * d.hcaInfo.blockCount := Nat.mod_le _ _
    rw [Nat.mul_comm d.hcaInfo.blockCount]
    omega

/-- Every block index `k` that a call of `Read` sends to the pipeline has
`k * waveBlockSize` below `GetLength()` less the header size. -/
theorem Read_runs (env : Environment) (bufferSize offset count : Nat) (d : CHcaDecoder)
    (L : Nat) (hc : d.CacheOk env.wave) (hLv : lengthValue env.wave d = .ok L) :
    ∀ k ∈ (Read env true bufferSize offset count d).decoder.pipelineRuns,
      k ∈ d.pipelineRuns ∨
        k * waveBlockSize env.wave d.hcaInfo < L - headerSize env.wave d := by
  have hL64 : L < U64 := lengthValue_lt hLv
  have hH32 := headerSize_lt env.wave d
  have h3264 : U32 ≤ U64 := by decide
  generalize hres : Read env true bufferSize offset count d = res
  unfold Read at hres
  simp only [Bool.not_true, Bool.false_eq_true, if_false] at hres
  have hbs64 : min count (sub64 bufferSize offset) < U64 :=
    lt_of_le_of_lt (Nat.min_le_right _ _) (Nat.mod_lt _ (by decide))
  generalize min count (sub64 bufferSize offset) = bs at hres hbs64
  by_cases hbs : bs = 0
  · rw [if_pos hbs] at hres
    subst hres
    exact fun k hk => Or.inl hk
  · rw [if_neg hbs] at hres
    obtain ⟨d1, e1, s1⟩ := MapLoopedPosition_eq hc (GetPosition d)
    rw [e1] at hres
    cases hm : mappedValue env.wave d (GetPosition d) with
    | error e =>
      rw [hm] at hres
      simp only at hres
      subst hres
      intro k hk
      exact Or.inl (s1.2.2.2.2.2.2 ▸ hk)
    | ok m =>
      rw [hm] at hres
      simp only at hres
      obtain ⟨d2, e2, s2⟩ := GetLength_eq s1.1
      have s12 := SizesOnly_trans s1 s2
      rw [e2, lengthValue_congr s1, hLv] at hres
      simp only at hres
      by_cases hge : m ≥ L
      · rw [if_pos hge] at hres
        subst hres
        intro k hk
        exact Or.inl (s12.2.2.2.2.2.2 ▸ hk)
      · rw [if_neg hge] at hres
        have hhead : ∃ d3, (if d2.decoderConfig.waveHeaderEnabled = true then
            GetWaveHeaderSize env.wave d2 else (0, d2)) = (headerSize env.wave d, d3) ∧
            d.SizesOnly env.wave d3 := by
          unfold headerSize
          rw [← s12.2.2.1, ← s12.2.1]
          by_cases hen : d2.decoderConfig.waveHeaderEnabled = true
          · rw [if_pos hen, if_pos hen, GetWaveHeaderSize_eq s2.1]
            exact ⟨_, rfl, SizesOnly_trans s12 (SizesOnly_withHeaderSize s2.1)⟩
          · rw [if_neg hen, if_neg hen]
            exact ⟨_, rfl, s12⟩
        obtain ⟨d3, e3, s3⟩ := hhead
        rw [e3] at hres
        simp only at hres
        generalize headerSize env.wave d = H at hres hH32 ⊢
        have hB3 : waveBlockSize env.wave d3.hcaInfo = waveBlockSize env.wave d.hcaInfo := by
          rw [s3.2.1]
        by_cases hmH : m < H
        · rw [if_pos hmH] at hres
          obtain ⟨d4, e4, c4, i4, g4, p4, b4, r4⟩ := GenerateWaveHeader_eq s3.1
          rw [e4] at hres
          simp only at hres
          have hsubH : sub64 H m = H - m := sub64_of_le (by omega) (by omega)
          rw [hsubH] at hres
          by_cases hall : bs ≤ min (H - m) bs
          · rw [if_pos hall] at hres
            subst hres
            intro k hk
            left
            have hk' : k ∈ d4.pipelineRuns := hk
            rw [r4, s3.2.2.2.2.2.2] at hk'
            exact hk'
          · rw [if_neg hall] at hres
            have hmin : min (H - m) bs = H - m := Nat.min_eq_left (by omega)
            rw [hmin, GetWaveBlockSize_eq c4] at hres
            simp only at hres
            have hmp : add64 m (H - m) = H := by
              rw [add64_of_lt (by omega)]; omega
            rw [hmp, i4, hB3] at hres
            have hr := ReadLoop_return_runs env L H _ _ _ _ res hres
            intro k hk
            rw [hr] at hk
            rcases ReadLoop_runs env L H _ hL64 _ _ _ (le_refl H) k hk with h | h
            · left
              have hk' : k ∈ d4.pipelineRuns := h
              rw [r4, s3.2.2.2.2.2.2] at hk'
              exact hk'
            · exact Or.inr h
        · rw [if_neg hmH, GetWaveBlockSize_eq s3.1, hB3] at hres
          simp only at hres
          have hr := ReadLoop_return_runs env L H _ _ _ _ res hres
          intro k hk
          rw [hr] at hk
          rcases ReadLoop_runs env L H _ hL64 _ _ _ (by show H ≤ m; omega) k hk with h | h
          · left
            have hk' : k ∈ d3.pipelineRuns := h
            rw [s3.2.2.2.2.2.2] at hk'
            exact hk'
          · exact Or.inr h

/-- Without active looping every block index that a call of `Read` sends to
the pipeline is below `block_count`. -/
theorem Read_runs_no_loop (env : Environment) (bufferSize offset count : Nat)
    (d : CHcaDecoder) (hc : d.CacheOk env.wave)
    (hno : ¬(d.hcaInfo.loopExists = true ∧ d.decoderConfig.loopEnabled = true)) :
    ∀ k ∈ (Read env true bufferSize offset count d).decoder.pipelineRuns,
      k ∈ d.pipelineRuns ∨ k < d.hcaInfo.blockCount := by
  have hact : ¬(d.hcaInfo.loopExists && d.decoderConfig.loopEnabled) = true := by
    rw [Bool.and_eq_true]; exact hno
  cases hLv : lengthValue env.wave d with
  | error e =>
    unfold lengthValue at hLv
    rw [if_neg hact] at hLv
    split at hLv <;> cases hLv
  | ok L =>
    intro k hk
    rcases Read_runs env bufferSize offset count d L hc hLv k hk with h | h
    · exact Or.inl h
    · right
      have hle := lengthValue_le_blocks hno hLv
      exact Nat.lt_of_mul_lt_mul_right (lt_of_lt_of_le h hle)


set_option maxRecDepth 100000 in
/-- C22: on the one-channel stream of six blocks with a loop over blocks 2 to
4, read with `loop_count = 2`, `GetLength()` is 16496 and one call of `Read`
for 16496 bytes from position 0 returns 16496 and sends the block indices 0
to 7 to the underlying stream: 6 and 7 are not below `block_count = 6`. -/
theorem Read_requests_block_beyond_end :
    (GetLength pcm16Wave (monoDecoder 2)).1 = .ok 16496 ∧
      (monoDecoder 2).hcaInfo.blockCount = 6 ∧
      (Read (rampEnvironment pcm16Wave) true 16496 0 16496 (monoDecoder 2)).result =
        .ok 16496 ∧
      (Read (rampEnvironment pcm16Wave) true 16496 0 16496
        (monoDecoder 2)).decoder.pipelineRuns = [7, 6, 5, 4, 3, 2, 1, 0] := by
  decide

/-! ## The PCM emit -/

theorem length_foldl_set (n cursor : Nat) (g : Nat → Nat) (buffer : List Nat) :
    ((List.range n).foldl (fun buffer t => buffer.set (cursor + t) (g t)) buffer).length =
      buffer.length := by
  induction n with
  | zero => rfl
  | succ n ih =>
    rw [List.range_succ, List.foldl_append, List.foldl_cons, List.foldl_nil, List.length_set, ih]

/-- A call of the converter with room for the sample: the cursor moves by
`bytesPerSample`, the buffer keeps its size, the sample is on record. -/
theorem emitSample_fits {α : Type} (bytesPerSample : Nat) (encode : α → Nat → Nat)
    (st : EmitState α) (f : α) (hlen : st.waveBlockBuffer.length < U32)
    (hroom : st.cursor + bytesPerSample ≤ st.waveBlockBuffer.length) :
    ∃ st', emitSample (sampleConverter bytesPerSample encode) st f = .ok st' ∧
      st'.cursor = st.cursor + bytesPerSample ∧
      st'.waveBlockBuffer.length = st.waveBlockBuffer.length ∧
      st'.calls = st.calls ++ [f] := by
  unfold emitSample sampleConverter
  rw [if_pos hroom]
  refine ⟨_, rfl, ?_, ?_, rfl⟩
  · show add32 st.cursor bytesPerSample % U32 = _
    rw [add32_of_lt (by omega)]
    exact Nat.mod_eq_of_lt (by omega)
  · exact length_foldl_set _ _ _ _

/-- A call of the converter without room for the sample stores outside the
buffer. -/
theorem emitSample_overruns {α : Type} (bytesPerSample : Nat) (encode : α → Nat → Nat)
    (st : EmitState α) (f : α)
    (hroom : st.waveBlockBuffer.length < st.cursor + bytesPerSample) :
    emitSample (sampleConverter bytesPerSample encode) st f = .error .Undefined := by
  unfold emitSample sampleConverter
  rw [if_neg (by omega)]

/-- A loop over steps that each move the cursor by `c`, with room for all of
them. -/
theorem foldlM_fits {α β : Type} (step : EmitState α → β → Except CException (EmitState α))
    (c : Nat) (tr : β → List α)
    (hok : ∀ st x, st.waveBlockBuffer.length < U32 →
      st.cursor + c ≤ st.waveBlockBuffer.length →
      ∃ st', step st x = .ok st' ∧ st'.cursor = st.cursor + c ∧
        st'.waveBlockBuffer.length = st.waveBlockBuffer.length ∧
        st'.calls = st.calls ++ tr x) :
    ∀ (xs : List β) (st : EmitState α), st.waveBlockBuffer.length < U32 →
      st.cursor + xs.length * c ≤ st.waveBlockBuffer.length →
      ∃ st', xs.foldlM step st = .ok st' ∧ st'.cursor = st.cursor + xs.length * c ∧
        st'.waveBlockBuffer.length = st.waveBlockBuffer.length ∧
        st'.calls = st.calls ++ xs.flatMap tr := by
  intro xs
  induction xs with
  | nil =>
    intro st _ _
    exact ⟨st, rfl, by simp, rfl, by simp⟩
  | cons x xs ih =>
    intro st hlen hroom
    rw [List.length_cons, Nat.add_mul, Nat.one_mul] at hroom
    obtain ⟨st1, h1, c1, l1, t1⟩ := hok st x hlen (by omega)
    obtain ⟨st2, h2, c2, l2, t2⟩ := ih st1 (by omega) (by omega)
    refine ⟨st2, ?_, ?_, l2.trans l1, ?_⟩
    · rw [List.foldlM_cons, h1]
      exact h2
    · rw [c2, c1, List.length_cons, Nat.add_mul, Nat.one_mul]
      omega
    · rw [t2, t1, List.flatMap_cons, List.append_assoc]

/-- A loop over steps that each move the cursor by `c > 0`, without room for
all of them: one of the steps stores outside the buffer. -/
theorem foldlM_overruns {α β : Type}
    (step : EmitState α → β → Except CException (EmitState α)) (c : Nat)
    (hok : ∀ st x, st.waveBlockBuffer.length < U32 →
      st.cursor + c ≤ st.waveBlockBuffer.length →
      ∃ st', step st x = .ok st' ∧ st'.cursor = st.cursor + c ∧
        st'.waveBlockBuffer.length = st.waveBlockBuffer.length)
    (hfail : ∀ st x, st.waveBlockBuffer.length < U32 →
      st.cursor ≤ st.waveBlockBuffer.length → st.waveBlockBuffer.length < st.cursor + c →
      step st x = .error .Undefined) :
    ∀ (xs : List β) (st : EmitState α), st.waveBlockBuffer.length < U32 →
      st.cursor ≤ st.waveBlockBuffer.length →
      st.waveBlockBuffer.length < st.cursor + xs.length * c →
      xs.foldlM step st = .error .Undefined := by
  intro xs
  induction xs with
  | nil =>
    intro st _ hin hroom
    simp at hroom
    omega
  | cons x xs ih =>
    intro st hlen hin hroom
    rw [List.length_cons, Nat.add_mul, Nat.one_mul] at hroom
    rw [List.foldlM_cons]
    by_cases hfirst : st.cursor + c ≤ st.waveBlockBuffer.length
    · obtain ⟨st1, h1, c1, l1⟩ := hok st x hlen hfirst
      rw [h1]
      exact ih st1 (by omega) (by omega) (by omega)
    · rw [hfail st x hlen hin (by omega)]
      rfl

/-- The loop over the channels (lines 332-336) with room for one sample of
each channel. -/
theorem emitChannels_fits {α : Type} (wave : Nat → Nat → Nat → α) (bytesPerSample : Nat)
    (encode : α → Nat → Nat) (channelCount i : Nat) (st : EmitState α) (j : Nat)
    (hlen : st.waveBlockBuffer.length < U32)
    (hroom : st.cursor + channelCount * bytesPerSample ≤ st.waveBlockBuffer.length) :
    ∃ st', (List.range channelCount).foldlM
        (fun state k => emitSample (sampleConverter bytesPerSample encode) state (wave k i j))
        st = .ok st' ∧
      st'.cursor = st.cursor + channelCount * bytesPerSample ∧
      st'.waveBlockBuffer.length = st.waveBlockBuffer.length ∧
      st'.calls = st.calls ++ (List.range channelCount).map (fun k => wave k i j) := by
  obtain ⟨st', e1, e2, e3, e4⟩ := foldlM_fits _ bytesPerSample (fun k => [wave k i j])
    (fun st k h1 h2 => emitSample_fits bytesPerSample encode st (wave k i j) h1 h2)
    (List.range channelCount) st hlen (by rw [List.length_range]; exact hroom)
  refine ⟨st', e1, by rw [e2, List.length_range], e3, ?_⟩
  rw [e4]
  congr 1
  induction (List.range channelCount) with
  | nil => rfl
  | cons x xs ih => rw [List.flatMap_cons, List.map_cons, ih]; rfl

/-- The loop over the channels without room for one sample of each channel. -/
theorem emitChannels_overruns {α : Type} (wave : Nat → Nat → Nat → α) (bytesPerSample : Nat)
    (encode : α → Nat → Nat) (channelCount i : Nat) (st : EmitState α) (j : Nat)
    (hlen : st.waveBlockBuffer.length < U32) (hin : st.cursor ≤ st.waveBlockBuffer.length)
    (hroom : st.waveBlockBuffer.length < st.cursor + channelCount * bytesPerSample) :
    (List.range channelCount).foldlM
      (fun state k => emitSample (sampleConverter bytesPerSample encode) state (wave k i j))
      st = .error .Undefined :=
  foldlM_overruns _ bytesPerSample
    (fun st k h1 h2 => by
      obtain ⟨st', e1, e2, e3, -⟩ := emitSample_fits bytesPerSample encode st (wave k i j) h1 h2
      exact ⟨st', e1, e2, e3⟩)
    (fun st k _ _ h => emitSample_overruns bytesPerSample encode st (wave k i j) h)
    (List.range channelCount) st hlen hin (by rw [List.length_range]; exact hroom)

/-- The loop over the 128 samples of a sub-frame (lines 331-337) with room for
them. -/
theorem emitSamples_fits {α : Type} (wave : Nat → Nat → Nat → α) (bytesPerSample : Nat)
    (encode : α → Nat → Nat) (channelCount : Nat) (st : EmitState α) (i : Nat)
    (hlen : st.waveBlockBuffer.length < U32)
    (hroom : st.cursor + 0x80 * (channelCount * bytesPerSample) ≤
      st.waveBlockBuffer.length) :
    ∃ st', (List.range 0x80).foldlM
        (fun state j => (List.range channelCount).foldlM
          (fun state k =>
            emitSample (sampleConverter bytesPerSample encode) state (wave k i j)) state)
        st = .ok st' ∧
      st'.cursor = st.cursor + 0x80 * (channelCount * bytesPerSample) ∧
      st'.waveBlockBuffer.length = st.waveBlockBuffer.length ∧
      st'.calls = st.calls ++ (List.range 0x80).flatMap
        (fun j => (List.range channelCount).map (fun k => wave k i j)) := by
  obtain ⟨st', e1, e2, e3, e4⟩ := foldlM_fits _ (channelCount * bytesPerSample)
    (fun j => (List.range channelCount).map (fun k => wave k i j))
    (emitChannels_fits wave bytesPerSample encode channelCount i) (List.range 0x80) st hlen
    (by rw [List.length_range]; exact hroom)
  exact ⟨st', e1, by rw [e2, List.length_range], e3, e4⟩

/-- The loop over the 128 samples of a sub-frame without room for them. -/
theorem emitSamples_overruns {α : Type} (wave : Nat → Nat → Nat → α) (bytesPerSample : Nat)
    (encode : α → Nat → Nat) (channelCount : Nat) (st : EmitState α) (i : Nat)
    (hlen : st.waveBlockBuffer.length < U32) (hin : st.cursor ≤ st.waveBlockBuffer.length)
    (hroom : st.waveBlockBuffer.length <
      st.cursor + 0x80 * (channelCount * bytesPerSample)) :
    (List.range 0x80).foldlM
      (fun state j => (List.range channelCount).foldlM
        (fun state k =>
          emitSample (sampleConverter bytesPerSample encode) state (wave k i j)) state)
      st = .error .Undefined :=
  foldlM_overruns _ (channelCount * bytesPerSample)
    (fun st j h1 h2 => by
      obtain ⟨st', e1, e2, e3, -⟩ :=
        emitChannels_fits wave bytesPerSample encode channelCount i st j h1 h2
      exact ⟨st', e1, e2, e3⟩)
    (emitChannels_overruns wave bytesPerSample encode channelCount i)
    (List.range 0x80) st hlen hin (by rw [List.length_range]; exact hroom)

/-- The PCM emit with a converter of `bytesPerSample` bytes into a buffer with
room for `8 * 128 * channelCount` samples: the cursor ends behind the last
sample, the buffer keeps its size, and the converter was called once for each
sample, in the order of `emitOrder`. -/
theorem PcmEmit_fits {α : Type} (wave : Nat → Nat → Nat → α) (bytesPerSample : Nat)
    (encode : α → Nat → Nat) (channelCount waveBlockSize : Nat) (hsize : waveBlockSize < U32)
    (hroom : 8 * 0x80 * channelCount * bytesPerSample ≤ waveBlockSize) :
    ∃ st, PcmEmit wave (some (sampleConverter bytesPerSample encode)) channelCount
        waveBlockSize = .ok st ∧
      st.cursor = 8 * 0x80 * channelCount * bytesPerSample ∧
      st.waveBlockBuffer.length = waveBlockSize ∧
      st.calls = emitOrder wave channelCount := by
  have hmul : 8 * 0x80 * channelCount * bytesPerSample =
      8 * (0x80 * (channelCount * bytesPerSample)) := by ring
  rw [hmul] at hroom ⊢
  obtain ⟨st', e1, e2, e3, e4⟩ := foldlM_fits _ (0x80 * (channelCount * bytesPerSample))
    (fun i => (List.range 0x80).flatMap
      (fun j => (List.range channelCount).map (fun k => wave k i j)))
    (emitSamples_fits wave bytesPerSample encode channelCount) (List.range 8)
    { waveBlockBuffer := List.replicate waveBlockSize 0, cursor := 0, calls := [] }
    (by rw [List.length_replicate]; exact hsize)
    (by rw [List.length_replicate, List.length_range]; show 0 + _ ≤ _; omega)
  refine ⟨st', e1, ?_, ?_, ?_⟩
  · rw [e2, List.length_range]
    exact Nat.zero_add _
  · rw [e3, List.length_replicate]
  · rw [e4]
    rfl

/-- The PCM emit with a converter of `bytesPerSample` bytes into a buffer
without room for the `8 * 128 * channelCount` samples stores outside the
buffer. -/
theorem PcmEmit_overruns {α : Type} (wave : Nat → Nat → Nat → α) (bytesPerSample : Nat)
    (encode : α → Nat → Nat) (channelCount waveBlockSize : Nat) (hsize : waveBlockSize < U32)
    (hroom : waveBlockSize < 8 * 0x80 * channelCount * bytesPerSample) :
    PcmEmit wave (some (sampleConverter bytesPerSample encode)) channelCount waveBlockSize =
      .error .Undefined := by
  have hmul : 8 * 0x80 * channelCount * bytesPerSample =
      8 * (0x80 * (channelCount * bytesPerSample)) := by ring
  rw [hmul] at hroom
  exact foldlM_overruns _ (0x80 * (channelCount * bytesPerSample))
    (fun st i h1 h2 => by
      obtain ⟨st', e1, e2, e3, -⟩ :=
        emitSamples_fits wave bytesPerSample encode channelCount st i h1 h2
      exact ⟨st', e1, e2, e3⟩)
    (emitSamples_overruns wave bytesPerSample encode channelCount) (List.range 8)
    { waveBlockBuffer := List.replicate waveBlockSize 0, cursor := 0, calls := [] }
    (by rw [List.length_replicate]; exact hsize) (Nat.zero_le _)
    (by rw [List.length_replicate, List.length_range]; show _ < 0 + _; omega)

theorem getElem_flatMap_uniform {α β : Type} (f : β → List α) (c : Nat)
    (hlen : ∀ x, (f x).length = c) :
    ∀ (xs : List β) (a b : Nat) (x : β), xs[a]? = some x → b < c →
      (xs.flatMap f)[a * c + b]? = (f x)[b]? := by
  intro xs
  induction xs with
  | nil => intro a b x h; simp at h
  | cons y ys ih =>
    intro a b x h hb
    rw [List.flatMap_cons]
    cases a with
    | zero =>
      simp only [List.getElem?_cons_zero, Option.some.injEq] at h
      subst h
      rw [Nat.zero_mul, Nat.zero_add, List.getElem?_append_left (by rw [hlen]; exact hb)]
    | succ a =>
      rw [List.getElem?_cons_succ] at h
      rw [List.getElem?_append_right (by rw [hlen, Nat.succ_mul]; omega), hlen]
      have : (a + 1) * c + b - c = a * c + b := by rw [Nat.succ_mul]; omega
      rw [this]
      exact ih a b x h hb

theorem length_flatMap_uniform {α β : Type} (f : β → List α) (c : Nat)
    (hlen : ∀ x, (f x).length = c) (xs : List β) :
    (xs.flatMap f).length = xs.length * c := by
  induction xs with
  | nil => simp
  | cons y ys ih =>
    rw [List.flatMap_cons, List.length_append, ih, hlen, List.length_cons, Nat.succ_mul]
    omega

/-- The order of the calls by number: the call numbered
`(i * 128 + j) * channelCount + k` gets sub-frame `i`, sample `j`, channel
`k`; there are `8 * 128 * channelCount` calls. -/
theorem emitOrder_numbering {α : Type} (wave : Nat → Nat → Nat → α) (channelCount : Nat) :
    (emitOrder wave channelCount).length = 8 * 0x80 * channelCount ∧
      ∀ i j k, i < 8 → j < 0x80 → k < channelCount →
        (emitOrder wave channelCount)[(i * 0x80 + j) * channelCount + k]? =
          some (wave k i j) := by
  have hinner : ∀ i j, ((List.range channelCount).map (fun k => wave k i j)).length =
      channelCount := fun i j => by rw [List.length_map, List.length_range]
  have hmid : ∀ i, ((List.range 0x80).flatMap
      (fun j => (List.range channelCount).map (fun k => wave k i j))).length =
      0x80 * channelCount := by
    intro i
    rw [length_flatMap_uniform _ channelCount (hinner i), List.length_range]
  constructor
  · unfold emitOrder
    rw [length_flatMap_uniform _ (0x80 * channelCount) hmid, List.length_range]
    ring
  · intro i j k hi hj hk
    unfold emitOrder
    have hidx : (i * 0x80 + j) * channelCount + k =
        i * (0x80 * channelCount) + (j * channelCount + k) := by ring
    have hjk : j * channelCount + k < 0x80 * channelCount := by
      have : (j + 1) * channelCount ≤ 0x80 * channelCount :=
        Nat.mul_le_mul_right _ (by omega)
      rw [Nat.succ_mul] at this
      omega
    rw [hidx, getElem_flatMap_uniform _ (0x80 * channelCount) hmid (List.range 8) i
      (j * channelCount + k) i (by rw [List.getElem?_range hi]) hjk,
      getElem_flatMap_uniform _ channelCount (hinner i) (List.range 0x80) j k j
        (by rw [List.getElem?_range hj]) hk,
      List.getElem?_map, List.getElem?_range hk]
    rfl


/-- With 16-bit output the PCM emit with a converter of 2 bytes per sample
fits the block buffer exactly: it succeeds, the final cursor is
`GetWaveBlockSize()`, the buffer keeps that size, and the calls are those of
`emitOrder`. -/
theorem PcmEmit_pcm16 {α : Type} (wave : Nat → Nat → Nat → α) (encode : α → Nat → Nat)
    (hcaInfo : HCA_INFO) (hcc : 2048 * hcaInfo.channelCount < U32) :
    ∃ st, PcmEmit wave (some (sampleConverter 2 encode)) hcaInfo.channelCount
        (waveBlockSize pcm16Wave hcaInfo) = .ok st ∧
      st.cursor = waveBlockSize pcm16Wave hcaInfo ∧
      st.waveBlockBuffer.length = waveBlockSize pcm16Wave hcaInfo ∧
      st.calls = emitOrder wave hcaInfo.channelCount := by
  have hB : waveBlockSize pcm16Wave hcaInfo = 8 * 0x80 * hcaInfo.channelCount * 2 := by
    have h1 : mul64 0x80 ((if pcm16Wave.BitPerChannel ≠ 0 then
        pcm16Wave.BitPerChannel % U32 else 4) / 1) = 2048 := by decide
    unfold waveBlockSize
    simp only [h1]
    unfold mul64
    rw [U32_eq] at hcc
    rw [U32_eq, U64_eq]
    omega
  have hlt : waveBlockSize pcm16Wave hcaInfo < U32 := waveBlockSize_lt _ _
  obtain ⟨st, e1, e2, e3, e4⟩ := PcmEmit_fits wave 2 encode hcaInfo.channelCount
    (waveBlockSize pcm16Wave hcaInfo) hlt (le_of_eq hB.symm)
  exact ⟨st, e1, e2.trans hB.symm, e3, e4⟩

/-- With float output (bit depth 0) the PCM emit with a converter of 4 bytes
per sample stores outside the block buffer, whatever the number of channels,
as long as there is one. -/
theorem PcmEmit_float {α : Type} (wave : Nat → Nat → Nat → α) (encode : α → Nat → Nat)
    (hcaInfo : HCA_INFO) (hcc : 0 < hcaInfo.channelCount) :
    PcmEmit wave (some (sampleConverter 4 encode)) hcaInfo.channelCount
      (waveBlockSize floatWave hcaInfo) = .error .Undefined := by
  have hB : waveBlockSize floatWave hcaInfo ≤ 512 * hcaInfo.channelCount := by
    have h1 : mul64 0x80 ((if floatWave.BitPerChannel ≠ 0 then
        floatWave.BitPerChannel % U32 else 4) / 1) = 512 := by decide
    unfold waveBlockSize
    simp only [h1]
    unfold mul64
    rw [U32_eq, U64_eq]
    omega
  exact PcmEmit_overruns wave 4 encode hcaInfo.channelCount _ (waveBlockSize_lt _ _)
    (by omega)

/-- C23: with float output (bit depth 0) and one channel `GetWaveBlockSize()`
is 512, and the PCM emit with a converter that stores 4 bytes per sample at
the cursor stores outside the block buffer of that size; its 1024 calls need
4096 bytes, which is where the cursor ends in a buffer of 4096 bytes. -/
theorem PcmEmit_float_overruns_buffer (encode : Nat × Nat × Nat → Nat → Nat) :
    (GetWaveBlockSize floatWave (monoDecoder 1)).1 = 512 ∧
      PcmEmit sampleName (some (sampleConverter 4 encode)) 1
        (GetWaveBlockSize floatWave (monoDecoder 1)).1 = .error .Undefined ∧
      ∃ st, PcmEmit sampleName (some (sampleConverter 4 encode)) 1 4096 = .ok st ∧
        st.cursor = 4096 ∧ st.calls.length = 1024 := by
  have h512 : (GetWaveBlockSize floatWave (monoDecoder 1)).1 = 512 := by decide
  refine ⟨h512, ?_, ?_⟩
  · rw [h512]
    exact PcmEmit_overruns sampleName 4 encode 1 512 (by decide) (by decide)
  · obtain ⟨st, e1, e2, -, e4⟩ := PcmEmit_fits sampleName 4 encode 1 4096 (by decide)
      (by decide)
    refine ⟨st, e1, e2, ?_⟩
    rw [e4, (emitOrder_numbering sampleName 1).1]
end Cgss
